import Mathlib

/-!
# Onboarding workflow of the investment platform backend

A shallow embedding of the request handlers of `src/server/server2.js`
(signup, login, authentication middleware, onboarding submission and status,
pending list, application detail, employee assignment, status update) over an
explicit model of the SQLite tables `users`, `onboarding_applications`,
`admin_tasks`, `employees` and of the uploads directory, and of three client
functions: `parseJsonArray` and `filteredApplications` of
`src/client/src/components/Admin.jsx` and `handleFundSelectionChange` of
`src/client/src/components/OnboardingContent.jsx`.

Conventions of the embedding.

* A handler is a function from the database before the request to the
  database after it together with the HTTP response.
* `parseInt(x, 10)` results are inputs of type `Option Int`; `none` is `NaN`.
* A multipart text field or JSON body field is an `Option String`; `none` is
  `undefined`.
* The outcome of each `db.run` / `db.get` / `db.all` call (the `err` argument
  of its callback) is an explicit boolean input of the handler.
* `CURRENT_TIMESTAMP` and `Date.now()` are explicit clock inputs.
* `fs.unlink` on an existing path removes that path from the uploads
  directory.
* `jwt.verify`, `jwt.sign`, `bcrypt.hash`, `bcrypt.compare` and `parseFloat`
  are parameters or explicit inputs; `JSON.parse` is modelled by a reader of
  the JSON grammar.
-/

namespace InvestManager

/-! ## Tables -/

/-- A row of `onboarding_applications` (server2.js, lines 83-108). -/
structure Application where
  id : Int
  user_id : Int
  full_name : Option String
  govt_id_number : Option String
  mobile : Option String
  email : Option String
  time_horizon : Option String
  risk_tolerance : Option String
  investments_owned : String
  acceptable_annual_return : Option String
  dob : Option String
  nationality : Option String
  address : Option String
  client_type : Option String
  govt_id_file_path : String
  contact_details : Option String
  source_of_funds : Option String
  occupation_details : Option String
  income_proof_file_path : String
  selected_funds : String
  terms_accepted : Nat
  submission_date : Nat
  status : String
  deriving DecidableEq, Repr

/-- A row of `admin_tasks` (server2.js, lines 117-126). -/
structure Task where
  id : Int
  application_id : Int
  assigned_to_employee_id : Option Int
  status : String
  created_at : Nat
  updated_at : Nat
  deriving DecidableEq, Repr

/-- A row of `employees` (server2.js, lines 135-139). -/
structure Employee where
  id : Int
  name : String
  position : String
  deriving DecidableEq, Repr

/-- The persistent state: the three tables, the `sqlite_sequence` counters of
the two AUTOINCREMENT keys, and the paths present in the uploads directory. -/
structure Db where
  applications : List Application
  tasks : List Task
  employees : List Employee
  appSeq : Int
  taskSeq : Int
  files : List String
  deriving DecidableEq, Repr

/-- The placeholder roster inserted at start-up (server2.js, lines 145-152). -/
def placeholderEmployees : List Employee :=
  [ ⟨1, "Alice Smith", "Onboarding Specialist"⟩,
    ⟨2, "Bob Johnson", "Compliance Officer"⟩,
    ⟨3, "Charlie Brown", "Client Relations"⟩,
    ⟨4, "Diana Prince", "Senior Analyst"⟩,
    ⟨5, "Ethan Hunt", "Operations Manager"⟩ ]

/-- The database right after the tables have been created and the roster
inserted: no application, no task, an empty uploads directory. -/
def emptyDb : Db :=
  { applications := [], tasks := [], employees := placeholderEmployees,
    appSeq := 0, taskSeq := 0, files := [] }

/-- Largest value of a list of row ids, `0` for the empty table. -/
def maxId (ids : List Int) : Int := ids.foldr max 0

/-- The key an `INTEGER PRIMARY KEY AUTOINCREMENT` column gives the next row:
one more than the largest key the table holds or has ever held. -/
def nextId (seq : Int) (ids : List Int) : Int := max seq (maxId ids) + 1

/-! ## Requests and responses -/

/-- The payload of a verified token (`req.user`). -/
structure TokenUser where
  id : Int
  username : String
  role : String
  deriving DecidableEq, Repr

/-- The text fields of the multipart onboarding form (`req.body`). -/
structure FormData where
  fullName : Option String
  govtIdNumber : Option String
  mobile : Option String
  email : Option String
  timeHorizon : Option String
  riskTolerance : Option String
  investmentsOwned : Option String
  acceptableAnnualReturn : Option String
  dob : Option String
  nationality : Option String
  address : Option String
  clientType : Option String
  contactDetails : Option String
  sourceOfFunds : Option String
  occupationDetails : Option String
  selectedFunds : Option String
  termsAccepted : Option String
  deriving DecidableEq, Repr

/-- A file part of the multipart request, before it is stored. -/
structure FilePart where
  originalname : String
  deriving DecidableEq, Repr

/-- A file as multer hands it to the handler once written to disk. -/
structure UploadedFile where
  originalname : String
  path : String
  deriving DecidableEq, Repr

/-- A row of the pending list (the SELECT of server2.js, lines 412-430). -/
structure PendingRow where
  id : Int
  user_id : Int
  full_name : Option String
  submission_date : Nat
  application_status : String
  task_id : Int
  task_status : String
  assigned_to_employee_id : Option Int
  deriving DecidableEq, Repr

/-- A row of the detail query: `oa.*` and the task's assignee
(server2.js, lines 453-463). -/
structure DetailRow where
  app : Application
  assigned_to_employee_id : Option Int
  deriving DecidableEq, Repr

/-- The JSON bodies the handlers send. -/
inductive Body where
  | none
  | error (msg : String)
  | submitted (message : String) (applicationId : Int) (status : String)
  | pending (rows : List PendingRow)
  | detail (row : DetailRow)
  | assigned (message : String) (applicationId : Int) (assignedToEmployeeId : Int)
  | statusUpdated (message : String) (applicationId : Int) (newStatus : String)
  | employees (rows : List Employee)
  | onboardingStatus (status : String)
  | registered (message : String) (userId : Int)
  | loggedIn (message : String) (accessToken : String) (user : TokenUser)
  | dashboard (message : String) (user : TokenUser)
  deriving DecidableEq, Repr

/-- An HTTP response: status code and body. -/
structure Response where
  status : Nat
  body : Body
  deriving DecidableEq, Repr

/-! ## JavaScript helpers -/

/-- JavaScript truthiness of a value that is `undefined` or a string. -/
def truthy : Option String → Bool
  | Option.none => false
  | some s => s != ""

/-- JavaScript truthiness of a number. -/
def truthyNum (n : Int) : Bool := n != 0

/-- A hexadecimal digit, lower case. -/
def hexDigit (n : Nat) : Char :=
  if n < 10 then Char.ofNat (48 + n) else Char.ofNat (87 + n)

/-- The escape `JSON.stringify` writes for one character of a string. -/
def quoteJsonChar (c : Char) : List Char :=
  if c = '"' then ['\\', '"']
  else if c = '\\' then ['\\', '\\']
  else if c.toNat = 8 then ['\\', 'b']
  else if c.toNat = 12 then ['\\', 'f']
  else if c.toNat = 10 then ['\\', 'n']
  else if c.toNat = 13 then ['\\', 'r']
  else if c.toNat = 9 then ['\\', 't']
  else if c.toNat < 32 then
    ['\\', 'u', '0', '0', hexDigit (c.toNat / 16), hexDigit (c.toNat % 16)]
  else [c]

/-- The value of `JSON.stringify(s)` for a string `s`. -/
def quoteJsonString (s : String) : String :=
  String.mk ('"' :: (s.toList.flatMap quoteJsonChar ++ ['"']))

/-- The value of `JSON.stringify(field || [])` for a form field
(server2.js, lines 338-339): `[]` for an absent or empty field, the quoted
string otherwise. -/
def stringifyOrEmptyArray (field : Option String) : String :=
  if truthy field then quoteJsonString (field.getD "") else "[]"

/-! ## Uploads -/

/-- The stored file name multer is configured with
(server2.js, line 39): the clock reading, a dash, the original name. -/
def storedFilename (dateNow : Nat) (originalname : String) : String :=
  toString dateNow ++ "-" ++ originalname

/-- The upload directory, relative to the server directory. -/
def uploadPath : String := "uploads"

/-- The disk storage engine on one file part: the file is written under the
upload directory with its stored name. -/
def storeFile (files : List String) (dateNow : Nat) (part : FilePart) :
    List String × UploadedFile :=
  let path := uploadPath ++ "/" ++ storedFilename dateNow part.originalname
  (if path ∈ files then files else files ++ [path],
   { originalname := part.originalname, path := path })

/-- The cleanup statement `if (file && fs.existsSync(file.path)) fs.unlink(file.path, ...)`. -/
def unlinkIfExists (files : List String) (file : Option UploadedFile) : List String :=
  match file with
  | Option.none => files
  | some f => if f.path ∈ files then files.filter (fun p => p ≠ f.path) else files

/-- The upload middleware `upload.fields` on the two optional file parts
(server2.js, lines 312-315): each part present is stored, `govtIdFile` at
clock reading `t1` and `incomeProofFile` at clock reading `t2`. -/
def uploadFields (files : List String) (t1 t2 : Nat)
    (govtIdPart incomeProofPart : Option FilePart) :
    List String × Option UploadedFile × Option UploadedFile :=
  let r1 : List String × Option UploadedFile :=
    match govtIdPart with
    | Option.none => (files, Option.none)
    | some p => ((storeFile files t1 p).1, some (storeFile files t1 p).2)
  let r2 : List String × Option UploadedFile :=
    match incomeProofPart with
    | Option.none => (r1.1, Option.none)
    | some p => ((storeFile r1.1 t2 p).1, some (storeFile r1.1 t2 p).2)
  (r2.1, r1.2, r2.2)

/-! ## POST /api/onboarding -/

/-- The rejection condition of the onboarding handler
(server2.js, lines 326-329). -/
def validationFails (userId : Int) (formData : FormData)
    (govtIdFile incomeProofFile : Option UploadedFile) : Bool :=
  !truthyNum userId || !truthy formData.fullName || !truthy formData.govtIdNumber ||
  !truthy formData.mobile || !truthy formData.email ||
  !truthy formData.timeHorizon || !truthy formData.riskTolerance ||
  formData.acceptableAnnualReturn == some "" ||
  !truthy formData.dob || !truthy formData.nationality || !truthy formData.address ||
  !truthy formData.clientType || !govtIdFile.isSome ||
  !truthy formData.sourceOfFunds || !truthy formData.occupationDetails ||
  !incomeProofFile.isSome || formData.termsAccepted != some "true"

/-- The row bound to the INSERT of server2.js, lines 344-373, with the key and
the submission date the database fills in. -/
def newApplication (applicationId : Int) (now : Nat) (userId : Int) (formData : FormData)
    (govtIdFile incomeProofFile : UploadedFile) : Application :=
  { id := applicationId
    user_id := userId
    full_name := formData.fullName
    govt_id_number := formData.govtIdNumber
    mobile := formData.mobile
    email := formData.email
    time_horizon := formData.timeHorizon
    risk_tolerance := formData.riskTolerance
    investments_owned := stringifyOrEmptyArray formData.investmentsOwned
    acceptable_annual_return := formData.acceptableAnnualReturn
    dob := formData.dob
    nationality := formData.nationality
    address := formData.address
    client_type := formData.clientType
    govt_id_file_path := govtIdFile.path
    contact_details := formData.contactDetails
    source_of_funds := formData.sourceOfFunds
    occupation_details := formData.occupationDetails
    income_proof_file_path := incomeProofFile.path
    selected_funds := stringifyOrEmptyArray formData.selectedFunds
    terms_accepted := if formData.termsAccepted = some "true" then 1 else 0
    submission_date := now
    status := "pending" }

/-- The effect of `INSERT INTO onboarding_applications` when it succeeds. -/
def insertApplication (db : Db) (row : Application) : Db :=
  { db with applications := db.applications ++ [row], appSeq := row.id }

/-- The effect of `INSERT INTO admin_tasks (application_id, status)` when it
succeeds (server2.js, line 388): the assignee defaults to NULL, both
timestamps to the clock. -/
def insertTask (db : Db) (applicationId : Int) (status : String) (now : Nat) : Db :=
  let taskId := nextId db.taskSeq (db.tasks.map (fun t => t.id))
  { db with
    tasks := db.tasks ++ [{ id := taskId, application_id := applicationId,
                            assigned_to_employee_id := Option.none, status := status,
                            created_at := now, updated_at := now }]
    taskSeq := taskId }

/-- The two cleanup statements run on a rejected or failed submission
(server2.js, lines 332-333 and 379-380). -/
def cleanupFiles (db : Db) (govtIdFile incomeProofFile : Option UploadedFile) : Db :=
  { db with files := unlinkIfExists (unlinkIfExists db.files govtIdFile) incomeProofFile }

/-- The handler of `POST /api/onboarding` after authentication and upload
(server2.js, lines 315-402). `now` and `taskNow` are the clock at the two
inserts; `appInsertFails` and `taskInsertFails` say whether each insert
reports an error. -/
def submitApplication (db : Db) (now taskNow : Nat) (appInsertFails taskInsertFails : Bool)
    (user : TokenUser) (formData : FormData)
    (govtIdFile incomeProofFile : Option UploadedFile) : Db × Response :=
  if validationFails user.id formData govtIdFile incomeProofFile then
    (cleanupFiles db govtIdFile incomeProofFile,
     ⟨400, Body.error "Missing required onboarding data or files."⟩)
  else
    match govtIdFile, incomeProofFile with
    | some g, some i =>
      if appInsertFails then
        (cleanupFiles db govtIdFile incomeProofFile,
         ⟨500, Body.error "Error saving onboarding application."⟩)
      else
        let applicationId := nextId db.appSeq (db.applications.map (fun a => a.id))
        let db1 := insertApplication db (newApplication applicationId now user.id formData g i)
        let db2 := if taskInsertFails then db1 else insertTask db1 applicationId "open" taskNow
        (db2, ⟨201, Body.submitted "Onboarding application submitted successfully"
                      applicationId "pending"⟩)
    | _, _ =>
      -- not taken: a missing file fails the validation above
      (cleanupFiles db govtIdFile incomeProofFile,
       ⟨400, Body.error "Missing required onboarding data or files."⟩)

/-- The route `POST /api/onboarding` for an authenticated caller: the upload
middleware, then the handler. -/
def onboardingRoute (db : Db) (t1 t2 now taskNow : Nat) (appInsertFails taskInsertFails : Bool)
    (user : TokenUser) (formData : FormData)
    (govtIdPart incomeProofPart : Option FilePart) : Db × Response :=
  let up := uploadFields db.files t1 t2 govtIdPart incomeProofPart
  submitApplication { db with files := up.1 } now taskNow appInsertFails taskInsertFails
    user formData up.2.1 up.2.2

/-! ## GET /api/admin/onboarding/pending -/

/-- The row the pending query selects from one joined pair. -/
def pendingRow (oa : Application) (t : Task) : PendingRow :=
  { id := oa.id, user_id := oa.user_id, full_name := oa.full_name,
    submission_date := oa.submission_date, application_status := oa.status,
    task_id := t.id, task_status := t.status,
    assigned_to_employee_id := t.assigned_to_employee_id }

/-- The JOIN and WHERE of the pending query (server2.js, lines 422-427),
before ordering. -/
def pendingJoin (db : Db) : List PendingRow :=
  db.applications.flatMap fun oa =>
    (db.tasks.filter fun t =>
      decide (oa.id = t.application_id) && (oa.status == "pending" && t.status == "open")).map
      (pendingRow oa)

/-- The whole pending query: the join ordered by `submission_date` ascending. -/
def pendingQuery (db : Db) : List PendingRow :=
  (pendingJoin db).insertionSort (fun r1 r2 => r1.submission_date ≤ r2.submission_date)

/-- The handler of `GET /api/admin/onboarding/pending`
(server2.js, lines 408-441). -/
def listPending (db : Db) (queryFails : Bool) : Response :=
  if queryFails then ⟨500, Body.error "Error fetching pending applications."⟩
  else ⟨200, Body.pending (pendingQuery db)⟩

/-! ## GET /api/admin/onboarding/application/:applicationId -/

/-- The first row of the detail query (server2.js, lines 453-465): the
application with the given key, left-joined with its task. -/
def detailQuery (db : Db) (applicationId : Int) : Option DetailRow :=
  match db.applications.find? (fun oa => decide (oa.id = applicationId)) with
  | Option.none => Option.none
  | some oa =>
    some { app := oa
           assigned_to_employee_id :=
             (db.tasks.find? (fun t => decide (oa.id = t.application_id))).bind
               (fun t => t.assigned_to_employee_id) }

/-- The handler of `GET /api/admin/onboarding/application/:applicationId`
(server2.js, lines 444-479). -/
def getApplicationDetail (db : Db) (queryFails : Bool) (applicationId : Option Int) : Response :=
  match applicationId with
  | Option.none => ⟨400, Body.error "Invalid application ID provided."⟩
  | some a =>
    if queryFails then
      ⟨500, Body.error ("Error fetching application details for ID " ++ toString a ++ ".")⟩
    else
      match detailQuery db a with
      | Option.none => ⟨404, Body.error ("Application with ID " ++ toString a ++ " not found.")⟩
      | some row => ⟨200, Body.detail row⟩

/-! ## POST /api/admin/onboarding/application/:applicationId/assign -/

/-- The UPDATE of server2.js, lines 520-528, on one task row. -/
def assignTask (assignedToEmployeeId applicationId : Int) (now : Nat) (t : Task) : Task :=
  if t.application_id = applicationId then
    { t with assigned_to_employee_id := some assignedToEmployeeId,
             status := "in_progress", updated_at := now }
  else t

/-- The handler of the assign endpoint (server2.js, lines 499-548).
`employeeQueryFails` and `updateFails` say whether the SELECT on `employees`
and the UPDATE on `admin_tasks` report an error. -/
def assignEmployee (db : Db) (now : Nat) (employeeQueryFails updateFails : Bool)
    (applicationId assignedToEmployeeId : Option Int) : Db × Response :=
  match applicationId, assignedToEmployeeId with
  | some a, some e =>
    if employeeQueryFails then (db, ⟨500, Body.error "Error validating employee."⟩)
    else if (db.employees.find? (fun r => decide (r.id = e))).isNone then
      (db, ⟨404, Body.error ("Employee with ID " ++ toString e ++ " not found.")⟩)
    else if updateFails then (db, ⟨500, Body.error "Error assigning employee."⟩)
    else
      let changes := (db.tasks.filter (fun t => decide (t.application_id = a))).length
      let db1 := { db with tasks := db.tasks.map (assignTask e a now) }
      if changes = 0 then
        (db1, ⟨404, Body.error ("Admin task for application ID " ++ toString a ++ " not found.")⟩)
      else
        (db1, ⟨200, Body.assigned "Employee assigned successfully" a e⟩)
  | _, _ => (db, ⟨400, Body.error "Invalid application ID or employee ID provided."⟩)

/-! ## POST /api/admin/onboarding/application/:applicationId/status -/

/-- The accepted status values (server2.js, line 561). -/
def validStatuses : List String := ["pending", "approved", "rejected"]

/-- The UPDATE of server2.js, lines 567-573, on one application row. -/
def setApplicationStatus (newStatus : String) (applicationId : Int) (oa : Application) :
    Application :=
  if oa.id = applicationId then { oa with status := newStatus } else oa

/-- The task status chosen for a new application status
(server2.js, lines 591-594). -/
def taskStatusFor (newStatus : String) : String :=
  if newStatus = "approved" ∨ newStatus = "rejected" then "completed" else "in_progress"

/-- The UPDATE of server2.js, lines 596-603, on one task row. -/
def setTaskStatus (taskStatus : String) (applicationId : Int) (now : Nat) (t : Task) : Task :=
  if t.application_id = applicationId then
    { t with status := taskStatus, updated_at := now }
  else t

/-- The handler of the status endpoint (server2.js, lines 551-622).
`appUpdateFails` and `taskUpdateFails` say whether the UPDATE on
`onboarding_applications` and the secondary UPDATE on `admin_tasks` report an
error. -/
def updateStatus (db : Db) (now : Nat) (appUpdateFails taskUpdateFails : Bool)
    (applicationId : Option Int) (newStatus : Option String) : Db × Response :=
  match applicationId, newStatus with
  | some a, some s =>
    if s = "" then (db, ⟨400, Body.error "Invalid application ID or status provided."⟩)
    else if ¬ s ∈ validStatuses then
      (db, ⟨400, Body.error ("Invalid status value: " ++ s ++ ". Must be one of: " ++
                  ", ".intercalate validStatuses)⟩)
    else if appUpdateFails then (db, ⟨500, Body.error "Error updating application status."⟩)
    else
      let changes := (db.applications.filter (fun oa => decide (oa.id = a))).length
      let db1 := { db with applications := db.applications.map (setApplicationStatus s a) }
      if changes = 0 then
        (db1, ⟨404, Body.error ("Onboarding application with ID " ++ toString a ++
                      " not found.")⟩)
      else
        let db2 :=
          if taskUpdateFails then db1
          else { db1 with tasks := db1.tasks.map (setTaskStatus (taskStatusFor s) a now) }
        (db2, ⟨200, Body.statusUpdated "Application status updated successfully" a s⟩)
  | _, _ => (db, ⟨400, Body.error "Invalid application ID or status provided."⟩)

/-! ## GET /api/admin/employees -/

/-- The handler of `GET /api/admin/employees` (server2.js, lines 483-496):
the roster ordered by name. -/
def listEmployees (db : Db) (queryFails : Bool) : Response :=
  if queryFails then ⟨500, Body.error "Error fetching employees."⟩
  else ⟨200, Body.employees (db.employees.insertionSort (fun a b => a.name ≤ b.name))⟩

/-! ## GET /api/user/onboarding-status/:userId -/

/-- The query of server2.js, line 292: the application of the user with the
latest `submission_date`, if the user has one. -/
def latestApplication (db : Db) (userId : Int) : Option Application :=
  ((db.applications.filter (fun oa => decide (oa.user_id = userId))).insertionSort
    (fun a b => b.submission_date ≤ a.submission_date)).head?

/-- The handler of `GET /api/user/onboarding-status/:userId`
(server2.js, lines 280-307). A requested id that is `NaN` is bound as NULL and
matches no row. -/
def onboardingStatus (db : Db) (queryFails : Bool) (user : TokenUser)
    (requestedUserId : Option Int) : Response :=
  if requestedUserId ≠ some user.id ∧ user.role ≠ "admin" then ⟨403, Body.none⟩
  else if queryFails then ⟨500, Body.error "Error fetching onboarding status."⟩
  else
    match requestedUserId.bind (latestApplication db) with
    | some row => ⟨200, Body.onboardingStatus row.status⟩
    | Option.none => ⟨200, Body.onboardingStatus "not_started"⟩

/-! ## Authentication and authorisation middleware -/

/-- The parts of `s.split(' ')`, on the characters of `s`. -/
def splitSpace : List Char → List (List Char)
  | [] => [[]]
  | c :: cs =>
    if c = ' ' then [] :: splitSpace cs
    else
      match splitSpace cs with
      | [] => [[c]]
      | p :: ps => (c :: p) :: ps

/-- The expression `authHeader && authHeader.split(' ')[1]`
(server2.js, line 169); `none` is `undefined`. -/
def bearerToken (authHeader : Option String) : Option String :=
  match authHeader with
  | Option.none => Option.none
  | some h => if h = "" then some "" else ((splitSpace h.toList)[1]?).map String.mk

/-- The outcome of the authentication middleware: a response sent at once, or
the user attached to the request and passed on. -/
inductive AuthResult where
  | rejected (response : Response)
  | user (payload : TokenUser)
  deriving DecidableEq, Repr

/-- The middleware `authenticateJWT` (server2.js, lines 167-182). `verify` is
`jwt.verify` with the server secret: the payload of a token whose signature
and expiry check out, `none` when the callback receives an error. -/
def authenticateJWT (verify : String → Option TokenUser) (authHeader : Option String) :
    AuthResult :=
  match bearerToken authHeader with
  | Option.none => AuthResult.rejected ⟨401, Body.none⟩
  | some token =>
    match verify token with
    | Option.none => AuthResult.rejected ⟨403, Body.none⟩
    | some user => AuthResult.user user

/-- The test of the middleware `isAdmin` (server2.js, line 186). -/
def isAdmin (user : TokenUser) : Bool := user.role == "admin"

/-- A route behind `authenticateJWT`: the handler runs only on a verified
token. -/
def protectedRoute (verify : String → Option TokenUser) (authHeader : Option String)
    (db : Db) (handler : TokenUser → Db × Response) : Db × Response :=
  match authenticateJWT verify authHeader with
  | AuthResult.rejected r => (db, r)
  | AuthResult.user u => handler u

/-- A route behind `authenticateJWT, isAdmin`: the handler runs only for a
verified token whose role is `admin`. -/
def adminRoute (verify : String → Option TokenUser) (authHeader : Option String)
    (db : Db) (handler : TokenUser → Db × Response) : Db × Response :=
  protectedRoute verify authHeader db
    (fun u => if isAdmin u then handler u else (db, ⟨403, Body.none⟩))

/-- The route `GET /api/dashboard` (server2.js, lines 274-277). -/
def dashboardEndpoint (verify : String → Option TokenUser) (authHeader : Option String)
    (db : Db) : Db × Response :=
  protectedRoute verify authHeader db (fun u =>
    (db, ⟨200, Body.dashboard "Welcome to the dashboard!" u⟩))

/-- The route `POST /api/onboarding` (server2.js, line 312). -/
def onboardingEndpoint (verify : String → Option TokenUser) (authHeader : Option String)
    (db : Db) (t1 t2 now taskNow : Nat) (appInsertFails taskInsertFails : Bool)
    (formData : FormData) (govtIdPart incomeProofPart : Option FilePart) : Db × Response :=
  protectedRoute verify authHeader db (fun u =>
    onboardingRoute db t1 t2 now taskNow appInsertFails taskInsertFails u formData
      govtIdPart incomeProofPart)

/-- The route `GET /api/user/onboarding-status/:userId` (server2.js, line 280). -/
def onboardingStatusEndpoint (verify : String → Option TokenUser) (authHeader : Option String)
    (db : Db) (queryFails : Bool) (requestedUserId : Option Int) : Db × Response :=
  protectedRoute verify authHeader db (fun u =>
    (db, onboardingStatus db queryFails u requestedUserId))

/-- The route `GET /api/admin/onboarding/pending` (server2.js, line 408). -/
def pendingEndpoint (verify : String → Option TokenUser) (authHeader : Option String)
    (db : Db) (queryFails : Bool) : Db × Response :=
  adminRoute verify authHeader db (fun _ => (db, listPending db queryFails))

/-- The route `GET /api/admin/onboarding/application/:applicationId`
(server2.js, line 444). -/
def detailEndpoint (verify : String → Option TokenUser) (authHeader : Option String)
    (db : Db) (queryFails : Bool) (applicationId : Option Int) : Db × Response :=
  adminRoute verify authHeader db (fun _ => (db, getApplicationDetail db queryFails applicationId))

/-- The route `GET /api/admin/employees` (server2.js, line 483). -/
def employeesEndpoint (verify : String → Option TokenUser) (authHeader : Option String)
    (db : Db) (queryFails : Bool) : Db × Response :=
  adminRoute verify authHeader db (fun _ => (db, listEmployees db queryFails))

/-- The route `POST /api/admin/onboarding/application/:applicationId/assign`
(server2.js, line 499). -/
def assignEndpoint (verify : String → Option TokenUser) (authHeader : Option String)
    (db : Db) (now : Nat) (employeeQueryFails updateFails : Bool)
    (applicationId assignedToEmployeeId : Option Int) : Db × Response :=
  adminRoute verify authHeader db (fun _ =>
    assignEmployee db now employeeQueryFails updateFails applicationId assignedToEmployeeId)

/-- The route `POST /api/admin/onboarding/application/:applicationId/status`
(server2.js, line 551). -/
def statusEndpoint (verify : String → Option TokenUser) (authHeader : Option String)
    (db : Db) (now : Nat) (appUpdateFails taskUpdateFails : Bool)
    (applicationId : Option Int) (newStatus : Option String) : Db × Response :=
  adminRoute verify authHeader db (fun _ =>
    updateStatus db now appUpdateFails taskUpdateFails applicationId newStatus)

/-! ## JSON text: `JSON.stringify` on string arrays and `JSON.parse` -/

/-- A value `JSON.parse` returns. A number is kept as its literal text. A
`\u` escape that is a lone surrogate is read as U+FFFD. -/
inductive Json where
  | null
  | bool (b : Bool)
  | num (literal : String)
  | str (s : String)
  | arr (items : List Json)
  | obj (members : List (String × Json))

/-- The value of `JSON.stringify(xs)` for an array of strings. -/
def stringifyStringArray (xs : List String) : String :=
  "[" ++ ",".intercalate (xs.map quoteJsonString) ++ "]"

/-- The field `investmentsOwned` as the onboarding form appends it
(OnboardingContent.jsx, line 175). -/
def clientInvestmentsOwned (investmentsOwned : List String) : Option String :=
  some (stringifyStringArray investmentsOwned)

/-- JSON white space. -/
def isJsonSpace (c : Char) : Bool :=
  c = ' ' || c = '\t' || c = '\n' || c = '\r'

/-- Drop leading JSON white space. -/
def skipJsonSpace : List Char → List Char
  | [] => []
  | c :: cs => if isJsonSpace c then skipJsonSpace cs else c :: cs

/-- The value of a hexadecimal digit. -/
def hexValue (c : Char) : Option Nat :=
  if '0' ≤ c ∧ c ≤ '9' then some (c.toNat - 48)
  else if 'a' ≤ c ∧ c ≤ 'f' then some (c.toNat - 87)
  else if 'A' ≤ c ∧ c ≤ 'F' then some (c.toNat - 55)
  else Option.none

/-- The code unit written by four hexadecimal digits. -/
def hex4 (a b c d : Char) : Option Nat :=
  match hexValue a, hexValue b, hexValue c, hexValue d with
  | some x, some y, some z, some w => some (((x * 16 + y) * 16 + z) * 16 + w)
  | _, _, _, _ => Option.none

/-- The character of a `\u` escape with code unit `n`, given the code unit of
a `\u` escape that follows it directly, if any; the boolean says whether the
following escape is consumed as the low half of a surrogate pair. -/
def unicodeEscape (n : Nat) (following : Option Nat) : Char × Bool :=
  if 0xD800 ≤ n ∧ n < 0xDC00 then
    match following with
    | some m =>
      if 0xDC00 ≤ m ∧ m < 0xE000 then
        (Char.ofNat (0x10000 + (n - 0xD800) * 0x400 + (m - 0xDC00)), true)
      else (Char.ofNat 0xFFFD, false)
    | Option.none => (Char.ofNat 0xFFFD, false)
  else if 0xDC00 ≤ n ∧ n < 0xE000 then (Char.ofNat 0xFFFD, false)
  else (Char.ofNat n, false)

/-- The code unit of a `\u` escape at the head of the input, if there is one. -/
def peekUnicodeEscape : List Char → Option Nat
  | '\\' :: 'u' :: a :: b :: c :: d :: _ => hex4 a b c d
  | _ => Option.none

/-- Read the rest of a JSON string after its opening quote: the decoded
characters (accumulated in reverse) and the input after the closing quote. -/
def parseJsonStringBody : Nat → List Char → List Char → Option (String × List Char)
  | 0, _, _ => Option.none
  | _ + 1, _, [] => Option.none
  | fuel + 1, acc, c :: cs =>
    if c = '"' then some (String.mk acc.reverse, cs)
    else if c = '\\' then
      match cs with
      | '"' :: rest => parseJsonStringBody fuel ('"' :: acc) rest
      | '\\' :: rest => parseJsonStringBody fuel ('\\' :: acc) rest
      | '/' :: rest => parseJsonStringBody fuel ('/' :: acc) rest
      | 'b' :: rest => parseJsonStringBody fuel (Char.ofNat 8 :: acc) rest
      | 'f' :: rest => parseJsonStringBody fuel (Char.ofNat 12 :: acc) rest
      | 'n' :: rest => parseJsonStringBody fuel ('\n' :: acc) rest
      | 'r' :: rest => parseJsonStringBody fuel ('\r' :: acc) rest
      | 't' :: rest => parseJsonStringBody fuel ('\t' :: acc) rest
      | 'u' :: a :: b :: c1 :: d :: rest =>
        match hex4 a b c1 d with
        | Option.none => Option.none
        | some n =>
          let r := unicodeEscape n (peekUnicodeEscape rest)
          parseJsonStringBody fuel (r.1 :: acc) (if r.2 then rest.drop 6 else rest)
      | _ => Option.none
    else if c.toNat < 32 then Option.none
    else parseJsonStringBody fuel (c :: acc) cs

/-- Split off the longest prefix of decimal digits. -/
def spanDigits : List Char → List Char × List Char
  | [] => ([], [])
  | c :: cs =>
    if c.isDigit then ((c :: (spanDigits cs).1), (spanDigits cs).2) else ([], c :: cs)

/-- Read a JSON number: its literal and the input after it. -/
def parseJsonNumber (cs : List Char) : Option (List Char × List Char) :=
  let sign : List Char × List Char :=
    match cs with
    | '-' :: rest => (['-'], rest)
    | _ => ([], cs)
  let intPart : Option (List Char × List Char) :=
    match sign.2 with
    | '0' :: rest => some (['0'], rest)
    | c :: rest =>
      if c.isDigit then some (c :: (spanDigits rest).1, (spanDigits rest).2) else Option.none
    | [] => Option.none
  match intPart with
  | Option.none => Option.none
  | some (ds, afterInt) =>
    let frac : Option (List Char × List Char) :=
      match afterInt with
      | '.' :: rest =>
        if (spanDigits rest).1 = [] then Option.none
        else some ('.' :: (spanDigits rest).1, (spanDigits rest).2)
      | _ => some ([], afterInt)
    match frac with
    | Option.none => Option.none
    | some (fs, afterFrac) =>
      let expo : Option (List Char × List Char) :=
        match afterFrac with
        | e :: rest =>
          if e = 'e' ∨ e = 'E' then
            let signed : List Char × List Char :=
              match rest with
              | '+' :: r => (['+'], r)
              | '-' :: r => (['-'], r)
              | _ => ([], rest)
            if (spanDigits signed.2).1 = [] then Option.none
            else some (e :: (signed.1 ++ (spanDigits signed.2).1), (spanDigits signed.2).2)
          else some ([], afterFrac)
        | [] => some ([], afterFrac)
      match expo with
      | Option.none => Option.none
      | some (es, afterExp) => some (sign.1 ++ ds ++ fs ++ es, afterExp)

/-- Drop a keyword from the head of the input. -/
def dropKeyword (keyword : List Char) (cs : List Char) : Option (List Char) :=
  if keyword.isPrefixOf cs then some (cs.drop keyword.length) else Option.none

mutual

/-- Read one JSON value, without surrounding white space. -/
def parseJsonValue : Nat → List Char → Option (Json × List Char)
  | 0, _ => Option.none
  | _ + 1, [] => Option.none
  | fuel + 1, c :: cs =>
    if c = '"' then
      match parseJsonStringBody (cs.length + 1) [] cs with
      | some (s, rest) => some (Json.str s, rest)
      | Option.none => Option.none
    else if c = '[' then
      match skipJsonSpace cs with
      | ']' :: rest => some (Json.arr [], rest)
      | inner =>
        match parseJsonElements fuel inner with
        | some (items, rest) => some (Json.arr items, rest)
        | Option.none => Option.none
    else if c = '{' then
      match skipJsonSpace cs with
      | '}' :: rest => some (Json.obj [], rest)
      | inner =>
        match parseJsonMembers fuel inner with
        | some (members, rest) => some (Json.obj members, rest)
        | Option.none => Option.none
    else if c = 'n' then (dropKeyword ['n', 'u', 'l', 'l'] (c :: cs)).map (fun r => (Json.null, r))
    else if c = 't' then
      (dropKeyword ['t', 'r', 'u', 'e'] (c :: cs)).map (fun r => (Json.bool true, r))
    else if c = 'f' then
      (dropKeyword ['f', 'a', 'l', 's', 'e'] (c :: cs)).map (fun r => (Json.bool false, r))
    else
      match parseJsonNumber (c :: cs) with
      | some (lit, rest) => some (Json.num (String.mk lit), rest)
      | Option.none => Option.none

/-- Read the elements of a non-empty array up to and including its closing
bracket; the input starts at the first element. -/
def parseJsonElements : Nat → List Char → Option (List Json × List Char)
  | 0, _ => Option.none
  | fuel + 1, cs =>
    match parseJsonValue fuel (skipJsonSpace cs) with
    | Option.none => Option.none
    | some (v, rest) =>
      match skipJsonSpace rest with
      | ']' :: rest2 => some ([v], rest2)
      | ',' :: rest2 =>
        match parseJsonElements fuel rest2 with
        | some (vs, rest3) => some (v :: vs, rest3)
        | Option.none => Option.none
      | _ => Option.none

/-- Read the members of a non-empty object up to and including its closing
brace; the input starts at the first key. -/
def parseJsonMembers : Nat → List Char → Option (List (String × Json) × List Char)
  | 0, _ => Option.none
  | fuel + 1, cs =>
    match skipJsonSpace cs with
    | '"' :: afterQuote =>
      match parseJsonStringBody (afterQuote.length + 1) [] afterQuote with
      | Option.none => Option.none
      | some (key, rest) =>
        match skipJsonSpace rest with
        | ':' :: rest2 =>
          match parseJsonValue fuel (skipJsonSpace rest2) with
          | Option.none => Option.none
          | some (v, rest3) =>
            match skipJsonSpace rest3 with
            | '}' :: rest4 => some ([(key, v)], rest4)
            | ',' :: rest4 =>
              match parseJsonMembers fuel rest4 with
              | some (ms, rest5) => some ((key, v) :: ms, rest5)
              | Option.none => Option.none
            | _ => Option.none
        | _ => Option.none
    | _ => Option.none

end

/-- The value of `JSON.parse(text)`; `none` when it throws. Each nested call
of the reader consumes a character, so twice the length of the text bounds
its depth. -/
def jsonParse (text : String) : Option Json :=
  match parseJsonValue (2 * text.length + 2) (skipJsonSpace text.toList) with
  | some (v, rest) => if skipJsonSpace rest = [] then some v else Option.none
  | Option.none => Option.none

/-- The helper `parseJsonArray` of the admin panel (Admin.jsx, lines 6-20):
the parsed array, or the empty array when parsing throws or the result is not
an array. -/
def parseJsonArray (jsonString : String) : List Json :=
  match jsonParse jsonString with
  | some (Json.arr items) => items
  | _ => []

/-! ## Credential store: POST /api/signup and POST /api/login -/

/-- A row of `users` (server2.js, lines 55-60); `password` holds the hash. -/
structure User where
  id : Int
  username : String
  password : String
  role : String
  deriving DecidableEq, Repr

/-- The table `users` with the counter of its AUTOINCREMENT key. -/
structure UserTable where
  rows : List User
  seq : Int
  deriving DecidableEq, Repr

/-- The table `users` right after its creation. -/
def emptyUsers : UserTable := { rows := [], seq := 0 }

/-- The handler of `POST /api/signup` (server2.js, lines 200-230). `hashed` is
the outcome of `bcrypt.hash` for this request (`none` when it reports an
error); `insertFails` says whether the INSERT reports an error other than the
violation of the UNIQUE constraint on `username`. The column `role` takes its
default `user`. -/
def signup (users : UserTable) (hashed : Option String) (insertFails : Bool)
    (username password : Option String) : UserTable × Response :=
  if !truthy username || !truthy password then
    (users, ⟨400, Body.error "Username and password are required"⟩)
  else
    match hashed with
    | Option.none => (users, ⟨500, Body.error "Error processing password"⟩)
    | some hashedPassword =>
      if insertFails then (users, ⟨500, Body.error "Error registering user"⟩)
      else if (users.rows.find? (fun u => decide (some u.username = username))).isSome then
        (users, ⟨409, Body.error "Username already exists"⟩)
      else
        let userId := nextId users.seq (users.rows.map (fun u => u.id))
        ({ rows := users.rows ++ [{ id := userId, username := username.getD "",
                                    password := hashedPassword, role := "user" }],
           seq := userId },
         ⟨201, Body.registered "User registered successfully" userId⟩)

/-- The handler of `POST /api/login` (server2.js, lines 234-271). `sign` is
`jwt.sign` with the server secret and a one-hour expiry; `compare` is
`bcrypt.compare` (`none` when it reports an error); `queryFails` says whether
the SELECT reports an error. -/
def login (users : UserTable) (sign : TokenUser → String)
    (compare : String → String → Option Bool) (queryFails : Bool)
    (username password : Option String) : Response :=
  if !truthy username || !truthy password then
    ⟨400, Body.error "Username and password are required"⟩
  else if queryFails then ⟨500, Body.error "Error during login"⟩
  else
    match users.rows.find? (fun u => decide (some u.username = username)) with
    | Option.none => ⟨401, Body.error "Invalid username or password"⟩
    | some row =>
      match compare (password.getD "") row.password with
      | Option.none => ⟨500, Body.error "Error during login"⟩
      | some true =>
        ⟨200, Body.loggedIn "Login successful"
          (sign { id := row.id, username := row.username, role := row.role })
          { id := row.id, username := row.username, role := row.role }⟩
      | some false => ⟨401, Body.error "Invalid username or password"⟩

/-- One signup request with the outcomes of its hashing and its INSERT. -/
structure SignupRequest where
  hashed : Option String
  insertFails : Bool
  username : Option String
  password : Option String
  deriving DecidableEq, Repr

/-- The table `users` after a sequence of signup requests, in order. -/
def runSignups (users : UserTable) (requests : List SignupRequest) : UserTable :=
  requests.foldl (fun t r => (signup t r.hashed r.insertFails r.username r.password).1) users

/-! ## Admin panel: the filtered list (Admin.jsx, lines 189-201) -/

/-- The method `toLowerCase` on a string of ASCII characters; other
characters are left as they are. -/
def toLowerCase (s : String) : String := String.mk (s.toList.map Char.toLower)

/-- JavaScript truthiness of a value that is `null` or a number. -/
def truthyId : Option Int → Bool
  | Option.none => false
  | some n => n != 0

/-- The constant `statusMatch` of the filter callback. -/
def statusMatch (filter : String) (app : PendingRow) : Bool :=
  filter == "all" || toLowerCase app.application_status == toLowerCase filter

/-- The constant `assignmentMatch` of the filter callback. -/
def assignmentMatch (assignmentFilter : String) (app : PendingRow) : Bool :=
  assignmentFilter == "all" ||
  (assignmentFilter == "assigned" && truthyId app.assigned_to_employee_id) ||
  (assignmentFilter == "unassigned" && !truthyId app.assigned_to_employee_id)

/-- The list `filteredApplications` the admin panel shows. -/
def filteredApplications (applications : List PendingRow) (filter assignmentFilter : String) :
    List PendingRow :=
  applications.filter (fun app => statusMatch filter app && assignmentMatch assignmentFilter app)

/-! ## Onboarding form: fund selection (OnboardingContent.jsx, lines 90-115) -/

/-- A JavaScript number: not-a-number, an infinity, or a finite value. -/
inductive JsNumber where
  | nan
  | negInfinity
  | infinity
  | finite (q : ℚ)
  deriving DecidableEq

/-- The comparison `x <= 0`. -/
def JsNumber.leZero : JsNumber → Bool
  | JsNumber.nan => false
  | JsNumber.negInfinity => true
  | JsNumber.infinity => false
  | JsNumber.finite q => decide (q ≤ 0)

/-- The comparison `x > 0`. -/
def JsNumber.gtZero : JsNumber → Bool
  | JsNumber.nan => false
  | JsNumber.negInfinity => false
  | JsNumber.infinity => true
  | JsNumber.finite q => decide (0 < q)

/-- An entry of `formData.selectedFunds`. -/
structure SelectedFund where
  id : Int
  name : String
  amount : JsNumber
  deriving DecidableEq

/-- An entry of `availableFunds`. -/
structure AvailableFund where
  id : Int
  name : String
  description : String
  deriving DecidableEq, Repr

/-- The method `findIndex`; `none` is `-1`. -/
def findIndex {α : Type} (p : α → Bool) : List α → Option Nat
  | [] => Option.none
  | x :: xs => if p x then some 0 else (findIndex p xs).map (fun i => i + 1)

/-- The call `splice(index, 1)` on a copy of the list. -/
def removeAt {α : Type} : Nat → List α → List α
  | _, [] => []
  | 0, _ :: xs => xs
  | i + 1, x :: xs => x :: removeAt i xs

/-- The assignment `list[index] = f(list[index])` on a copy of the list. -/
def replaceAt {α : Type} (f : α → α) : Nat → List α → List α
  | _, [] => []
  | 0, x :: xs => f x :: xs
  | i + 1, x :: xs => x :: replaceAt f i xs

/-- The new value of `selectedFunds` that `handleFundSelectionChange(fundId,
amount)` sets. `parseFloat` is the JavaScript function of that name. -/
def handleFundSelectionChange (parseFloat : String → JsNumber)
    (availableFunds : List AvailableFund) (selectedFunds : List SelectedFund)
    (fundId : Int) (amount : String) : List SelectedFund :=
  match findIndex (fun fund : SelectedFund => decide (fund.id = fundId)) selectedFunds with
  | some existingFundIndex =>
    if amount = "" ∨ (parseFloat amount).leZero = true then
      removeAt existingFundIndex selectedFunds
    else
      replaceAt (fun fund => { fund with amount := parseFloat amount }) existingFundIndex
        selectedFunds
  | Option.none =>
    if amount ≠ "" ∧ (parseFloat amount).gtZero = true then
      match availableFunds.find? (fun f => decide (f.id = fundId)) with
      | some fund =>
        selectedFunds ++ [{ id := fund.id, name := fund.name, amount := parseFloat amount }]
      | Option.none => selectedFunds
    else selectedFunds

/-- The number a list of decimal digits writes. -/
def digitsValue (digits : List Char) : Nat :=
  digits.foldl (fun acc c => acc * 10 + (c.toNat - 48)) 0

/-! ## Operations and reachable states -/

/-- One request to a state-changing endpoint of the engine, with the inputs
of its handler. -/
inductive Op where
  | submit (t1 t2 now taskNow : Nat) (appInsertFails taskInsertFails : Bool)
      (user : TokenUser) (formData : FormData) (govtIdPart incomeProofPart : Option FilePart)
  | assign (now : Nat) (employeeQueryFails updateFails : Bool)
      (applicationId assignedToEmployeeId : Option Int)
  | status (now : Nat) (appUpdateFails taskUpdateFails : Bool)
      (applicationId : Option Int) (newStatus : Option String)

/-- The database after one request. -/
def step (db : Db) : Op → Db
  | Op.submit t1 t2 now taskNow af tf user formData g i =>
    (onboardingRoute db t1 t2 now taskNow af tf user formData g i).1
  | Op.assign now ef uf a e => (assignEmployee db now ef uf a e).1
  | Op.status now af tf a s => (updateStatus db now af tf a s).1

/-- The database after a sequence of requests, in order. -/
def run (db : Db) (ops : List Op) : Db := ops.foldl step db

/-- Whether a request is an assignment or a status update addressed to the
given application. -/
def Op.targets (applicationId : Int) : Op → Bool
  | Op.submit .. => false
  | Op.assign _ _ _ a _ => a == some applicationId
  | Op.status _ _ _ a _ => a == some applicationId

/-- Every task row refers to an application row that exists. -/
def TasksReferToApplications (db : Db) : Prop :=
  ∀ t ∈ db.tasks, ∃ oa ∈ db.applications, oa.id = t.application_id

/-- The application with key `n` occurs once, with status `pending`, and has
exactly one task, with status `open`. -/
def PendingOpenOnce (db : Db) (n : Int) : Prop :=
  ∃ oa t, db.applications.filter (fun x => decide (x.id = n)) = [oa] ∧ oa.status = "pending" ∧
    db.tasks.filter (fun x => decide (x.application_id = n)) = [t] ∧ t.status = "open"

/-- Whether a request is a submission whose task insert reports an error. -/
def Op.taskInsertFails : Op → Bool
  | Op.submit _ _ _ _ _ tf _ _ _ _ => tf
  | Op.assign .. => false
  | Op.status .. => false

/-- Whether one of the INSERT or UPDATE statements of a request reports an
error. -/
def Op.writeFails : Op → Bool
  | Op.submit _ _ _ _ af tf _ _ _ _ => af || tf
  | Op.assign _ _ uf _ _ => uf
  | Op.status _ af tf _ _ => af || tf

/-! ## Sample data -/

/-- A token payload of an ordinary user. -/
def sampleUser : TokenUser := { id := 7, username := "alice", role := "user" }

/-- A complete onboarding form with the terms accepted. -/
def sampleForm : FormData :=
  { fullName := some "Alice A", govtIdNumber := some "X123", mobile := some "555",
    email := some "a@b.c", timeHorizon := some "5", riskTolerance := some "low",
    investmentsOwned := some "[\"stocks\",\"bonds\"]", acceptableAnnualReturn := some "8",
    dob := some "1990-01-01", nationality := some "IN", address := some "1 Main St",
    clientType := some "individual", contactDetails := some "n/a",
    sourceOfFunds := some "salary", occupationDetails := some "engineer",
    selectedFunds := some "[]", termsAccepted := some "true" }

/-- The identity document part of a sample request. -/
def sampleGovtPart : FilePart := { originalname := "id.pdf" }

/-- The income proof part of a sample request. -/
def sampleIncomePart : FilePart := { originalname := "income.pdf" }

/-- The identity document of a sample request, as stored. -/
def sampleGovtFile : UploadedFile :=
  { originalname := "id.pdf", path := "uploads/1000-id.pdf" }

/-- The income proof of a sample request, as stored. -/
def sampleIncomeFile : UploadedFile :=
  { originalname := "income.pdf", path := "uploads/1001-income.pdf" }

/-- The database after one complete sample submission to the empty database. -/
def dbAfterSubmit : Db :=
  (onboardingRoute emptyDb 1000 1001 50 50 false false sampleUser sampleForm
    (some sampleGovtPart) (some sampleIncomePart)).1

/-- The sample form without the field `acceptableAnnualReturn`. -/
def formWithoutReturn : FormData := { sampleForm with acceptableAnnualReturn := Option.none }

/-- The sample form with the terms not accepted. -/
def formTermsFalse : FormData := { sampleForm with termsAccepted := some "false" }

/-- Requests that follow the sample submission without addressing application
1: a second submission and an assignment for application 2. -/
def otherRequests : List Op :=
  [ Op.submit 2000 2001 70 70 false false sampleUser sampleForm
      (some sampleGovtPart) (some sampleIncomePart),
    Op.assign 80 false false (some 2) (some 3) ]

/-- A token payload of an administrator. -/
def sampleAdmin : TokenUser := { id := 1, username := "root", role := "admin" }

/-- A token verifier that knows two tokens. -/
def sampleVerify (token : String) : Option TokenUser :=
  if token = "tok-alice" then some sampleUser
  else if token = "tok-root" then some sampleAdmin
  else Option.none

/-- A run without failing writes: the sample submission, then its approval. -/
def approveRequests : List Op :=
  [ Op.submit 1000 1001 50 51 false false sampleUser sampleForm
      (some sampleGovtPart) (some sampleIncomePart),
    Op.status 60 false false (some 1) (some "approved") ]

/-- A stand-in for `jwt.sign`. -/
def sampleSign (user : TokenUser) : String := "tok-" ++ user.username

/-- A stand-in for `bcrypt.compare`: the hash of a password is the password
behind a fixed marker. -/
def sampleCompare (password hash : String) : Option Bool :=
  some (hash == "hash:" ++ password)

/-- The user table after `alice` has signed up with password `pw1`. -/
def usersAlice : UserTable :=
  (signup emptyUsers (some "hash:pw1") false (some "alice") (some "pw1")).1

/-- Two later signup requests, for `bob` and again for `alice`. -/
def laterSignups : List SignupRequest :=
  [ { hashed := some "hash:pw2", insertFails := false, username := some "bob",
      password := some "pw2" },
    { hashed := some "hash:pw3", insertFails := false, username := some "alice",
      password := some "pw3" } ]

/-- Three application summaries: pending and unassigned, approved and
assigned, pending and assigned. -/
def sampleSummaries : List PendingRow :=
  [ { id := 1, user_id := 7, full_name := some "Alice A", submission_date := 50,
      application_status := "pending", task_id := 1, task_status := "open",
      assigned_to_employee_id := Option.none },
    { id := 2, user_id := 8, full_name := some "Bob B", submission_date := 60,
      application_status := "approved", task_id := 2, task_status := "completed",
      assigned_to_employee_id := some 2 },
    { id := 3, user_id := 9, full_name := some "Carol C", submission_date := 70,
      application_status := "pending", task_id := 3, task_status := "in_progress",
      assigned_to_employee_id := some 3 } ]

/-- A stand-in for `parseFloat` on three amounts. -/
def sampleParseFloat (amount : String) : JsNumber :=
  if amount = "500" then JsNumber.finite 500
  else if amount = "0" then JsNumber.finite 0
  else if amount = "250" then JsNumber.finite 250
  else JsNumber.nan

/-- The funds offered for a low risk tolerance (OnboardingContent.jsx,
line 51). -/
def lowRiskFunds : List AvailableFund :=
  [ { id := 1, name := "Conservative Bond Fund", description := "Low risk, stable returns." },
    { id := 2, name := "Money Market Fund", description := "Very low risk, low returns." } ]

/-- A selection of the two low-risk funds. -/
def sampleSelection : List SelectedFund :=
  [ { id := 1, name := "Conservative Bond Fund", amount := JsNumber.finite 100 },
    { id := 2, name := "Money Market Fund", amount := JsNumber.finite 200 } ]

/-- A run in which user 7 submits twice within the same clock second and the
second application is then rejected. -/
def tieRequests : List Op :=
  [ Op.submit 1000 1001 50 50 false false sampleUser sampleForm
      (some sampleGovtPart) (some sampleIncomePart),
    Op.submit 1400 1401 50 50 false false sampleUser sampleForm
      (some sampleGovtPart) (some sampleIncomePart),
    Op.status 60 false false (some 2) (some "rejected") ]

/-- The sample database after its application has been approved. -/
def dbApproved : Db :=
  (updateStatus dbAfterSubmit 60 false false (some 1) (some "approved")).1

end InvestManager

namespace InvestManager

/-! ## Key generation -/

theorem le_maxId (ids : List Int) (x : Int) (hx : x ∈ ids) : x ≤ maxId ids := by
  induction ids with
  | nil => cases hx
  | cons y ys ih =>
    simp only [maxId, List.foldr_cons]
    rcases List.mem_cons.mp hx with h | h
    · subst h; exact le_max_left _ _
    · exact le_trans (ih h) (le_max_right _ _)

theorem lt_nextId (seq : Int) (ids : List Int) (x : Int) (hx : x ∈ ids) :
    x < nextId seq ids := by
  have h1 := le_maxId ids x hx
  have h2 : maxId ids ≤ max seq (maxId ids) := le_max_right _ _
  unfold nextId
  omega

theorem nextId_fresh (db : Db) (oa : Application) (h : oa ∈ db.applications) :
    oa.id ≠ nextId db.appSeq (db.applications.map (fun a => a.id)) := by
  have := lt_nextId db.appSeq (db.applications.map (fun a => a.id)) oa.id
    (List.mem_map.mpr ⟨oa, h, rfl⟩)
  omega

/-! ## Validation -/

theorem files_of_validation (userId : Int) (formData : FormData)
    (govtIdFile incomeProofFile : Option UploadedFile)
    (h : validationFails userId formData govtIdFile incomeProofFile = false) :
    (∃ g, govtIdFile = some g) ∧ (∃ i, incomeProofFile = some i) := by
  simp only [validationFails, Bool.or_eq_false_iff] at h
  constructor
  · cases govtIdFile with
    | none => simp at h
    | some g => exact ⟨g, rfl⟩
  · cases incomeProofFile with
    | none => simp at h
    | some i => exact ⟨i, rfl⟩

theorem submitApplication_valid (db : Db) (now taskNow : Nat) (taskInsertFails : Bool)
    (user : TokenUser) (formData : FormData) (g i : UploadedFile)
    (h : validationFails user.id formData (some g) (some i) = false) :
    submitApplication db now taskNow false taskInsertFails user formData (some g) (some i) =
      ((if taskInsertFails then
          insertApplication db
            (newApplication (nextId db.appSeq (db.applications.map (fun a => a.id)))
              now user.id formData g i)
        else
          insertTask
            (insertApplication db
              (newApplication (nextId db.appSeq (db.applications.map (fun a => a.id)))
                now user.id formData g i))
            (nextId db.appSeq (db.applications.map (fun a => a.id))) "open" taskNow),
       ⟨201, Body.submitted "Onboarding application submitted successfully"
              (nextId db.appSeq (db.applications.map (fun a => a.id))) "pending"⟩) := by
  unfold submitApplication
  rw [h]
  cases taskInsertFails <;> rfl

end InvestManager

namespace InvestManager

/-! ## Submission -/

/-- C1: an authenticated submission that passes validation and whose
application insert succeeds appends exactly one application row, with a key no
existing row has, status `pending`, the caller's id and the two stored paths,
and answers 201 with that key and `pending`, whether or not the task insert
fails; the row is the same in both cases. -/
theorem submitApplication_creates_application (db : Db) (now taskNow : Nat)
    (taskInsertFails : Bool) (user : TokenUser) (formData : FormData)
    (govtIdFile incomeProofFile : Option UploadedFile)
    (hvalid : validationFails user.id formData govtIdFile incomeProofFile = false) :
    ∃ g i row,
      govtIdFile = some g ∧ incomeProofFile = some i ∧
      (submitApplication db now taskNow false taskInsertFails user formData
        govtIdFile incomeProofFile).1.applications = db.applications ++ [row] ∧
      (∀ oa ∈ db.applications, oa.id ≠ row.id) ∧
      row = newApplication row.id now user.id formData g i ∧
      row.status = "pending" ∧ row.user_id = user.id ∧
      row.govt_id_file_path = g.path ∧ row.income_proof_file_path = i.path ∧
      (submitApplication db now taskNow false taskInsertFails user formData
        govtIdFile incomeProofFile).2 =
        ⟨201, Body.submitted "Onboarding application submitted successfully" row.id "pending"⟩ := by
  obtain ⟨⟨g, rfl⟩, ⟨i, rfl⟩⟩ := files_of_validation _ _ _ _ hvalid
  refine ⟨g, i, newApplication (nextId db.appSeq (db.applications.map (fun a => a.id)))
    now user.id formData g i, rfl, rfl, ?_, ?_, rfl, rfl, rfl, rfl, rfl, ?_⟩
  · rw [submitApplication_valid db now taskNow taskInsertFails user formData g i hvalid]
    cases taskInsertFails <;> rfl
  · intro oa hoa
    exact nextId_fresh db oa hoa
  · rw [submitApplication_valid db now taskNow taskInsertFails user formData g i hvalid]
    rfl

theorem submitApplication_creates_application_witness :
    validationFails sampleUser.id sampleForm (some sampleGovtFile) (some sampleIncomeFile) = false ∧
    ∃ g i row,
      some sampleGovtFile = some g ∧ some sampleIncomeFile = some i ∧
      (submitApplication emptyDb 50 51 false true sampleUser sampleForm
        (some sampleGovtFile) (some sampleIncomeFile)).1.applications =
        emptyDb.applications ++ [row] ∧
      (∀ oa ∈ emptyDb.applications, oa.id ≠ row.id) ∧
      row = newApplication row.id 50 sampleUser.id sampleForm g i ∧
      row.status = "pending" ∧ row.user_id = sampleUser.id ∧
      row.govt_id_file_path = g.path ∧ row.income_proof_file_path = i.path ∧
      (submitApplication emptyDb 50 51 false true sampleUser sampleForm
        (some sampleGovtFile) (some sampleIncomeFile)).2 =
        ⟨201, Body.submitted "Onboarding application submitted successfully" row.id "pending"⟩ :=
  ⟨by decide,
   submitApplication_creates_application emptyDb 50 51 true sampleUser sampleForm
     (some sampleGovtFile) (some sampleIncomeFile) (by decide)⟩

/-- C2: when the application insert and the task insert of a valid submission
both succeed, the task table afterwards is the table before with exactly one
row appended; that row refers to the application just created, has status
`open` and no assignee. -/
theorem submitApplication_creates_task (db : Db) (now taskNow : Nat)
    (user : TokenUser) (formData : FormData)
    (govtIdFile incomeProofFile : Option UploadedFile)
    (hvalid : validationFails user.id formData govtIdFile incomeProofFile = false) :
    ∃ row t,
      (submitApplication db now taskNow false false user formData
        govtIdFile incomeProofFile).1.applications = db.applications ++ [row] ∧
      (submitApplication db now taskNow false false user formData
        govtIdFile incomeProofFile).1.tasks = db.tasks ++ [t] ∧
      t.application_id = row.id ∧ t.status = "open" ∧ t.assigned_to_employee_id = Option.none ∧
      (∀ u ∈ db.tasks, u.id ≠ t.id) := by
  obtain ⟨⟨g, rfl⟩, ⟨i, rfl⟩⟩ := files_of_validation _ _ _ _ hvalid
  rw [submitApplication_valid db now taskNow false user formData g i hvalid]
  refine ⟨_, _, rfl, rfl, rfl, rfl, rfl, ?_⟩
  intro u hu
  have := lt_nextId db.taskSeq (db.tasks.map (fun t => t.id)) u.id
    (List.mem_map.mpr ⟨u, hu, rfl⟩)
  show u.id ≠ nextId db.taskSeq (db.tasks.map (fun t => t.id))
  omega

theorem submitApplication_creates_task_witness :
    validationFails sampleUser.id sampleForm (some sampleGovtFile) (some sampleIncomeFile) = false ∧
    ∃ row t,
      (submitApplication emptyDb 50 51 false false sampleUser sampleForm
        (some sampleGovtFile) (some sampleIncomeFile)).1.applications =
        emptyDb.applications ++ [row] ∧
      (submitApplication emptyDb 50 51 false false sampleUser sampleForm
        (some sampleGovtFile) (some sampleIncomeFile)).1.tasks = emptyDb.tasks ++ [t] ∧
      t.application_id = row.id ∧ t.status = "open" ∧ t.assigned_to_employee_id = Option.none ∧
      (∀ u ∈ emptyDb.tasks, u.id ≠ t.id) :=
  ⟨by decide,
   submitApplication_creates_task emptyDb 50 51 sampleUser sampleForm
     (some sampleGovtFile) (some sampleIncomeFile) (by decide)⟩

end InvestManager

namespace InvestManager

/-! ## Status update -/

theorem setApplicationStatus_id (s : String) (a : Int) (oa : Application) :
    (setApplicationStatus s a oa).id = oa.id := by
  unfold setApplicationStatus
  split <;> rfl

theorem setTaskStatus_application_id (s : String) (a : Int) (now : Nat) (t : Task) :
    (setTaskStatus s a now t).application_id = t.application_id := by
  unfold setTaskStatus
  split <;> rfl

theorem setTaskStatus_id (s : String) (a : Int) (now : Nat) (t : Task) :
    (setTaskStatus s a now t).id = t.id := by
  unfold setTaskStatus
  split <;> rfl

theorem validStatus_ne_empty (s : String) (hs : s ∈ validStatuses) : s ≠ "" := by
  intro h
  subst h
  revert hs
  decide

theorem filter_length_ne_zero {α : Type} (p : α → Bool) (l : List α)
    (h : ∃ x ∈ l, p x = true) : (l.filter p).length ≠ 0 := by
  obtain ⟨x, hx, hp⟩ := h
  have : x ∈ l.filter p := List.mem_filter.mpr ⟨hx, hp⟩
  intro h0
  rw [List.length_eq_zero] at h0
  rw [h0] at this
  cases this

/-- The outcome of a status update whose input is valid and whose
application exists, when the primary UPDATE does not fail. -/
theorem updateStatus_valid (db : Db) (now : Nat) (taskUpdateFails : Bool) (a : Int) (s : String)
    (hs : s ∈ validStatuses) (hex : ∃ oa ∈ db.applications, oa.id = a) :
    updateStatus db now false taskUpdateFails (some a) (some s) =
      ((if taskUpdateFails then
          { db with applications := db.applications.map (setApplicationStatus s a) }
        else
          { db with applications := db.applications.map (setApplicationStatus s a),
                    tasks := db.tasks.map (setTaskStatus (taskStatusFor s) a now) }),
       ⟨200, Body.statusUpdated "Application status updated successfully" a s⟩) := by
  have hne := validStatus_ne_empty s hs
  have hch : (db.applications.filter (fun oa => decide (oa.id = a))).length ≠ 0 := by
    apply filter_length_ne_zero
    obtain ⟨oa, hoa, hid⟩ := hex
    exact ⟨oa, hoa, by simp [hid]⟩
  unfold updateStatus
  simp only [hne, hs, hch, not_true_eq_false, if_false, Bool.false_eq_true]

/-- What a 200 answer of the status endpoint implies about its input. -/
theorem updateStatus_ok_inv (db : Db) (now : Nat) (af tf : Bool) (a : Int) (s : String)
    (hok : (updateStatus db now af tf (some a) (some s)).2.status = 200) :
    af = false ∧ s ∈ validStatuses ∧ ∃ oa ∈ db.applications, oa.id = a := by
  unfold updateStatus at hok
  simp only at hok
  split_ifs at hok with h1 h2 h3 h4 <;> try (simp at hok)
  all_goals
    refine ⟨by simpa using h3, h2, ?_⟩
    by_contra hno
    apply h4
    rw [List.length_eq_zero, List.filter_eq_nil_iff]
    intro oa hoa hid
    exact hno ⟨oa, hoa, by simpa using hid⟩

end InvestManager

namespace InvestManager

/-- C3: for an application id that exists and a new status among `pending`,
`approved`, `rejected`, the status endpoint answers 200 (its primary UPDATE
not failing) and afterwards every application row with that id carries the new
status, the other columns and rows being as before, whatever the status was;
the secondary task update may fail or not. -/
theorem updateStatus_sets_status (db : Db) (now : Nat) (taskUpdateFails : Bool)
    (a : Int) (s : String)
    (hs : s = "pending" ∨ s = "approved" ∨ s = "rejected")
    (hex : ∃ oa ∈ db.applications, oa.id = a) :
    (updateStatus db now false taskUpdateFails (some a) (some s)).2 =
      ⟨200, Body.statusUpdated "Application status updated successfully" a s⟩ ∧
    (updateStatus db now false taskUpdateFails (some a) (some s)).1.applications =
      db.applications.map (fun oa => if oa.id = a then { oa with status := s } else oa) ∧
    (∃ oa ∈ (updateStatus db now false taskUpdateFails (some a) (some s)).1.applications,
      oa.id = a) ∧
    (∀ oa ∈ (updateStatus db now false taskUpdateFails (some a) (some s)).1.applications,
      oa.id = a → oa.status = s) := by
  have hs2 : s ∈ validStatuses := by
    rcases hs with h | h | h <;> subst h <;> decide
  rw [updateStatus_valid db now taskUpdateFails a s hs2 hex]
  have happs : (if taskUpdateFails = true then
        { db with applications := db.applications.map (setApplicationStatus s a) }
      else
        { db with applications := db.applications.map (setApplicationStatus s a),
                  tasks := db.tasks.map (setTaskStatus (taskStatusFor s) a now) }).applications
      = db.applications.map (setApplicationStatus s a) := by
    cases taskUpdateFails <;> rfl
  refine ⟨rfl, ?_, ?_, ?_⟩
  · simp only [happs]
    rfl
  · simp only [happs]
    obtain ⟨oa, hoa, hid⟩ := hex
    exact ⟨setApplicationStatus s a oa, List.mem_map.mpr ⟨oa, hoa, rfl⟩,
      by rw [setApplicationStatus_id]; exact hid⟩
  · simp only [happs]
    intro oa hoa hid
    obtain ⟨ob, _, rfl⟩ := List.mem_map.mp hoa
    rw [setApplicationStatus_id] at hid
    simp [setApplicationStatus, hid]

theorem updateStatus_sets_status_witness :
    ("pending" = "pending" ∨ "pending" = "approved" ∨ "pending" = "rejected") ∧
    (∃ oa ∈ dbApproved.applications, oa.id = 1) ∧
    (∀ oa ∈ dbApproved.applications, oa.id = 1 → oa.status = "approved") ∧
    ((updateStatus dbApproved 70 false false (some 1) (some "pending")).2 =
      ⟨200, Body.statusUpdated "Application status updated successfully" 1 "pending"⟩ ∧
    (updateStatus dbApproved 70 false false (some 1) (some "pending")).1.applications =
      dbApproved.applications.map
        (fun oa => if oa.id = 1 then { oa with status := "pending" } else oa) ∧
    (∃ oa ∈ (updateStatus dbApproved 70 false false (some 1) (some "pending")).1.applications,
      oa.id = 1) ∧
    (∀ oa ∈ (updateStatus dbApproved 70 false false (some 1) (some "pending")).1.applications,
      oa.id = 1 → oa.status = "pending")) :=
  ⟨by decide, by decide, by decide,
   updateStatus_sets_status dbApproved 70 false 1 "pending" (by decide) (by decide)⟩

theorem detailQuery_after_status (db : Db) (a : Int) (s : String) (tasks : List Task)
    (hex : ∃ oa ∈ db.applications, oa.id = a) :
    ∃ row, detailQuery { db with applications := db.applications.map (setApplicationStatus s a),
                                 tasks := tasks } a = some row ∧
      row.app.id = a ∧ row.app.status = s := by
  unfold detailQuery
  simp only [List.find?_map]
  have hcomp : ((fun oa : Application => decide (oa.id = a)) ∘ setApplicationStatus s a) =
      (fun oa : Application => decide (oa.id = a)) := by
    funext oa
    simp [Function.comp, setApplicationStatus_id]
  rw [hcomp]
  cases hfind : db.applications.find? (fun oa => decide (oa.id = a)) with
  | none =>
    exfalso
    obtain ⟨oa, hoa, hid⟩ := hex
    have := List.find?_eq_none.mp hfind oa hoa
    simp [hid] at this
  | some ob =>
    have hid : ob.id = a := by simpa using List.find?_some hfind
    refine ⟨_, rfl, ?_, ?_⟩
    · simp [setApplicationStatus_id, hid]
    · simp [setApplicationStatus, hid]

/-- C4: after a status update that answers 200 and whose secondary task
update does not fail, the task rows are the rows before with the same keys and
application ids, every task of the application has status `completed` when the
new status is `approved` or `rejected` and `in_progress` when it is `pending`,
whatever its status was; and after setting `approved`, the detail endpoint
answers 200 with status `approved` for that id. -/
theorem updateStatus_syncs_task (db : Db) (now : Nat) (af : Bool) (a : Int) (s : String)
    (hok : (updateStatus db now af false (some a) (some s)).2.status = 200) :
    (updateStatus db now af false (some a) (some s)).1.tasks.map
        (fun t => (t.id, t.application_id)) =
      db.tasks.map (fun t => (t.id, t.application_id)) ∧
    (∀ t ∈ (updateStatus db now af false (some a) (some s)).1.tasks, t.application_id = a →
      ((s = "approved" ∨ s = "rejected") → t.status = "completed") ∧
      (s = "pending" → t.status = "in_progress")) ∧
    (s = "approved" →
      (∀ t ∈ (updateStatus db now af false (some a) (some s)).1.tasks,
        t.application_id = a → t.status = "completed") ∧
      ∃ row, getApplicationDetail (updateStatus db now af false (some a) (some s)).1 false
          (some a) = ⟨200, Body.detail row⟩ ∧
        row.app.id = a ∧ row.app.status = "approved") := by
  obtain ⟨haf, hs, hex⟩ := updateStatus_ok_inv db now af false a s hok
  subst haf
  rw [updateStatus_valid db now false a s hs hex]
  simp only [Bool.false_eq_true, if_false]
  have hstat : ∀ t ∈ db.tasks.map (setTaskStatus (taskStatusFor s) a now),
      t.application_id = a → t.status = taskStatusFor s := by
    intro t ht hid
    obtain ⟨u, _, rfl⟩ := List.mem_map.mp ht
    rw [setTaskStatus_application_id] at hid
    simp [setTaskStatus, hid]
  refine ⟨?_, ?_, ?_⟩
  · simp only [List.map_map]
    apply List.map_congr_left
    intro t _
    simp [Function.comp, setTaskStatus_id, setTaskStatus_application_id]
  · intro t ht hid
    have h := hstat t ht hid
    constructor
    · intro hfin
      rw [h]
      simp [taskStatusFor, hfin]
    · intro hp
      rw [h, hp]
      decide
  · intro happ
    constructor
    · intro t ht hid
      rw [hstat t ht hid, happ]
      decide
    · obtain ⟨row, hrow, hid, hst⟩ := detailQuery_after_status db a s
        (db.tasks.map (setTaskStatus (taskStatusFor s) a now)) hex
      refine ⟨row, ?_, hid, by rw [hst, happ]⟩
      simp only [getApplicationDetail, Bool.false_eq_true, if_false, hrow]

theorem updateStatus_syncs_task_witness :
    (updateStatus dbAfterSubmit 60 false false (some 1) (some "approved")).2.status = 200 ∧
    ((updateStatus dbAfterSubmit 60 false false (some 1) (some "approved")).1.tasks.map
        (fun t => (t.id, t.application_id)) =
      dbAfterSubmit.tasks.map (fun t => (t.id, t.application_id)) ∧
    (∀ t ∈ (updateStatus dbAfterSubmit 60 false false (some 1) (some "approved")).1.tasks,
      t.application_id = 1 →
      (("approved" = "approved" ∨ "approved" = "rejected") → t.status = "completed") ∧
      ("approved" = "pending" → t.status = "in_progress")) ∧
    ("approved" = "approved" →
      (∀ t ∈ (updateStatus dbAfterSubmit 60 false false (some 1) (some "approved")).1.tasks,
        t.application_id = 1 → t.status = "completed") ∧
      ∃ row, getApplicationDetail
          (updateStatus dbAfterSubmit 60 false false (some 1) (some "approved")).1 false
          (some 1) = ⟨200, Body.detail row⟩ ∧
        row.app.id = 1 ∧ row.app.status = "approved")) :=
  ⟨by decide, updateStatus_syncs_task dbAfterSubmit 60 false 1 "approved" (by decide)⟩

end InvestManager

namespace InvestManager

/-! ## Assignment -/

theorem assignTask_application_id (e a : Int) (now : Nat) (t : Task) :
    (assignTask e a now t).application_id = t.application_id := by
  unfold assignTask
  split <;> rfl

theorem assignTask_id (e a : Int) (now : Nat) (t : Task) :
    (assignTask e a now t).id = t.id := by
  unfold assignTask
  split <;> rfl

theorem find_employee_isNone (db : Db) (e : Int) :
    (db.employees.find? (fun r => decide (r.id = e))).isNone = true ↔
      ¬ ∃ r ∈ db.employees, r.id = e := by
  rw [Option.isNone_iff_eq_none, List.find?_eq_none]
  constructor
  · rintro h ⟨r, hr, hid⟩
    exact h r hr (by simp [hid])
  · intro h r hr hid
    exact h ⟨r, hr, by simpa using hid⟩

theorem map_assignTask_of_no_task (tasks : List Task) (e a : Int) (now : Nat)
    (h : (tasks.filter (fun t => decide (t.application_id = a))).length = 0) :
    tasks.map (assignTask e a now) = tasks := by
  rw [List.length_eq_zero, List.filter_eq_nil_iff] at h
  conv_rhs => rw [← List.map_id tasks]
  apply List.map_congr_left
  intro t ht
  have := h t ht
  simp only [decide_eq_true_eq] at this
  simp [assignTask, this]

/-- The outcome of an assignment whose employee exists and whose application
has a task, when neither database call fails. -/
theorem assignEmployee_valid (db : Db) (now : Nat) (a e : Int)
    (hemp : ∃ r ∈ db.employees, r.id = e) (htask : ∃ t ∈ db.tasks, t.application_id = a) :
    assignEmployee db now false false (some a) (some e) =
      ({ db with tasks := db.tasks.map (assignTask e a now) },
       ⟨200, Body.assigned "Employee assigned successfully" a e⟩) := by
  have h1 : ¬ (db.employees.find? (fun r => decide (r.id = e))).isNone = true := by
    rw [find_employee_isNone]
    exact not_not.mpr hemp
  have h2 : (db.tasks.filter (fun t => decide (t.application_id = a))).length ≠ 0 := by
    apply filter_length_ne_zero
    obtain ⟨t, ht, hid⟩ := htask
    exact ⟨t, ht, by simp [hid]⟩
  unfold assignEmployee
  simp only [h1, h2, if_false, Bool.false_eq_true]

/-- C5 (as amended): for an application that has a task and an employee id in
the roster, an assignment whose database calls do not fail answers 200, sets
the assignee of every task of the application to that employee and sets its
status to `in_progress` whatever it was before: `open`, `in_progress` or
`completed`. -/
theorem assignEmployee_sets_in_progress (db : Db) (now : Nat) (a e : Int)
    (hemp : ∃ r ∈ db.employees, r.id = e) (htask : ∃ t ∈ db.tasks, t.application_id = a) :
    (assignEmployee db now false false (some a) (some e)).2 =
      ⟨200, Body.assigned "Employee assigned successfully" a e⟩ ∧
    (assignEmployee db now false false (some a) (some e)).1.tasks =
      db.tasks.map (fun t =>
        if t.application_id = a then
          { t with assigned_to_employee_id := some e, status := "in_progress",
                   updated_at := now }
        else t) ∧
    (∃ t ∈ (assignEmployee db now false false (some a) (some e)).1.tasks,
      t.application_id = a) ∧
    (∀ t ∈ (assignEmployee db now false false (some a) (some e)).1.tasks,
      t.application_id = a →
        t.assigned_to_employee_id = some e ∧ t.status = "in_progress") := by
  rw [assignEmployee_valid db now a e hemp htask]
  refine ⟨rfl, rfl, ?_, ?_⟩
  · obtain ⟨t, ht, hid⟩ := htask
    exact ⟨assignTask e a now t, List.mem_map.mpr ⟨t, ht, rfl⟩,
      by rw [assignTask_application_id]; exact hid⟩
  · intro t ht hid
    obtain ⟨u, _, rfl⟩ := List.mem_map.mp ht
    rw [assignTask_application_id] at hid
    simp [assignTask, hid]

theorem assignEmployee_sets_in_progress_witness :
    (∃ r ∈ dbApproved.employees, r.id = 2) ∧
    (∃ t ∈ dbApproved.tasks, t.application_id = 1) ∧
    ((assignEmployee dbApproved 80 false false (some 1) (some 2)).2 =
      ⟨200, Body.assigned "Employee assigned successfully" 1 2⟩ ∧
    (assignEmployee dbApproved 80 false false (some 1) (some 2)).1.tasks =
      dbApproved.tasks.map (fun t =>
        if t.application_id = 1 then
          { t with assigned_to_employee_id := some 2, status := "in_progress",
                   updated_at := 80 }
        else t) ∧
    (∃ t ∈ (assignEmployee dbApproved 80 false false (some 1) (some 2)).1.tasks,
      t.application_id = 1) ∧
    (∀ t ∈ (assignEmployee dbApproved 80 false false (some 1) (some 2)).1.tasks,
      t.application_id = 1 →
        t.assigned_to_employee_id = some 2 ∧ t.status = "in_progress")) :=
  ⟨by decide, by decide,
   assignEmployee_sets_in_progress dbApproved 80 1 2 (by decide) (by decide)⟩

/-- C5 as stated fails: the only task of application 1 is `completed`,
employee 2 is in the roster, the assignment answers 200, and the task is then
`in_progress`, not `completed`. -/
theorem assignEmployee_completed_counterexample :
    (∀ t ∈ dbApproved.tasks, t.application_id = 1 → t.status = "completed") ∧
    (∃ t ∈ dbApproved.tasks, t.application_id = 1) ∧
    (∃ r ∈ dbApproved.employees, r.id = 2) ∧
    (assignEmployee dbApproved 80 false false (some 1) (some 2)).2.status = 200 ∧
    (∀ t ∈ (assignEmployee dbApproved 80 false false (some 1) (some 2)).1.tasks,
      t.application_id = 1 → t.status = "in_progress" ∧ t.status ≠ "completed") := by
  decide

/-- C10: whenever the assign endpoint answers anything but 200, the database
is exactly as before (no task row and no application row is touched); the
answer is 400 when either id is not numeric; and with numeric ids and no
failing database call the answer is 404 when the employee is not in the roster
or when the application has no task row. -/
theorem assignEmployee_error_no_change (db : Db) (now : Nat) (ef uf : Bool)
    (applicationId assignedToEmployeeId : Option Int) :
    ((assignEmployee db now ef uf applicationId assignedToEmployeeId).2.status ≠ 200 →
      (assignEmployee db now ef uf applicationId assignedToEmployeeId).1 = db) ∧
    ((applicationId = Option.none ∨ assignedToEmployeeId = Option.none) →
      (assignEmployee db now ef uf applicationId assignedToEmployeeId).2.status = 400) ∧
    (∀ a e, applicationId = some a → assignedToEmployeeId = some e →
      ef = false → uf = false →
      ((¬ ∃ r ∈ db.employees, r.id = e) ∨ (¬ ∃ t ∈ db.tasks, t.application_id = a)) →
      (assignEmployee db now ef uf applicationId assignedToEmployeeId).2.status = 404) := by
  refine ⟨?_, ?_, ?_⟩
  · intro hne
    unfold assignEmployee at hne ⊢
    cases applicationId <;> cases assignedToEmployeeId <;> try rfl
    rename_i a e
    simp only at hne ⊢
    split_ifs at hne ⊢ with h1 h2 h3 h4 <;> try rfl
    · rw [map_assignTask_of_no_task db.tasks e a now h4]
    · exact absurd rfl hne
  · intro h
    unfold assignEmployee
    rcases h with h | h
    · subst h; rfl
    · subst h; cases applicationId <;> rfl
  · intro a e ha he hef huf hmiss
    subst ha he hef huf
    unfold assignEmployee
    simp only [Bool.false_eq_true, if_false]
    by_cases hemp : (db.employees.find? (fun r => decide (r.id = e))).isNone = true
    · rw [if_pos hemp]
    · rw [if_neg hemp]
      rcases hmiss with hm | hm
      · exact absurd ((find_employee_isNone db e).mpr hm) hemp
      · have h0 : (db.tasks.filter (fun t => decide (t.application_id = a))).length = 0 := by
          rw [List.length_eq_zero, List.filter_eq_nil_iff]
          intro t ht hid
          exact hm ⟨t, ht, by simpa using hid⟩
        simp only [h0, if_true]

theorem assignEmployee_error_no_change_witness :
    (¬ ∃ r ∈ dbAfterSubmit.employees, r.id = 9) ∧
    (assignEmployee dbAfterSubmit 80 false false (some 1) (some 9)).2.status = 404 ∧
    (assignEmployee dbAfterSubmit 80 false false (some 1) (some 9)).1 = dbAfterSubmit ∧
    (assignEmployee dbAfterSubmit 80 false false Option.none (some 9)).2.status = 400 :=
  ⟨by decide,
   (assignEmployee_error_no_change dbAfterSubmit 80 false false (some 1) (some 9)).2.2
     1 9 rfl rfl rfl rfl (Or.inl (by decide)),
   (assignEmployee_error_no_change dbAfterSubmit 80 false false (some 1) (some 9)).1
     (by decide),
   (assignEmployee_error_no_change dbAfterSubmit 80 false false Option.none (some 9)).2.1
     (Or.inl rfl)⟩

end InvestManager

namespace InvestManager

/-! ## Pending list -/

theorem product_cons_eq {α β : Type} (a : α) (l₁ : List α) (l₂ : List β) :
    List.product (a :: l₁) l₂ = l₂.map (Prod.mk a) ++ List.product l₁ l₂ :=
  List.product_cons a l₁ l₂

theorem mem_product_iff {α β : Type} (l₁ : List α) (l₂ : List β) (a : α) (b : β) :
    (a, b) ∈ List.product l₁ l₂ ↔ a ∈ l₁ ∧ b ∈ l₂ :=
  List.mem_product

/-- The pairs of an application row and a task row that the pending query
joins and keeps. -/
theorem pendingJoin_eq_product (apps : List Application) (tasks : List Task) :
    apps.flatMap (fun oa =>
      (tasks.filter fun t =>
        decide (oa.id = t.application_id) && (oa.status == "pending" && t.status == "open")).map
        (pendingRow oa)) =
    ((List.product apps tasks).filter (fun p =>
      decide (p.2.application_id = p.1.id ∧ p.1.status = "pending" ∧ p.2.status = "open"))).map
      (fun p => pendingRow p.1 p.2) := by
  induction apps with
  | nil => rfl
  | cons oa rest ih =>
    rw [List.flatMap_cons, ih, product_cons_eq, List.filter_append, List.map_append,
      List.filter_map, List.map_map]
    congr 1
    have hp : ((fun p : Application × Task =>
          decide (p.2.application_id = p.1.id ∧ p.1.status = "pending" ∧ p.2.status = "open")) ∘
          Prod.mk oa) =
        (fun t : Task =>
          decide (oa.id = t.application_id) && (oa.status == "pending" && t.status == "open")) := by
      funext t
      show decide (t.application_id = oa.id ∧ oa.status = "pending" ∧ t.status = "open") =
        (decide (oa.id = t.application_id) && (oa.status == "pending" && t.status == "open"))
      rw [Bool.eq_iff_iff]
      simp only [decide_eq_true_eq, Bool.and_eq_true, beq_iff_eq]
      constructor <;> rintro ⟨h1, h2, h3⟩ <;> exact ⟨h1.symm, h2, h3⟩
    rw [hp]
    rfl

/-- C6: when its query does not fail, the pending endpoint answers 200 with
the rows built from a list of pairs of an application row and a task row: the
pairs are, up to order, exactly the pairs of the two tables with
`task.application_id = application.id`, application status `pending` and task
status `open`, each once; they are in non-decreasing order of the
application's `submission_date`; and the row of a pair holds the application's
id, user id, full name, submission date and status and the task's id, status
and assignee. -/
theorem listPending_rows (db : Db) :
    ∃ (pairs : List (Application × Task)) (rows : List PendingRow),
      listPending db false = ⟨200, Body.pending rows⟩ ∧
      rows = pairs.map (fun p =>
        { id := p.1.id, user_id := p.1.user_id, full_name := p.1.full_name,
          submission_date := p.1.submission_date, application_status := p.1.status,
          task_id := p.2.id, task_status := p.2.status,
          assigned_to_employee_id := p.2.assigned_to_employee_id }) ∧
      pairs.Perm
        ((List.product db.applications db.tasks).filter (fun p =>
          decide (p.2.application_id = p.1.id ∧ p.1.status = "pending" ∧
            p.2.status = "open"))) ∧
      pairs.Sorted (fun p q => p.1.submission_date ≤ q.1.submission_date) ∧
      rows.Sorted (fun r1 r2 => r1.submission_date ≤ r2.submission_date) ∧
      (∀ r, r ∈ rows ↔ ∃ oa ∈ db.applications, ∃ t ∈ db.tasks,
        t.application_id = oa.id ∧ oa.status = "pending" ∧ t.status = "open" ∧
          r = { id := oa.id, user_id := oa.user_id, full_name := oa.full_name,
                submission_date := oa.submission_date, application_status := oa.status,
                task_id := t.id, task_status := t.status,
                assigned_to_employee_id := t.assigned_to_employee_id }) := by
  haveI : IsTotal (Application × Task) (fun p q => p.1.submission_date ≤ q.1.submission_date) :=
    ⟨fun p q => Nat.le_total p.1.submission_date q.1.submission_date⟩
  haveI : IsTrans (Application × Task) (fun p q => p.1.submission_date ≤ q.1.submission_date) :=
    ⟨fun _ _ _ h1 h2 => Nat.le_trans h1 h2⟩
  haveI : IsTotal PendingRow (fun r1 r2 => r1.submission_date ≤ r2.submission_date) :=
    ⟨fun r1 r2 => Nat.le_total r1.submission_date r2.submission_date⟩
  haveI : IsTrans PendingRow (fun r1 r2 => r1.submission_date ≤ r2.submission_date) :=
    ⟨fun _ _ _ h1 h2 => Nat.le_trans h1 h2⟩
  have hperm := List.perm_insertionSort
    (fun p q : Application × Task => p.1.submission_date ≤ q.1.submission_date)
    ((List.product db.applications db.tasks).filter (fun p =>
      decide (p.2.application_id = p.1.id ∧ p.1.status = "pending" ∧ p.2.status = "open")))
  have hq : pendingQuery db =
      (((List.product db.applications db.tasks).filter (fun p =>
          decide (p.2.application_id = p.1.id ∧ p.1.status = "pending" ∧
            p.2.status = "open"))).insertionSort
        (fun p q => p.1.submission_date ≤ q.1.submission_date)).map (fun p =>
        { id := p.1.id, user_id := p.1.user_id, full_name := p.1.full_name,
          submission_date := p.1.submission_date, application_status := p.1.status,
          task_id := p.2.id, task_status := p.2.status,
          assigned_to_employee_id := p.2.assigned_to_employee_id }) := by
    unfold pendingQuery pendingJoin
    rw [pendingJoin_eq_product]
    exact (List.map_insertionSort
      (fun p q : Application × Task => p.1.submission_date ≤ q.1.submission_date)
      (fun r1 r2 : PendingRow => r1.submission_date ≤ r2.submission_date)
      (fun p : Application × Task => pendingRow p.1 p.2) _
      (fun _ _ _ _ => Iff.rfl)).symm
  refine ⟨_, pendingQuery db, rfl, hq, hperm, List.sorted_insertionSort _ _,
    List.sorted_insertionSort _ _, ?_⟩
  intro r
  rw [hq, List.mem_map]
  constructor
  · rintro ⟨⟨oa, t⟩, hp, rfl⟩
    have hm := List.mem_filter.mp (hperm.mem_iff.mp hp)
    have hpr := (mem_product_iff _ _ oa t).mp hm.1
    have hc := of_decide_eq_true hm.2
    exact ⟨oa, hpr.1, t, hpr.2, hc.1, hc.2.1, hc.2.2, rfl⟩
  · rintro ⟨oa, hoa, t, ht, h1, h2, h3, rfl⟩
    refine ⟨(oa, t), hperm.mem_iff.mpr (List.mem_filter.mpr
      ⟨(mem_product_iff _ _ oa t).mpr ⟨hoa, ht⟩, decide_eq_true ⟨h1, h2, h3⟩⟩), rfl⟩

end InvestManager

namespace InvestManager

/-! ## Rejected submissions -/

theorem not_mem_unlinkIfExists_self (files : List String) (f : UploadedFile) :
    f.path ∉ unlinkIfExists files (some f) := by
  unfold unlinkIfExists
  simp only
  split_ifs with h
  · intro hmem
    have := (List.mem_filter.mp hmem).2
    simp at this
  · exact h

theorem not_mem_unlinkIfExists_of_not_mem (files : List String) (g : Option UploadedFile)
    (p : String) (h : p ∉ files) : p ∉ unlinkIfExists files g := by
  unfold unlinkIfExists
  cases g with
  | none => exact h
  | some f =>
    simp only
    split_ifs
    · intro hmem
      exact h (List.mem_filter.mp hmem).1
    · exact h

theorem cleanupFiles_removes (db : Db) (govtIdFile incomeProofFile : Option UploadedFile)
    (f : UploadedFile) (hf : govtIdFile = some f ∨ incomeProofFile = some f) :
    f.path ∉ (cleanupFiles db govtIdFile incomeProofFile).files := by
  unfold cleanupFiles
  simp only
  rcases hf with h | h
  · subst h
    exact not_mem_unlinkIfExists_of_not_mem _ _ _ (not_mem_unlinkIfExists_self _ _)
  · subst h
    exact not_mem_unlinkIfExists_self _ _

/-- A submission that fails validation answers 400 and only runs the
cleanup. -/
theorem submitApplication_invalid (db : Db) (now taskNow : Nat) (af tf : Bool)
    (user : TokenUser) (formData : FormData) (govtIdFile incomeProofFile : Option UploadedFile)
    (h : validationFails user.id formData govtIdFile incomeProofFile = true) :
    submitApplication db now taskNow af tf user formData govtIdFile incomeProofFile =
      (cleanupFiles db govtIdFile incomeProofFile,
       ⟨400, Body.error "Missing required onboarding data or files."⟩) := by
  unfold submitApplication
  rw [if_pos h]

theorem validationFails_of_terms (userId : Int) (formData : FormData)
    (govtIdFile incomeProofFile : Option UploadedFile)
    (h : formData.termsAccepted ≠ some "true") :
    validationFails userId formData govtIdFile incomeProofFile = true := by
  have h2 : (formData.termsAccepted != some "true") = true := by
    simpa using h
  unfold validationFails
  rw [h2, Bool.or_true]

/-- C8: a submission whose `termsAccepted` field is absent or is any string
other than `true` is answered 400, leaves the application table and the task
table as they were, and after it no file stored for the request is left in the
uploads directory. -/
theorem onboarding_terms_not_accepted (db : Db) (t1 t2 now taskNow : Nat) (af tf : Bool)
    (user : TokenUser) (formData : FormData) (govtIdPart incomeProofPart : Option FilePart)
    (hterms : formData.termsAccepted ≠ some "true") :
    (onboardingRoute db t1 t2 now taskNow af tf user formData govtIdPart incomeProofPart).2 =
      ⟨400, Body.error "Missing required onboarding data or files."⟩ ∧
    (onboardingRoute db t1 t2 now taskNow af tf user formData
      govtIdPart incomeProofPart).1.applications = db.applications ∧
    (onboardingRoute db t1 t2 now taskNow af tf user formData
      govtIdPart incomeProofPart).1.tasks = db.tasks ∧
    (∀ f, ((uploadFields db.files t1 t2 govtIdPart incomeProofPart).2.1 = some f ∨
           (uploadFields db.files t1 t2 govtIdPart incomeProofPart).2.2 = some f) →
      f.path ∉ (onboardingRoute db t1 t2 now taskNow af tf user formData
        govtIdPart incomeProofPart).1.files) := by
  unfold onboardingRoute
  simp only
  rw [submitApplication_invalid _ now taskNow af tf user formData _ _
    (validationFails_of_terms _ _ _ _ hterms)]
  refine ⟨rfl, rfl, rfl, ?_⟩
  intro f hf
  exact cleanupFiles_removes _ _ _ f hf

theorem onboarding_terms_not_accepted_witness :
    formTermsFalse.termsAccepted ≠ some "true" ∧
    (uploadFields emptyDb.files 1000 1001 (some sampleGovtPart) (some sampleIncomePart)).2.1 =
      some sampleGovtFile ∧
    (uploadFields emptyDb.files 1000 1001 (some sampleGovtPart) (some sampleIncomePart)).2.2 =
      some sampleIncomeFile ∧
    ((onboardingRoute emptyDb 1000 1001 50 51 false false sampleUser formTermsFalse
      (some sampleGovtPart) (some sampleIncomePart)).2 =
      ⟨400, Body.error "Missing required onboarding data or files."⟩ ∧
    (onboardingRoute emptyDb 1000 1001 50 51 false false sampleUser formTermsFalse
      (some sampleGovtPart) (some sampleIncomePart)).1.applications = emptyDb.applications ∧
    (onboardingRoute emptyDb 1000 1001 50 51 false false sampleUser formTermsFalse
      (some sampleGovtPart) (some sampleIncomePart)).1.tasks = emptyDb.tasks ∧
    (∀ f, ((uploadFields emptyDb.files 1000 1001 (some sampleGovtPart)
              (some sampleIncomePart)).2.1 = some f ∨
           (uploadFields emptyDb.files 1000 1001 (some sampleGovtPart)
              (some sampleIncomePart)).2.2 = some f) →
      f.path ∉ (onboardingRoute emptyDb 1000 1001 50 51 false false sampleUser formTermsFalse
        (some sampleGovtPart) (some sampleIncomePart)).1.files)) :=
  ⟨by decide, by decide, by decide,
   onboarding_terms_not_accepted emptyDb 1000 1001 50 51 false false sampleUser formTermsFalse
     (some sampleGovtPart) (some sampleIncomePart) (by decide)⟩

/-- A submission in which a text field checked for truthiness is absent or
empty, or a file is absent, fails validation. -/
theorem validationFails_of_missing (userId : Int) (formData : FormData)
    (govtIdFile incomeProofFile : Option UploadedFile)
    (h : truthy formData.fullName = false ∨ truthy formData.govtIdNumber = false ∨
         truthy formData.mobile = false ∨ truthy formData.email = false ∨
         truthy formData.timeHorizon = false ∨ truthy formData.riskTolerance = false ∨
         formData.acceptableAnnualReturn = some "" ∨
         truthy formData.dob = false ∨ truthy formData.nationality = false ∨
         truthy formData.address = false ∨ truthy formData.clientType = false ∨
         truthy formData.sourceOfFunds = false ∨ truthy formData.occupationDetails = false ∨
         govtIdFile = Option.none ∨ incomeProofFile = Option.none) :
    validationFails userId formData govtIdFile incomeProofFile = true := by
  unfold validationFails
  rcases h with h | h | h | h | h | h | h | h | h | h | h | h | h | h | h <;>
    simp [h]

/-- C9 at its failing input: the sample submission without the field
`acceptableAnnualReturn` is not rejected; it is answered 201 and an
application row with a NULL `acceptable_annual_return` and a task row are
inserted. -/
theorem submit_without_acceptableAnnualReturn :
    formWithoutReturn.acceptableAnnualReturn = Option.none ∧
    (onboardingRoute emptyDb 1000 1001 50 51 false false sampleUser formWithoutReturn
      (some sampleGovtPart) (some sampleIncomePart)).2 =
      ⟨201, Body.submitted "Onboarding application submitted successfully" 1 "pending"⟩ ∧
    (onboardingRoute emptyDb 1000 1001 50 51 false false sampleUser formWithoutReturn
      (some sampleGovtPart) (some sampleIncomePart)).1.applications.map
        (fun oa => (oa.id, oa.acceptable_annual_return)) = [(1, Option.none)] ∧
    (onboardingRoute emptyDb 1000 1001 50 51 false false sampleUser formWithoutReturn
      (some sampleGovtPart) (some sampleIncomePart)).1.tasks.length = 1 := by
  decide

end InvestManager

namespace InvestManager

/-! ## Effects of the operations on the two tables -/

/-- What a submission can do to the application and task tables: nothing, or
append one application with the next key and at most one task for it. -/
theorem submitApplication_effect (db : Db) (now taskNow : Nat) (af tf : Bool)
    (user : TokenUser) (formData : FormData) (govtIdFile incomeProofFile : Option UploadedFile) :
    ((submitApplication db now taskNow af tf user formData govtIdFile incomeProofFile).1.applications
        = db.applications ∧
      (submitApplication db now taskNow af tf user formData govtIdFile incomeProofFile).1.tasks
        = db.tasks ∧
      (submitApplication db now taskNow af tf user formData govtIdFile incomeProofFile).2.status
        ≠ 201) ∨
    (∃ row : Application,
      row.id = nextId db.appSeq (db.applications.map (fun a => a.id)) ∧
      row.status = "pending" ∧
      (submitApplication db now taskNow af tf user formData govtIdFile incomeProofFile).1.applications
        = db.applications ++ [row] ∧
      (submitApplication db now taskNow af tf user formData govtIdFile incomeProofFile).2 =
        ⟨201, Body.submitted "Onboarding application submitted successfully" row.id "pending"⟩ ∧
      ((tf = true ∧
        (submitApplication db now taskNow af tf user formData govtIdFile incomeProofFile).1.tasks
          = db.tasks) ∨
       (tf = false ∧ ∃ t : Task, t.application_id = row.id ∧ t.status = "open" ∧
        t.assigned_to_employee_id = Option.none ∧
        (submitApplication db now taskNow af tf user formData govtIdFile incomeProofFile).1.tasks
          = db.tasks ++ [t]))) := by
  cases hv : validationFails user.id formData govtIdFile incomeProofFile with
  | true =>
    left
    rw [submitApplication_invalid db now taskNow af tf user formData _ _ hv]
    refine ⟨rfl, rfl, ?_⟩
    show (400 : Nat) ≠ 201
    decide
  | false =>
    obtain ⟨⟨g, rfl⟩, ⟨i, rfl⟩⟩ := files_of_validation _ _ _ _ hv
    cases af with
    | true =>
      left
      unfold submitApplication
      rw [hv]
      refine ⟨rfl, rfl, ?_⟩
      show (500 : Nat) ≠ 201
      decide
    | false =>
      right
      rw [submitApplication_valid db now taskNow tf user formData g i hv]
      refine ⟨newApplication (nextId db.appSeq (db.applications.map (fun a : Application => a.id)))
        now user.id formData g i, rfl, rfl, ?_, rfl, ?_⟩
      · cases tf <;> rfl
      · cases tf with
        | true => exact Or.inl ⟨rfl, rfl⟩
        | false => exact Or.inr ⟨rfl, _, rfl, rfl, rfl, rfl⟩

/-- What an assignment can do: the application table is untouched and the
task table is either untouched or updated by the assignment UPDATE. -/
theorem assignEmployee_effect (db : Db) (now : Nat) (ef uf : Bool)
    (applicationId assignedToEmployeeId : Option Int) :
    (assignEmployee db now ef uf applicationId assignedToEmployeeId).1.applications
      = db.applications ∧
    ((assignEmployee db now ef uf applicationId assignedToEmployeeId).1.tasks = db.tasks ∨
     ∃ a e, applicationId = some a ∧ assignedToEmployeeId = some e ∧
       (assignEmployee db now ef uf applicationId assignedToEmployeeId).1.tasks =
         db.tasks.map (assignTask e a now)) := by
  unfold assignEmployee
  cases applicationId <;> cases assignedToEmployeeId <;> try exact ⟨rfl, Or.inl rfl⟩
  rename_i a e
  simp only
  split_ifs
  · exact ⟨rfl, Or.inl rfl⟩
  · exact ⟨rfl, Or.inl rfl⟩
  · exact ⟨rfl, Or.inl rfl⟩
  · exact ⟨rfl, Or.inr ⟨a, e, rfl, rfl, rfl⟩⟩
  · exact ⟨rfl, Or.inr ⟨a, e, rfl, rfl, rfl⟩⟩

/-- What a status update can do: nothing, or the application UPDATE followed
or not by the task UPDATE. -/
theorem updateStatus_effect (db : Db) (now : Nat) (af tf : Bool)
    (applicationId : Option Int) (newStatus : Option String) :
    ((updateStatus db now af tf applicationId newStatus).1.applications = db.applications ∧
     (updateStatus db now af tf applicationId newStatus).1.tasks = db.tasks) ∨
    ∃ a s, applicationId = some a ∧ newStatus = some s ∧ s ∈ validStatuses ∧
      (updateStatus db now af tf applicationId newStatus).1.applications =
        db.applications.map (setApplicationStatus s a) ∧
      ((updateStatus db now af tf applicationId newStatus).1.tasks = db.tasks ∨
       (updateStatus db now af tf applicationId newStatus).1.tasks =
         db.tasks.map (setTaskStatus (taskStatusFor s) a now)) := by
  unfold updateStatus
  cases applicationId <;> cases newStatus <;> try exact Or.inl ⟨rfl, rfl⟩
  rename_i a s
  simp only
  by_cases h1 : s = ""
  · rw [if_pos h1]
    exact Or.inl ⟨rfl, rfl⟩
  rw [if_neg h1]
  by_cases h2 : s ∈ validStatuses
  · rw [if_neg (not_not.mpr h2)]
    by_cases h3 : af = true
    · rw [if_pos h3]
      exact Or.inl ⟨rfl, rfl⟩
    rw [if_neg h3]
    by_cases h4 : (db.applications.filter (fun oa => decide (oa.id = a))).length = 0
    · rw [if_pos h4]
      exact Or.inr ⟨a, s, rfl, rfl, h2, rfl, Or.inl rfl⟩
    rw [if_neg h4]
    by_cases h5 : tf = true
    · rw [if_pos h5]
      exact Or.inr ⟨a, s, rfl, rfl, h2, rfl, Or.inl rfl⟩
    · rw [if_neg h5]
      exact Or.inr ⟨a, s, rfl, rfl, h2, rfl, Or.inr rfl⟩
  · rw [if_pos h2]
    exact Or.inl ⟨rfl, rfl⟩

end InvestManager

namespace InvestManager

/-! ## Referential integrity along a run -/

theorem onboardingRoute_eq (db : Db) (t1 t2 now taskNow : Nat) (af tf : Bool)
    (user : TokenUser) (formData : FormData) (gp ip : Option FilePart) :
    onboardingRoute db t1 t2 now taskNow af tf user formData gp ip =
      submitApplication { db with files := (uploadFields db.files t1 t2 gp ip).1 }
        now taskNow af tf user formData
        (uploadFields db.files t1 t2 gp ip).2.1 (uploadFields db.files t1 t2 gp ip).2.2 :=
  rfl

theorem tasksRefer_step (db : Db) (op : Op) (h : TasksReferToApplications db) :
    TasksReferToApplications (step db op) := by
  cases op with
  | submit t1 t2 now taskNow af tf user formData gp ip =>
    show TasksReferToApplications (onboardingRoute db t1 t2 now taskNow af tf user formData gp ip).1
    rw [onboardingRoute_eq]
    rcases submitApplication_effect { db with files := (uploadFields db.files t1 t2 gp ip).1 }
      now taskNow af tf user formData
      (uploadFields db.files t1 t2 gp ip).2.1 (uploadFields db.files t1 t2 gp ip).2.2 with
      ⟨ha, ht, _⟩ | ⟨row, _, _, ha, _, hcase⟩
    · intro t htm
      rw [ht] at htm
      rw [ha]
      exact h t htm
    · intro t htm
      rw [ha]
      rcases hcase with ⟨_, ht⟩ | ⟨_, u, hu, _, _, ht⟩
      · rw [ht] at htm
        obtain ⟨oa, hoa, hid⟩ := h t htm
        exact ⟨oa, List.mem_append_left _ hoa, hid⟩
      · rw [ht] at htm
        rcases List.mem_append.mp htm with hold | hnew
        · obtain ⟨oa, hoa, hid⟩ := h t hold
          exact ⟨oa, List.mem_append_left _ hoa, hid⟩
        · rw [List.mem_singleton] at hnew
          subst hnew
          exact ⟨row, List.mem_append_right _ (List.mem_singleton.mpr rfl), hu.symm⟩
  | assign now ef uf a e =>
    show TasksReferToApplications (assignEmployee db now ef uf a e).1
    obtain ⟨ha, ht⟩ := assignEmployee_effect db now ef uf a e
    intro t htm
    rw [ha]
    rcases ht with ht | ⟨a1, e1, _, _, ht⟩
    · rw [ht] at htm
      exact h t htm
    · rw [ht] at htm
      obtain ⟨u, hu, rfl⟩ := List.mem_map.mp htm
      rw [assignTask_application_id]
      exact h u hu
  | status now af tf a s =>
    show TasksReferToApplications (updateStatus db now af tf a s).1
    rcases updateStatus_effect db now af tf a s with ⟨ha, ht⟩ | ⟨a1, s1, _, _, _, ha, ht⟩
    · intro t htm
      rw [ht] at htm
      rw [ha]
      exact h t htm
    · have hold : ∀ u ∈ db.tasks, ∃ oa ∈ (updateStatus db now af tf a s).1.applications,
          oa.id = u.application_id := by
        intro u hu
        obtain ⟨oa, hoa, hid⟩ := h u hu
        rw [ha]
        exact ⟨setApplicationStatus s1 a1 oa, List.mem_map.mpr ⟨oa, hoa, rfl⟩,
          by rw [setApplicationStatus_id]; exact hid⟩
      intro t htm
      rcases ht with ht | ht
      · rw [ht] at htm
        exact hold t htm
      · rw [ht] at htm
        obtain ⟨u, hu, rfl⟩ := List.mem_map.mp htm
        rw [setTaskStatus_application_id]
        exact hold u hu

theorem tasksRefer_run (ops : List Op) (db : Db) (h : TasksReferToApplications db) :
    TasksReferToApplications (run db ops) := by
  induction ops generalizing db with
  | nil => exact h
  | cons op rest ih => exact ih (step db op) (tasksRefer_step db op h)

theorem tasksRefer_emptyDb : TasksReferToApplications emptyDb := by
  intro t ht
  cases ht

end InvestManager

namespace InvestManager

/-! ## Requests that do not address an application leave it alone -/

theorem filter_map_frame {α : Type} (p : α → Bool) (f : α → α) (l : List α)
    (hp : ∀ x, p (f x) = p x) (hf : ∀ x, p x = true → f x = x) :
    (l.map f).filter p = l.filter p := by
  induction l with
  | nil => rfl
  | cons x xs ih =>
    rw [List.map_cons, List.filter_cons, List.filter_cons, hp x, ih]
    cases hpx : p x with
    | true => simp [hf x hpx]
    | false => simp

theorem filter_assignTask_other (tasks : List Task) (e a n : Int) (now : Nat) (h : a ≠ n) :
    (tasks.map (assignTask e a now)).filter (fun x => decide (x.application_id = n)) =
      tasks.filter (fun x => decide (x.application_id = n)) := by
  apply filter_map_frame
  · intro t
    rw [assignTask_application_id]
  · intro t ht
    have hid : t.application_id = n := by simpa using ht
    have hne : ¬ t.application_id = a := by
      intro hc
      exact h (hc.symm.trans hid)
    simp [assignTask, hne]

theorem filter_setTaskStatus_other (tasks : List Task) (s : String) (a n : Int) (now : Nat)
    (h : a ≠ n) :
    (tasks.map (setTaskStatus s a now)).filter (fun x => decide (x.application_id = n)) =
      tasks.filter (fun x => decide (x.application_id = n)) := by
  apply filter_map_frame
  · intro t
    rw [setTaskStatus_application_id]
  · intro t ht
    have hid : t.application_id = n := by simpa using ht
    have hne : ¬ t.application_id = a := by
      intro hc
      exact h (hc.symm.trans hid)
    simp [setTaskStatus, hne]

theorem filter_setApplicationStatus_other (apps : List Application) (s : String) (a n : Int)
    (h : a ≠ n) :
    (apps.map (setApplicationStatus s a)).filter (fun x => decide (x.id = n)) =
      apps.filter (fun x => decide (x.id = n)) := by
  apply filter_map_frame
  · intro oa
    rw [setApplicationStatus_id]
  · intro oa hoa
    have hid : oa.id = n := by simpa using hoa
    have hne : ¬ oa.id = a := by
      intro hc
      exact h (hc.symm.trans hid)
    simp [setApplicationStatus, hne]

theorem filter_append_singleton_of_ne {α : Type} (p : α → Bool) (l : List α) (x : α)
    (h : p x = false) : (l ++ [x]).filter p = l.filter p := by
  rw [List.filter_append, List.filter_cons, h]
  simp

theorem pendingOpenOnce_step (db : Db) (n : Int) (op : Op) (hop : Op.targets n op = false)
    (h : PendingOpenOnce db n) : PendingOpenOnce (step db op) n := by
  obtain ⟨oa, t, hoa, hst, ht, hts⟩ := h
  have hmem : oa ∈ db.applications ∧ oa.id = n := by
    have : oa ∈ db.applications.filter (fun x => decide (x.id = n)) := by
      rw [hoa]
      exact List.mem_singleton.mpr rfl
    have h2 := List.mem_filter.mp this
    exact ⟨h2.1, by simpa using h2.2⟩
  cases op with
  | submit t1 t2 now taskNow af tf user formData gp ip =>
    show PendingOpenOnce (onboardingRoute db t1 t2 now taskNow af tf user formData gp ip).1 n
    rw [onboardingRoute_eq]
    rcases submitApplication_effect { db with files := (uploadFields db.files t1 t2 gp ip).1 }
      now taskNow af tf user formData
      (uploadFields db.files t1 t2 gp ip).2.1 (uploadFields db.files t1 t2 gp ip).2.2 with
      ⟨ha, htk, _⟩ | ⟨row, hrow, _, ha, _, hcase⟩
    · exact ⟨oa, t, by rw [ha]; exact hoa, hst, by rw [htk]; exact ht, hts⟩
    · have hfresh : row.id ≠ n := by
        have := nextId_fresh db oa hmem.1
        intro hc
        apply this
        rw [hmem.2, ← hc, hrow]
      have hrowp : (fun x : Application => decide (x.id = n)) row = false := by
        simp [hfresh]
      refine ⟨oa, t, ?_, hst, ?_, hts⟩
      · rw [ha, filter_append_singleton_of_ne (fun x : Application => decide (x.id = n)) _ row
          hrowp]
        exact hoa
      · rcases hcase with ⟨_, htk⟩ | ⟨_, u, hu, _, _, htk⟩
        · rw [htk]
          exact ht
        · have hup : (fun x : Task => decide (x.application_id = n)) u = false := by
            simp [hu, hfresh]
          rw [htk, filter_append_singleton_of_ne
            (fun x : Task => decide (x.application_id = n)) _ u hup]
          exact ht
  | assign now ef uf a e =>
    show PendingOpenOnce (assignEmployee db now ef uf a e).1 n
    obtain ⟨ha, htk⟩ := assignEmployee_effect db now ef uf a e
    refine ⟨oa, t, by rw [ha]; exact hoa, hst, ?_, hts⟩
    rcases htk with htk | ⟨a1, e1, hA, _, htk⟩
    · rw [htk]
      exact ht
    · have hne : a1 ≠ n := by
        intro hc
        subst hc
        subst hA
        simp [Op.targets] at hop
      rw [htk, filter_assignTask_other _ _ _ _ _ hne]
      exact ht
  | status now af tf a s =>
    show PendingOpenOnce (updateStatus db now af tf a s).1 n
    rcases updateStatus_effect db now af tf a s with ⟨ha, htk⟩ | ⟨a1, s1, hA, _, _, ha, htk⟩
    · exact ⟨oa, t, by rw [ha]; exact hoa, hst, by rw [htk]; exact ht, hts⟩
    · have hne : a1 ≠ n := by
        intro hc
        subst hc
        subst hA
        simp [Op.targets] at hop
      refine ⟨oa, t, ?_, hst, ?_, hts⟩
      · rw [ha, filter_setApplicationStatus_other _ _ _ _ hne]
        exact hoa
      · rcases htk with htk | htk
        · rw [htk]
          exact ht
        · rw [htk, filter_setTaskStatus_other _ _ _ _ _ hne]
          exact ht

theorem pendingOpenOnce_run (ops : List Op) (db : Db) (n : Int)
    (hops : ∀ op ∈ ops, Op.targets n op = false) (h : PendingOpenOnce db n) :
    PendingOpenOnce (run db ops) n := by
  induction ops generalizing db with
  | nil => exact h
  | cons op rest ih =>
    exact ih (step db op) (fun o ho => hops o (List.mem_cons_of_mem _ ho))
      (pendingOpenOnce_step db n op (hops op (List.mem_cons_self _ _)) h)

end InvestManager

namespace InvestManager

/-! ## A fresh submission in the pending list -/

theorem pendingJoin_filter_id (apps : List Application) (tasks : List Task) (n : Int) :
    (apps.flatMap (fun oa =>
      (tasks.filter fun t =>
        decide (oa.id = t.application_id) && (oa.status == "pending" && t.status == "open")).map
        (pendingRow oa))).filter (fun r => decide (r.id = n)) =
    (apps.filter (fun oa => decide (oa.id = n))).flatMap (fun oa =>
      (tasks.filter fun t =>
        decide (oa.id = t.application_id) && (oa.status == "pending" && t.status == "open")).map
        (pendingRow oa)) := by
  induction apps with
  | nil => rfl
  | cons oa rest ih =>
    rw [List.flatMap_cons, List.filter_append, ih, List.filter_cons]
    by_cases hid : oa.id = n
    · have hall : ((tasks.filter fun t =>
          decide (oa.id = t.application_id) &&
            (oa.status == "pending" && t.status == "open")).map
          (pendingRow oa)).filter (fun r => decide (r.id = n)) =
          (tasks.filter fun t =>
          decide (oa.id = t.application_id) &&
            (oa.status == "pending" && t.status == "open")).map (pendingRow oa) := by
        rw [List.filter_eq_self]
        intro r hr
        obtain ⟨t, _, rfl⟩ := List.mem_map.mp hr
        simp [pendingRow, hid]
      rw [hall]
      simp [hid]
    · have hnone : ((tasks.filter fun t =>
          decide (oa.id = t.application_id) &&
            (oa.status == "pending" && t.status == "open")).map
          (pendingRow oa)).filter (fun r => decide (r.id = n)) = [] := by
        rw [List.filter_eq_nil_iff]
        intro r hr
        obtain ⟨t, _, rfl⟩ := List.mem_map.mp hr
        simp [pendingRow, hid]
      rw [hnone]
      simp [hid]

theorem pendingQuery_count_of_once (db : Db) (n : Int) (h : PendingOpenOnce db n) :
    ((pendingQuery db).filter (fun r => decide (r.id = n))).length = 1 := by
  obtain ⟨oa, t, hoa, hst, ht, hts⟩ := h
  have hid : oa.id = n := by
    have : oa ∈ db.applications.filter (fun x => decide (x.id = n)) := by
      rw [hoa]
      exact List.mem_singleton.mpr rfl
    simpa using (List.mem_filter.mp this).2
  have hperm : ((pendingQuery db).filter (fun r => decide (r.id = n))).Perm
      ((pendingJoin db).filter (fun r => decide (r.id = n))) :=
    (List.perm_insertionSort _ _).filter _
  rw [hperm.length_eq]
  unfold pendingJoin
  rw [pendingJoin_filter_id, hoa]
  have hpred : (fun t : Task =>
        decide (oa.id = t.application_id) && (oa.status == "pending" && t.status == "open")) =
      (fun t : Task => (t.status == "open") && decide (t.application_id = n)) := by
    funext t
    rw [Bool.eq_iff_iff]
    simp only [Bool.and_eq_true, decide_eq_true_eq, beq_iff_eq, hid, hst]
    constructor
    · rintro ⟨h1, _, h3⟩
      exact ⟨h3, h1.symm⟩
    · rintro ⟨h1, h2⟩
      exact ⟨h2.symm, trivial, h1⟩
  simp only [List.flatMap_cons, List.flatMap_nil, List.append_nil, List.length_map]
  rw [hpred, ← List.filter_filter, ht]
  simp [hts]

end InvestManager

namespace InvestManager

/-- C7 (as amended): in a database reached from the empty one, after a
submission answered 201 whose task insert did not fail, and after any further
requests none of which is an assignment or a status update for the new
application, the pending endpoint lists the new application exactly once. -/
theorem submitted_application_listed_once (before after : List Op)
    (t1 t2 now taskNow : Nat) (af : Bool) (user : TokenUser) (formData : FormData)
    (gp ip : Option FilePart) (n : Int)
    (hok : (onboardingRoute (run emptyDb before) t1 t2 now taskNow af false user formData
        gp ip).2 =
      ⟨201, Body.submitted "Onboarding application submitted successfully" n "pending"⟩)
    (hafter : ∀ op ∈ after, Op.targets n op = false) :
    ∃ rows,
      listPending (run (onboardingRoute (run emptyDb before) t1 t2 now taskNow af false
        user formData gp ip).1 after) false = ⟨200, Body.pending rows⟩ ∧
      (rows.filter (fun r => decide (r.id = n))).length = 1 := by
  refine ⟨_, rfl, ?_⟩
  apply pendingQuery_count_of_once
  apply pendingOpenOnce_run after _ n hafter
  have hinv := tasksRefer_run before emptyDb tasksRefer_emptyDb
  generalize run emptyDb before = db at hok hinv ⊢
  rw [onboardingRoute_eq] at hok ⊢
  rcases submitApplication_effect { db with files := (uploadFields db.files t1 t2 gp ip).1 }
    now taskNow af false user formData
    (uploadFields db.files t1 t2 gp ip).2.1 (uploadFields db.files t1 t2 gp ip).2.2 with
    ⟨_, _, hne⟩ | ⟨row, hrow, hpend, ha, hresp, hcase⟩
  · rw [hok] at hne
    exact absurd rfl hne
  · have hn : row.id = n := by
      rw [hok] at hresp
      injection hresp with _ hb
      injection hb with _ hb2 _
      exact hb2.symm
    have hfresh : ∀ oa ∈ db.applications, oa.id ≠ n := by
      intro oa hoa
      have := nextId_fresh db oa hoa
      rw [← hn, hrow]
      exact this
    rcases hcase with ⟨hc, _⟩ | ⟨_, u, hu, hopen, _, htk⟩
    · cases hc
    · refine ⟨row, u, ?_, hpend, ?_, hopen⟩
      · rw [ha, List.filter_append]
        have hnil : List.filter (fun x : Application => decide (x.id = n)) db.applications = [] := by
          rw [List.filter_eq_nil_iff]
          intro oa hoa
          simpa using hfresh oa hoa
        show List.filter (fun x : Application => decide (x.id = n)) db.applications ++
          List.filter (fun x : Application => decide (x.id = n)) [row] = [row]
        rw [hnil]
        simp [hn]
      · rw [htk, List.filter_append]
        have hnil : List.filter (fun x : Task => decide (x.application_id = n)) db.tasks = [] := by
          rw [List.filter_eq_nil_iff]
          intro v hv
          obtain ⟨oa, hoa, hid⟩ := hinv v hv
          have := hfresh oa hoa
          rw [hid] at this
          simpa using this
        show List.filter (fun x : Task => decide (x.application_id = n)) db.tasks ++
          List.filter (fun x : Task => decide (x.application_id = n)) [u] = [u]
        rw [hnil]
        simp [hu, hn]

theorem submitted_application_listed_once_witness :
    (onboardingRoute (run emptyDb []) 1000 1001 50 51 false false sampleUser sampleForm
        (some sampleGovtPart) (some sampleIncomePart)).2 =
      ⟨201, Body.submitted "Onboarding application submitted successfully" 1 "pending"⟩ ∧
    (∀ op ∈ otherRequests, Op.targets 1 op = false) ∧
    ∃ rows,
      listPending (run (onboardingRoute (run emptyDb []) 1000 1001 50 51 false false
        sampleUser sampleForm (some sampleGovtPart) (some sampleIncomePart)).1 otherRequests)
        false = ⟨200, Body.pending rows⟩ ∧
      (rows.filter (fun r => decide (r.id = 1))).length = 1 :=
  ⟨by decide, by decide,
   submitted_application_listed_once [] otherRequests 1000 1001 50 51 false sampleUser
     sampleForm (some sampleGovtPart) (some sampleIncomePart) 1 (by decide) (by decide)⟩

/-- C7 as stated fails: the sample submission to the empty database with a
failing task insert is answered 201 with application id 1, and the pending
list read right after it is empty. -/
theorem submitted_without_task_not_listed :
    (onboardingRoute emptyDb 1000 1001 50 51 false true sampleUser sampleForm
        (some sampleGovtPart) (some sampleIncomePart)).2 =
      ⟨201, Body.submitted "Onboarding application submitted successfully" 1 "pending"⟩ ∧
    listPending (onboardingRoute emptyDb 1000 1001 50 51 false true sampleUser sampleForm
        (some sampleGovtPart) (some sampleIncomePart)).1 false = ⟨200, Body.pending []⟩ := by
  decide

end InvestManager

namespace InvestManager

/-! ## Failures of the status endpoint -/

theorem map_setApplicationStatus_of_none (apps : List Application) (s : String) (a : Int)
    (h : ¬ ∃ oa ∈ apps, oa.id = a) : apps.map (setApplicationStatus s a) = apps := by
  conv_rhs => rw [← List.map_id apps]
  apply List.map_congr_left
  intro oa hoa
  have hne : ¬ oa.id = a := fun hc => h ⟨oa, hoa, hc⟩
  simp [setApplicationStatus, hne]

theorem updateStatus_missing (db : Db) (now : Nat) (af tf : Bool)
    (applicationId : Option Int) (newStatus : Option String)
    (h : applicationId = Option.none ∨ newStatus = Option.none) :
    updateStatus db now af tf applicationId newStatus =
      (db, ⟨400, Body.error "Invalid application ID or status provided."⟩) := by
  unfold updateStatus
  rcases h with h | h
  · subst h; rfl
  · subst h; cases applicationId <;> rfl

theorem updateStatus_invalid (db : Db) (now : Nat) (af tf : Bool) (a : Int) (s : String)
    (h : s ∉ validStatuses) :
    (updateStatus db now af tf (some a) (some s)).2.status = 400 ∧
    (updateStatus db now af tf (some a) (some s)).1 = db := by
  unfold updateStatus
  simp only
  by_cases h1 : s = ""
  · rw [if_pos h1]
    exact ⟨rfl, rfl⟩
  · rw [if_neg h1, if_pos h]
    exact ⟨rfl, rfl⟩

theorem updateStatus_db_error (db : Db) (now : Nat) (tf : Bool) (a : Int) (s : String)
    (h : s ∈ validStatuses) :
    updateStatus db now true tf (some a) (some s) =
      (db, ⟨500, Body.error "Error updating application status."⟩) := by
  unfold updateStatus
  simp only
  rw [if_neg (validStatus_ne_empty s h), if_neg (not_not.mpr h)]
  rfl

theorem updateStatus_not_found (db : Db) (now : Nat) (tf : Bool) (a : Int) (s : String)
    (h : s ∈ validStatuses) (hno : ¬ ∃ oa ∈ db.applications, oa.id = a) :
    updateStatus db now false tf (some a) (some s) =
      (db, ⟨404, Body.error ("Onboarding application with ID " ++ toString a ++
                  " not found.")⟩) := by
  have h0 : (db.applications.filter (fun oa => decide (oa.id = a))).length = 0 := by
    rw [List.length_eq_zero, List.filter_eq_nil_iff]
    intro oa hoa hid
    exact hno ⟨oa, hoa, by simpa using hid⟩
  unfold updateStatus
  simp only
  rw [if_neg (validStatus_ne_empty s h), if_neg (not_not.mpr h)]
  simp only [Bool.false_eq_true, if_false]
  rw [if_pos h0, map_setApplicationStatus_of_none _ _ _ hno]

end InvestManager

namespace InvestManager

theorem mem_validStatuses (s : String) :
    s ∈ validStatuses ↔ (s = "pending" ∨ s = "approved" ∨ s = "rejected") := by
  simp [validStatuses]

/-- C11: the status endpoint answers 400 exactly when the application id is
not numeric or the new status is missing or is not one of the strings
`pending`, `approved`, `rejected`; it answers 404 exactly when the input is
valid, the primary UPDATE reports no error and no application row has the id;
after a 400 or a 404 the database is the one before. -/
theorem updateStatus_failures (db : Db) (now : Nat) (af tf : Bool)
    (applicationId : Option Int) (newStatus : Option String) :
    ((updateStatus db now af tf applicationId newStatus).2.status = 400 ↔
      (applicationId = Option.none ∨ newStatus = Option.none ∨
        ∃ s, newStatus = some s ∧ s ≠ "pending" ∧ s ≠ "approved" ∧ s ≠ "rejected")) ∧
    ((updateStatus db now af tf applicationId newStatus).2.status = 404 ↔
      ∃ a s, applicationId = some a ∧ newStatus = some s ∧
        (s = "pending" ∨ s = "approved" ∨ s = "rejected") ∧ af = false ∧
        ¬ ∃ oa ∈ db.applications, oa.id = a) ∧
    (((updateStatus db now af tf applicationId newStatus).2.status = 400 ∨
      (updateStatus db now af tf applicationId newStatus).2.status = 404) →
      (updateStatus db now af tf applicationId newStatus).1 = db) := by
  cases applicationId with
  | none =>
    rw [updateStatus_missing db now af tf Option.none newStatus (Or.inl rfl)]
    refine ⟨⟨fun _ => Or.inl rfl, fun _ => rfl⟩, ⟨fun h => ?_, ?_⟩, fun _ => rfl⟩
    · exact ((by decide : (400 : Nat) ≠ 404) h).elim
    · rintro ⟨a, s, h, _⟩
      cases h
  | some a =>
    cases newStatus with
    | none =>
      rw [updateStatus_missing db now af tf (some a) Option.none (Or.inr rfl)]
      refine ⟨⟨fun _ => Or.inr (Or.inl rfl), fun _ => rfl⟩, ⟨fun h => ?_, ?_⟩, fun _ => rfl⟩
      · exact ((by decide : (400 : Nat) ≠ 404) h).elim
      · rintro ⟨_, s, _, h, _⟩
        cases h
    | some s =>
      by_cases hs : s ∈ validStatuses
      · have hs3 := (mem_validStatuses s).mp hs
        have hnot400 : ¬ (Option.some a = Option.none ∨ Option.some s = Option.none ∨
            ∃ s1, Option.some s = some s1 ∧ s1 ≠ "pending" ∧ s1 ≠ "approved" ∧
              s1 ≠ "rejected") := by
          rintro (h | h | ⟨s1, h, n1, n2, n3⟩)
          · cases h
          · cases h
          · cases h
            rcases hs3 with h | h | h
            · exact n1 h
            · exact n2 h
            · exact n3 h
        cases af with
        | true =>
          rw [updateStatus_db_error db now tf a s hs]
          refine ⟨⟨fun h => ((by decide : (500 : Nat) ≠ 400) h).elim, fun h => absurd h hnot400⟩,
            ⟨fun h => ((by decide : (500 : Nat) ≠ 404) h).elim, ?_⟩, fun _ => rfl⟩
          rintro ⟨_, _, _, _, _, h, _⟩
          cases h
        | false =>
          by_cases hex : ∃ oa ∈ db.applications, oa.id = a
          · rw [updateStatus_valid db now tf a s hs hex]
            refine ⟨⟨fun h => ((by decide : (200 : Nat) ≠ 400) h).elim,
                fun h => absurd h hnot400⟩,
              ⟨fun h => ((by decide : (200 : Nat) ≠ 404) h).elim, ?_⟩, ?_⟩
            · rintro ⟨a1, _, ha, _, _, _, hno⟩
              cases ha
              exact absurd hex hno
            · rintro (h | h)
              · exact ((by decide : (200 : Nat) ≠ 400) h).elim
              · exact ((by decide : (200 : Nat) ≠ 404) h).elim
          · rw [updateStatus_not_found db now tf a s hs hex]
            refine ⟨⟨fun h => ((by decide : (404 : Nat) ≠ 400) h).elim,
                fun h => absurd h hnot400⟩,
              ⟨fun _ => ⟨a, s, rfl, rfl, hs3, rfl, hex⟩, fun _ => rfl⟩, fun _ => rfl⟩
      · obtain ⟨h400, hdb⟩ := updateStatus_invalid db now af tf a s hs
        have hs3 : s ≠ "pending" ∧ s ≠ "approved" ∧ s ≠ "rejected" := by
          rw [mem_validStatuses] at hs
          push_neg at hs
          exact hs
        refine ⟨⟨fun _ => Or.inr (Or.inr ⟨s, rfl, hs3⟩), fun _ => h400⟩, ⟨fun h => ?_, ?_⟩,
          fun _ => hdb⟩
        · rw [h400] at h
          exact ((by decide : (400 : Nat) ≠ 404) h).elim
        · rintro ⟨_, s1, _, h, hv, _⟩
          cases h
          exact absurd ((mem_validStatuses s).mpr hv) hs

theorem updateStatus_failures_witness :
    (updateStatus dbAfterSubmit 60 false false (some 1) (some "Approved")).2.status = 400 ∧
    (updateStatus dbAfterSubmit 60 false false (some 1) (some "Approved")).1 = dbAfterSubmit ∧
    (updateStatus dbAfterSubmit 60 false false (some 2) (some "approved")).2.status = 404 ∧
    (updateStatus dbAfterSubmit 60 false false (some 2) (some "approved")).1 = dbAfterSubmit :=
  ⟨(updateStatus_failures dbAfterSubmit 60 false false (some 1) (some "Approved")).1.mpr
     (Or.inr (Or.inr ⟨"Approved", rfl, by decide, by decide, by decide⟩)),
   (updateStatus_failures dbAfterSubmit 60 false false (some 1) (some "Approved")).2.2
     (Or.inl (by decide)),
   (updateStatus_failures dbAfterSubmit 60 false false (some 2) (some "approved")).2.1.mpr
     ⟨2, "approved", rfl, rfl, Or.inr (Or.inl rfl), rfl, by decide⟩,
   (updateStatus_failures dbAfterSubmit 60 false false (some 2) (some "approved")).2.2
     (Or.inr (by decide))⟩

end InvestManager

namespace InvestManager

/-! ## Application detail -/

theorem find_of_filter_singleton {α : Type} (p : α → Bool) (l : List α) (x : α)
    (h : l.filter p = [x]) : l.find? p = some x := by
  induction l with
  | nil => cases h
  | cons y ys ih =>
    rw [List.filter_cons] at h
    rw [List.find?_cons]
    cases hp : p y with
    | true =>
      rw [hp] at h
      simp only [if_true] at h
      injection h with h1 _
      rw [h1]
    | false =>
      rw [hp] at h
      simp only [Bool.false_eq_true, if_false] at h
      exact ih h

theorem find_application_none (db : Db) (a : Int) :
    db.applications.find? (fun oa => decide (oa.id = a)) = Option.none ↔
      ¬ ∃ oa ∈ db.applications, oa.id = a := by
  rw [List.find?_eq_none]
  constructor
  · rintro h ⟨oa, hoa, hid⟩
    exact h oa hoa (by simp [hid])
  · intro h oa hoa hid
    exact h ⟨oa, hoa, by simpa using hid⟩

/-- C12: for a numeric id and a query that reports no error, the detail
endpoint answers 404 exactly when no application row has the id; otherwise it
answers 200 with a row of the application table that has this id, together
with an assignee that is NULL when the application has no task row and is the
assignee of a task row of the application when one exists (of the task row,
when there is exactly one). -/
theorem getApplicationDetail_found (db : Db) (a : Int) :
    ((getApplicationDetail db false (some a)).status = 404 ↔
      ¬ ∃ oa ∈ db.applications, oa.id = a) ∧
    ((∃ oa ∈ db.applications, oa.id = a) →
      ∃ row, getApplicationDetail db false (some a) = ⟨200, Body.detail row⟩ ∧
        row.app ∈ db.applications ∧ row.app.id = a ∧
        ((¬ ∃ t ∈ db.tasks, t.application_id = a) →
          row.assigned_to_employee_id = Option.none) ∧
        ((∃ t ∈ db.tasks, t.application_id = a) →
          ∃ t ∈ db.tasks, t.application_id = a ∧
            row.assigned_to_employee_id = t.assigned_to_employee_id) ∧
        (∀ t, db.tasks.filter (fun x => decide (x.application_id = a)) = [t] →
          row.assigned_to_employee_id = t.assigned_to_employee_id)) := by
  unfold getApplicationDetail detailQuery
  simp only [Bool.false_eq_true, if_false]
  cases hfind : db.applications.find? (fun oa => decide (oa.id = a)) with
  | none =>
    have hno := (find_application_none db a).mp hfind
    exact ⟨⟨fun _ => hno, fun _ => rfl⟩, fun hex => absurd hex hno⟩
  | some oa =>
    have hid : oa.id = a := by simpa using List.find?_some hfind
    have hmem : oa ∈ db.applications := List.mem_of_find?_eq_some hfind
    refine ⟨⟨fun h => ((by decide : (200 : Nat) ≠ 404) h).elim,
      fun hno => absurd ⟨oa, hmem, hid⟩ hno⟩, fun _ => ⟨_, rfl, hmem, hid, ?_, ?_, ?_⟩⟩
    · intro hno
      have : db.tasks.find? (fun t => decide (oa.id = t.application_id)) = Option.none := by
        rw [List.find?_eq_none]
        intro t ht hc
        exact hno ⟨t, ht, by rw [← hid]; exact (of_decide_eq_true hc).symm⟩
      simp only [this]
      rfl
    · intro _
      cases hf : db.tasks.find? (fun t => decide (oa.id = t.application_id)) with
      | none =>
        exfalso
        rename_i hex
        obtain ⟨t, ht, htid⟩ := hex
        have := List.find?_eq_none.mp hf t ht
        simp [hid, htid] at this
      | some t =>
        have h1 : oa.id = t.application_id := by simpa using List.find?_some hf
        exact ⟨t, List.mem_of_find?_eq_some hf, by rw [← h1, hid], rfl⟩
    · intro t ht
      have hpred : (fun x : Task => decide (oa.id = x.application_id)) =
          (fun x : Task => decide (x.application_id = a)) := by
        funext x
        rw [hid]
        exact decide_eq_decide.mpr eq_comm
      rw [hpred, find_of_filter_singleton _ _ _ ht]
      rfl

theorem getApplicationDetail_found_witness :
    (∃ oa ∈ dbAfterSubmit.applications, oa.id = 1) ∧
    (¬ ∃ oa ∈ dbAfterSubmit.applications, oa.id = 2) ∧
    (getApplicationDetail dbAfterSubmit false (some 2)).status = 404 ∧
    ∃ row, getApplicationDetail dbAfterSubmit false (some 1) = ⟨200, Body.detail row⟩ ∧
        row.app ∈ dbAfterSubmit.applications ∧ row.app.id = 1 ∧
        ((¬ ∃ t ∈ dbAfterSubmit.tasks, t.application_id = 1) →
          row.assigned_to_employee_id = Option.none) ∧
        ((∃ t ∈ dbAfterSubmit.tasks, t.application_id = 1) →
          ∃ t ∈ dbAfterSubmit.tasks, t.application_id = 1 ∧
            row.assigned_to_employee_id = t.assigned_to_employee_id) ∧
        (∀ t, dbAfterSubmit.tasks.filter (fun x => decide (x.application_id = 1)) = [t] →
          row.assigned_to_employee_id = t.assigned_to_employee_id) :=
  ⟨by decide, by decide,
   (getApplicationDetail_found dbAfterSubmit 2).1.mpr (by decide),
   (getApplicationDetail_found dbAfterSubmit 1).2 (by decide)⟩

end InvestManager

namespace InvestManager

/-! ## Shape of the tables after one request -/

theorem taskStatusFor_values (s : String) :
    taskStatusFor s = "in_progress" ∨ taskStatusFor s = "completed" := by
  unfold taskStatusFor
  split_ifs
  · exact Or.inr rfl
  · exact Or.inl rfl

/-- After any request the task table is the old one, row by row with the same
key and application id and a status that is either unchanged or one of
`in_progress`, `completed`, followed by at most one new row. -/
theorem step_tasks_shape (db : Db) (op : Op) :
    ∃ (g : Task → Task) (extra : List Task),
      (step db op).tasks = db.tasks.map g ++ extra ∧ extra.length ≤ 1 ∧
      (∀ t ∈ extra, t.status = "open" ∧ t.assigned_to_employee_id = Option.none ∧
        t.application_id = nextId db.appSeq (db.applications.map (fun a => a.id))) ∧
      ∀ t, (g t).id = t.id ∧ (g t).application_id = t.application_id ∧
        (g t = t ∨ (g t).status = "in_progress" ∨ (g t).status = "completed") := by
  cases op with
  | submit t1 t2 now taskNow af tf user formData gp ip =>
    show ∃ (g : Task → Task) (extra : List Task),
      (onboardingRoute db t1 t2 now taskNow af tf user formData gp ip).1.tasks =
        db.tasks.map g ++ extra ∧ _
    rw [onboardingRoute_eq]
    rcases submitApplication_effect { db with files := (uploadFields db.files t1 t2 gp ip).1 }
      now taskNow af tf user formData
      (uploadFields db.files t1 t2 gp ip).2.1 (uploadFields db.files t1 t2 gp ip).2.2 with
      ⟨_, ht, _⟩ | ⟨row, hrow, _, _, _, hcase⟩
    · refine ⟨id, [], ?_, by decide, ?_, fun t => ⟨rfl, rfl, Or.inl rfl⟩⟩
      · rw [ht, List.map_id, List.append_nil]
      · intro t ht2
        cases ht2
    · rcases hcase with ⟨_, ht⟩ | ⟨_, u, hu, hopen, hnone, ht⟩
      · refine ⟨id, [], ?_, by decide, ?_, fun t => ⟨rfl, rfl, Or.inl rfl⟩⟩
        · rw [ht, List.map_id, List.append_nil]
        · intro t ht2
          cases ht2
      · refine ⟨id, [u], ?_, Nat.le_refl 1, ?_, fun t => ⟨rfl, rfl, Or.inl rfl⟩⟩
        · rw [ht, List.map_id]
        · intro t ht2
          rw [List.mem_singleton] at ht2
          subst ht2
          exact ⟨hopen, hnone, by rw [hu, hrow]⟩
  | assign now ef uf a e =>
    show ∃ (g : Task → Task) (extra : List Task),
      (assignEmployee db now ef uf a e).1.tasks = db.tasks.map g ++ extra ∧ _
    obtain ⟨_, ht⟩ := assignEmployee_effect db now ef uf a e
    rcases ht with ht | ⟨a1, e1, _, _, ht⟩
    · refine ⟨id, [], ?_, by decide, ?_, fun t => ⟨rfl, rfl, Or.inl rfl⟩⟩
      · rw [ht, List.map_id, List.append_nil]
      · intro t ht2
        cases ht2
    · refine ⟨assignTask e1 a1 now, [], ?_, by decide, ?_, fun t => ⟨assignTask_id _ _ _ _,
        assignTask_application_id _ _ _ _, ?_⟩⟩
      · rw [ht, List.append_nil]
      · intro t ht2
        cases ht2
      · unfold assignTask
        split_ifs
        · exact Or.inr (Or.inl rfl)
        · exact Or.inl rfl
  | status now af tf a s =>
    show ∃ (g : Task → Task) (extra : List Task),
      (updateStatus db now af tf a s).1.tasks = db.tasks.map g ++ extra ∧ _
    rcases updateStatus_effect db now af tf a s with ⟨_, ht⟩ | ⟨a1, s1, _, _, _, _, ht⟩
    · refine ⟨id, [], ?_, by decide, ?_, fun t => ⟨rfl, rfl, Or.inl rfl⟩⟩
      · rw [ht, List.map_id, List.append_nil]
      · intro t ht2
        cases ht2
    · rcases ht with ht | ht
      · refine ⟨id, [], ?_, by decide, ?_, fun t => ⟨rfl, rfl, Or.inl rfl⟩⟩
        · rw [ht, List.map_id, List.append_nil]
        · intro t ht2
          cases ht2
      · refine ⟨setTaskStatus (taskStatusFor s1) a1 now, [], ?_, by decide, ?_,
          fun t => ⟨setTaskStatus_id _ _ _ _, setTaskStatus_application_id _ _ _ _, ?_⟩⟩
        · rw [ht, List.append_nil]
        · intro t ht2
          cases ht2
        · unfold setTaskStatus
          split_ifs
          · exact Or.inr (taskStatusFor_values s1)
          · exact Or.inl rfl

theorem forall₂_take_map_append {α : Type} (R : α → α → Prop) (l extra : List α) (g : α → α)
    (h : ∀ x, R x (g x)) : List.Forall₂ R l ((l.map g ++ extra).take l.length) := by
  rw [List.take_left' (List.length_map l g)]
  rw [List.forall₂_map_right_iff]
  exact List.forall₂_same.mpr (fun x _ => h x)

end InvestManager

namespace InvestManager

/-- After any request the application table is the old one, row by row with
every column but `status` unchanged, followed by at most one new row. -/
theorem step_applications_shape (db : Db) (op : Op) :
    ∃ (g : Application → Application) (extra : List Application),
      (step db op).applications = db.applications.map g ++ extra ∧ extra.length ≤ 1 ∧
      (∀ row ∈ extra, row.status = "pending" ∧
        row.id = nextId db.appSeq (db.applications.map (fun a => a.id))) ∧
      ∀ oa, g oa = { oa with status := (g oa).status } ∧
        (g oa = oa ∨ (g oa).status ∈ validStatuses) := by
  cases op with
  | submit t1 t2 now taskNow af tf user formData gp ip =>
    show ∃ (g : Application → Application) (extra : List Application),
      (onboardingRoute db t1 t2 now taskNow af tf user formData gp ip).1.applications =
        db.applications.map g ++ extra ∧ _
    rw [onboardingRoute_eq]
    rcases submitApplication_effect { db with files := (uploadFields db.files t1 t2 gp ip).1 }
      now taskNow af tf user formData
      (uploadFields db.files t1 t2 gp ip).2.1 (uploadFields db.files t1 t2 gp ip).2.2 with
      ⟨ha, _, _⟩ | ⟨row, hrow, hpend, ha, _, _⟩
    · refine ⟨id, [], ?_, by decide, ?_, fun oa => ⟨rfl, Or.inl rfl⟩⟩
      · rw [ha, List.map_id, List.append_nil]
      · intro r hr
        cases hr
    · refine ⟨id, [row], ?_, Nat.le_refl 1, ?_, fun oa => ⟨rfl, Or.inl rfl⟩⟩
      · rw [ha, List.map_id]
      · intro r hr
        rw [List.mem_singleton] at hr
        subst hr
        exact ⟨hpend, hrow⟩
  | assign now ef uf a e =>
    show ∃ (g : Application → Application) (extra : List Application),
      (assignEmployee db now ef uf a e).1.applications = db.applications.map g ++ extra ∧ _
    obtain ⟨ha, _⟩ := assignEmployee_effect db now ef uf a e
    refine ⟨id, [], ?_, by decide, ?_, fun oa => ⟨rfl, Or.inl rfl⟩⟩
    · rw [ha, List.map_id, List.append_nil]
    · intro r hr
      cases hr
  | status now af tf a s =>
    show ∃ (g : Application → Application) (extra : List Application),
      (updateStatus db now af tf a s).1.applications = db.applications.map g ++ extra ∧ _
    rcases updateStatus_effect db now af tf a s with ⟨ha, _⟩ | ⟨a1, s1, _, _, hs, ha, _⟩
    · refine ⟨id, [], ?_, by decide, ?_, fun oa => ⟨rfl, Or.inl rfl⟩⟩
      · rw [ha, List.map_id, List.append_nil]
      · intro r hr
        cases hr
    · refine ⟨setApplicationStatus s1 a1, [], ?_, by decide, ?_, fun oa => ?_⟩
      · rw [ha, List.append_nil]
      · intro r hr
        cases hr
      · unfold setApplicationStatus
        split_ifs
        · exact ⟨rfl, Or.inr hs⟩
        · exact ⟨rfl, Or.inl rfl⟩

/-! ## Frame and invariants of the engine -/

/-- C14: after any request (submission, assignment or status update), every
task row that existed before is still there with the same key and application
id, and if its status was not `open` before, it is not `open` afterwards. -/
theorem step_never_reopens (db : Db) (op : Op) :
    List.Forall₂
      (fun t t1 : Task => t1.id = t.id ∧ t1.application_id = t.application_id ∧
        (t.status ≠ "open" → t1.status ≠ "open"))
      db.tasks ((step db op).tasks.take db.tasks.length) := by
  obtain ⟨g, extra, hshape, _, _, hg⟩ := step_tasks_shape db op
  rw [hshape]
  apply forall₂_take_map_append
  intro t
  obtain ⟨h1, h2, h3⟩ := hg t
  refine ⟨h1, h2, fun hne => ?_⟩
  rcases h3 with h | h | h
  · rw [h]
    exact hne
  · rw [h]
    decide
  · rw [h]
    decide

/-- C15: in every state reached from the empty database by requests to the
engine, the application id of every task row is the key of an application
row. -/
theorem reachable_tasks_refer (ops : List Op) (t : Task)
    (ht : t ∈ (run emptyDb ops).tasks) :
    ∃ oa ∈ (run emptyDb ops).applications, oa.id = t.application_id :=
  tasksRefer_run ops emptyDb tasksRefer_emptyDb t ht

theorem reachable_tasks_refer_witness :
    ({ id := 2, application_id := 2, assigned_to_employee_id := some 3, status := "in_progress",
       created_at := 70, updated_at := 80 } : Task) ∈
      (run emptyDb (Op.submit 1000 1001 50 51 false false sampleUser sampleForm
        (some sampleGovtPart) (some sampleIncomePart) :: otherRequests)).tasks ∧
    ∃ oa ∈ (run emptyDb (Op.submit 1000 1001 50 51 false false sampleUser sampleForm
        (some sampleGovtPart) (some sampleIncomePart) :: otherRequests)).applications,
      oa.id = 2 :=
  ⟨by decide,
   reachable_tasks_refer (Op.submit 1000 1001 50 51 false false sampleUser sampleForm
        (some sampleGovtPart) (some sampleIncomePart) :: otherRequests)
     { id := 2, application_id := 2, assigned_to_employee_id := some 3, status := "in_progress",
       created_at := 70, updated_at := 80 } (by decide)⟩

/-- C17: after any request every application row that existed before is still
there, in place, with every column but `status` unchanged; an assignment
leaves the table as it is, a status update leaves its length as it is, and a
submission appends exactly one row when it is answered 201 and none
otherwise. -/
theorem step_preserves_applications (db : Db) :
    (∀ op : Op, List.Forall₂
      (fun oa oa1 : Application => oa1 = { oa with status := oa1.status })
      db.applications ((step db op).applications.take db.applications.length)) ∧
    (∀ now ef uf a e, (assignEmployee db now ef uf a e).1.applications = db.applications) ∧
    (∀ now af tf a s,
      (updateStatus db now af tf a s).1.applications.length = db.applications.length) ∧
    (∀ t1 t2 now taskNow af tf user formData gp ip,
      ((onboardingRoute db t1 t2 now taskNow af tf user formData gp ip).2.status = 201 →
        ∃ row, (onboardingRoute db t1 t2 now taskNow af tf user formData gp ip).1.applications =
          db.applications ++ [row]) ∧
      ((onboardingRoute db t1 t2 now taskNow af tf user formData gp ip).2.status ≠ 201 →
        (onboardingRoute db t1 t2 now taskNow af tf user formData gp ip).1.applications =
          db.applications)) := by
  refine ⟨?_, ?_, ?_, ?_⟩
  · intro op
    obtain ⟨g, extra, hshape, _, _, hg⟩ := step_applications_shape db op
    rw [hshape]
    apply forall₂_take_map_append
    intro oa
    exact (hg oa).1
  · intro now ef uf a e
    exact (assignEmployee_effect db now ef uf a e).1
  · intro now af tf a s
    rcases updateStatus_effect db now af tf a s with ⟨ha, _⟩ | ⟨a1, s1, _, _, _, ha, _⟩
    · rw [ha]
    · rw [ha, List.length_map]
  · intro t1 t2 now taskNow af tf user formData gp ip
    rw [onboardingRoute_eq]
    rcases submitApplication_effect { db with files := (uploadFields db.files t1 t2 gp ip).1 }
      now taskNow af tf user formData
      (uploadFields db.files t1 t2 gp ip).2.1 (uploadFields db.files t1 t2 gp ip).2.2 with
      ⟨ha, _, hne⟩ | ⟨row, _, _, ha, hresp, _⟩
    · exact ⟨fun h => absurd h hne, fun _ => ha⟩
    · refine ⟨fun _ => ⟨row, ha⟩, fun h => ?_⟩
      rw [hresp] at h
      exact absurd rfl h

end InvestManager

namespace InvestManager

/-! ## One task per application -/

theorem map_application_id_shape (tasks : List Task) (g : Task → Task)
    (hg : ∀ t, (g t).application_id = t.application_id) :
    (tasks.map g).map (fun t => t.application_id) = tasks.map (fun t => t.application_id) := by
  rw [List.map_map]
  apply List.map_congr_left
  intro t _
  exact hg t

theorem nodupTasks_step (db : Db) (op : Op) (href : TasksReferToApplications db)
    (h : (db.tasks.map (fun t => t.application_id)).Nodup) :
    ((step db op).tasks.map (fun t => t.application_id)).Nodup := by
  obtain ⟨g, extra, hshape, hlen, hextra, hg⟩ := step_tasks_shape db op
  rw [hshape, List.map_append, map_application_id_shape _ g (fun t => (hg t).2.1)]
  match extra, hlen, hextra with
  | [], _, _ => simpa using h
  | [u], _, hextra =>
    have hu := (hextra u (List.mem_singleton.mpr rfl)).2.2
    rw [List.map_singleton, List.nodup_append]
    refine ⟨h, List.nodup_singleton _, ?_⟩
    intro x hx hx2
    rw [List.mem_singleton] at hx2
    obtain ⟨t, ht, rfl⟩ := List.mem_map.mp hx
    obtain ⟨oa, hoa, hid⟩ := href t ht
    have := nextId_fresh db oa hoa
    apply this
    rw [hid, hx2, hu]
  | _ :: _ :: _, hlen, _ => simp at hlen

theorem nodupTasks_run (ops : List Op) (db : Db) (href : TasksReferToApplications db)
    (h : (db.tasks.map (fun t => t.application_id)).Nodup) :
    ((run db ops).tasks.map (fun t => t.application_id)).Nodup := by
  induction ops generalizing db with
  | nil => exact h
  | cons op rest ih =>
    exact ih (step db op) (tasksRefer_step db op href) (nodupTasks_step db op href h)

theorem taskIds_eq_step (db : Db) (op : Op) (hop : Op.taskInsertFails op = false)
    (h : db.tasks.map (fun t => t.application_id) = db.applications.map (fun a => a.id)) :
    (step db op).tasks.map (fun t => t.application_id) =
      (step db op).applications.map (fun a => a.id) := by
  cases op with
  | submit t1 t2 now taskNow af tf user formData gp ip =>
    have htf : tf = false := hop
    subst htf
    show (onboardingRoute db t1 t2 now taskNow af false user formData gp ip).1.tasks.map
        (fun t => t.application_id) =
      (onboardingRoute db t1 t2 now taskNow af false user formData gp ip).1.applications.map
        (fun a => a.id)
    rw [onboardingRoute_eq]
    rcases submitApplication_effect { db with files := (uploadFields db.files t1 t2 gp ip).1 }
      now taskNow af false user formData
      (uploadFields db.files t1 t2 gp ip).2.1 (uploadFields db.files t1 t2 gp ip).2.2 with
      ⟨ha, ht, _⟩ | ⟨row, _, _, ha, _, hcase⟩
    · rw [ha, ht]
      exact h
    · rcases hcase with ⟨hc, _⟩ | ⟨_, u, hu, _, _, ht⟩
      · cases hc
      · rw [ha, ht, List.map_append, List.map_append, List.map_singleton, List.map_singleton, hu]
        exact congrArg (fun l => l ++ [row.id]) h
  | assign now ef uf a e =>
    show (assignEmployee db now ef uf a e).1.tasks.map (fun t => t.application_id) =
      (assignEmployee db now ef uf a e).1.applications.map (fun a => a.id)
    obtain ⟨ha, ht⟩ := assignEmployee_effect db now ef uf a e
    rw [ha]
    rcases ht with ht | ⟨a1, e1, _, _, ht⟩
    · rw [ht]
      exact h
    · rw [ht, map_application_id_shape _ _ (assignTask_application_id e1 a1 now)]
      exact h
  | status now af tf a s =>
    show (updateStatus db now af tf a s).1.tasks.map (fun t => t.application_id) =
      (updateStatus db now af tf a s).1.applications.map (fun a => a.id)
    rcases updateStatus_effect db now af tf a s with ⟨ha, ht⟩ | ⟨a1, s1, _, _, _, ha, ht⟩
    · rw [ha, ht]
      exact h
    · have happs : (db.applications.map (setApplicationStatus s1 a1)).map (fun a => a.id) =
          db.applications.map (fun a => a.id) := by
        rw [List.map_map]
        apply List.map_congr_left
        intro oa _
        exact setApplicationStatus_id s1 a1 oa
      rw [ha, happs]
      rcases ht with ht | ht
      · rw [ht]
        exact h
      · rw [ht, map_application_id_shape _ _
          (setTaskStatus_application_id (taskStatusFor s1) a1 now)]
        exact h

theorem taskIds_eq_run (ops : List Op) (db : Db)
    (hops : ∀ op ∈ ops, Op.taskInsertFails op = false)
    (h : db.tasks.map (fun t => t.application_id) = db.applications.map (fun a => a.id)) :
    (run db ops).tasks.map (fun t => t.application_id) =
      (run db ops).applications.map (fun a => a.id) := by
  induction ops generalizing db with
  | nil => exact h
  | cons op rest ih =>
    exact ih (step db op) (fun o ho => hops o (List.mem_cons_of_mem _ ho))
      (taskIds_eq_step db op (hops op (List.mem_cons_self _ _)) h)

theorem filter_length_eq_count (tasks : List Task) (x : Int) :
    (tasks.filter (fun t => decide (t.application_id = x))).length =
      (tasks.map (fun t => t.application_id)).count x := by
  induction tasks with
  | nil => rfl
  | cons t ts ih =>
    rw [List.filter_cons, List.map_cons, List.count_cons]
    by_cases h : t.application_id = x
    · simp [h, ih]
    · simp [h, ih]

/-- C16: in every state reached from the empty database by requests to the
engine, no two task rows have the same application id, so every application
has at most one task row; and when no submission in the run had a failing
task insert, every application row has exactly one task row. -/
theorem reachable_one_task_per_application (ops : List Op) :
    ((run emptyDb ops).tasks.map (fun t => t.application_id)).Nodup ∧
    (∀ oa ∈ (run emptyDb ops).applications,
      ((run emptyDb ops).tasks.filter
        (fun t => decide (t.application_id = oa.id))).length ≤ 1) ∧
    ((∀ op ∈ ops, Op.taskInsertFails op = false) →
      ∀ oa ∈ (run emptyDb ops).applications,
        ((run emptyDb ops).tasks.filter
          (fun t => decide (t.application_id = oa.id))).length = 1) := by
  have hnd := nodupTasks_run ops emptyDb tasksRefer_emptyDb List.nodup_nil
  refine ⟨hnd, ?_, ?_⟩
  · intro oa _
    rw [filter_length_eq_count]
    exact List.nodup_iff_count_le_one.mp hnd oa.id
  · intro hops oa hoa
    have heq := taskIds_eq_run ops emptyDb hops rfl
    rw [filter_length_eq_count]
    apply List.count_eq_one_of_mem hnd
    rw [heq]
    exact List.mem_map.mpr ⟨oa, hoa, rfl⟩

theorem reachable_one_task_per_application_witness :
    (∀ op ∈ otherRequests, Op.taskInsertFails op = false) ∧
    (∃ oa ∈ (run emptyDb otherRequests).applications, oa.id = 1) ∧
    ((run emptyDb otherRequests).tasks.map (fun t => t.application_id)).Nodup ∧
    ∀ oa ∈ (run emptyDb otherRequests).applications,
      ((run emptyDb otherRequests).tasks.filter
        (fun t => decide (t.application_id = oa.id))).length = 1 :=
  ⟨by decide, by decide,
   (reachable_one_task_per_application otherRequests).1,
   (reachable_one_task_per_application otherRequests).2.2 (by decide)⟩

end InvestManager

namespace InvestManager

/-! ## Authentication and authorisation -/

theorem protectedRoute_of_user (verify : String → Option TokenUser) (authHeader : Option String)
    (db : Db) (handler : TokenUser → Db × Response) (token : String) (user : TokenUser)
    (htok : bearerToken authHeader = some token) (hver : verify token = some user) :
    protectedRoute verify authHeader db handler = handler user := by
  unfold protectedRoute authenticateJWT
  rw [htok]
  simp only [hver]

theorem adminRoute_forbidden (verify : String → Option TokenUser) (authHeader : Option String)
    (db : Db) (handler : TokenUser → Db × Response) (token : String) (user : TokenUser)
    (htok : bearerToken authHeader = some token) (hver : verify token = some user)
    (hrole : user.role ≠ "admin") :
    adminRoute verify authHeader db handler = (db, ⟨403, Body.none⟩) := by
  unfold adminRoute
  rw [protectedRoute_of_user verify authHeader db _ token user htok hver]
  have : isAdmin user = false := by
    unfold isAdmin
    simpa using hrole
  simp only [this, Bool.false_eq_true, if_false]

/-- C18: for a request whose token verifies to a payload with a role other
than `admin`, each of the five admin endpoints (pending list, application
detail, employees, assign, status) answers 403 and returns the database
unchanged, whatever its other inputs. -/
theorem admin_endpoints_forbidden (verify : String → Option TokenUser)
    (authHeader : Option String) (db : Db) (token : String) (user : TokenUser)
    (htok : bearerToken authHeader = some token) (hver : verify token = some user)
    (hrole : user.role ≠ "admin") :
    (∀ queryFails, pendingEndpoint verify authHeader db queryFails = (db, ⟨403, Body.none⟩)) ∧
    (∀ queryFails applicationId,
      detailEndpoint verify authHeader db queryFails applicationId = (db, ⟨403, Body.none⟩)) ∧
    (∀ queryFails, employeesEndpoint verify authHeader db queryFails = (db, ⟨403, Body.none⟩)) ∧
    (∀ now ef uf applicationId assignedToEmployeeId,
      assignEndpoint verify authHeader db now ef uf applicationId assignedToEmployeeId =
        (db, ⟨403, Body.none⟩)) ∧
    (∀ now af tf applicationId newStatus,
      statusEndpoint verify authHeader db now af tf applicationId newStatus =
        (db, ⟨403, Body.none⟩)) :=
  ⟨fun _ => adminRoute_forbidden verify authHeader db _ token user htok hver hrole,
   fun _ _ => adminRoute_forbidden verify authHeader db _ token user htok hver hrole,
   fun _ => adminRoute_forbidden verify authHeader db _ token user htok hver hrole,
   fun _ _ _ _ _ => adminRoute_forbidden verify authHeader db _ token user htok hver hrole,
   fun _ _ _ _ _ => adminRoute_forbidden verify authHeader db _ token user htok hver hrole⟩

theorem admin_endpoints_forbidden_witness :
    bearerToken (some "Bearer tok-alice") = some "tok-alice" ∧
    sampleVerify "tok-alice" = some sampleUser ∧
    sampleUser.role ≠ "admin" ∧
    assignEndpoint sampleVerify (some "Bearer tok-alice") dbAfterSubmit 80 false false
      (some 1) (some 2) = (dbAfterSubmit, ⟨403, Body.none⟩) ∧
    statusEndpoint sampleVerify (some "Bearer tok-alice") dbAfterSubmit 80 false false
      (some 1) (some "approved") = (dbAfterSubmit, ⟨403, Body.none⟩) ∧
    (assignEndpoint sampleVerify (some "Bearer tok-root") dbAfterSubmit 80 false false
      (some 1) (some 2)).2.status = 200 :=
  ⟨by decide, by decide, by decide,
   (admin_endpoints_forbidden sampleVerify (some "Bearer tok-alice") dbAfterSubmit "tok-alice"
     sampleUser (by decide) (by decide) (by decide)).2.2.2.1 80 false false (some 1) (some 2),
   (admin_endpoints_forbidden sampleVerify (some "Bearer tok-alice") dbAfterSubmit "tok-alice"
     sampleUser (by decide) (by decide) (by decide)).2.2.2.2 80 false false (some 1)
     (some "approved"),
   by decide⟩

theorem splitSpace_ne_nil (cs : List Char) : splitSpace cs ≠ [] := by
  cases cs with
  | nil => simp [splitSpace]
  | cons c cs =>
    unfold splitSpace
    split_ifs
    · simp
    · split <;> simp

theorem splitSpace_second_none (cs : List Char) :
    (splitSpace cs)[1]? = Option.none ↔ ' ' ∉ cs := by
  induction cs with
  | nil => simp [splitSpace]
  | cons c cs ih =>
    unfold splitSpace
    by_cases hc : c = ' '
    · rw [if_pos hc]
      subst hc
      have hne := splitSpace_ne_nil cs
      cases hs : splitSpace cs with
      | nil => exact absurd hs hne
      | cons p ps => simp
    · rw [if_neg hc]
      have hmem : ' ' ∉ c :: cs ↔ ' ' ∉ cs := by
        simp [List.mem_cons, Ne.symm hc]
      rw [hmem, ← ih]
      cases hs : splitSpace cs with
      | nil => simp
      | cons p ps => simp

/-- The token expression is `undefined` exactly when the header is absent, or
is non-empty and has no space in it. -/
theorem bearerToken_none_iff (authHeader : Option String) :
    bearerToken authHeader = Option.none ↔
      (authHeader = Option.none ∨
        ∃ h, authHeader = some h ∧ h ≠ "" ∧ ' ' ∉ h.toList) := by
  cases authHeader with
  | none => simp [bearerToken]
  | some h =>
    unfold bearerToken
    simp only
    by_cases he : h = ""
    · rw [if_pos he]
      constructor
      · intro hc
        cases hc
      · rintro (hc | ⟨h1, hc, hne, _⟩)
        · cases hc
        · cases hc
          exact absurd he hne
    · rw [if_neg he, Option.map_eq_none', splitSpace_second_none]
      constructor
      · intro hns
        exact Or.inr ⟨h, rfl, he, hns⟩
      · rintro (hc | ⟨h1, hc, _, hns⟩)
        · cases hc
        · cases hc
          exact hns

/-- The three outcomes of the authentication middleware in terms of its token
expression: 401 when the expression is `undefined` (the header is absent, or
is non-empty with no second space-separated part), 403 when it is a string
whose verification fails, and otherwise the payload is passed on; in the first
two cases a route behind it returns that answer and the database as it was,
whatever its handler is. -/
theorem authenticateJWT_outcomes (verify : String → Option TokenUser)
    (authHeader : Option String) :
    (bearerToken authHeader = Option.none ↔
      (authHeader = Option.none ∨
        ∃ h, authHeader = some h ∧ h ≠ "" ∧ ' ' ∉ h.toList)) ∧
    (bearerToken authHeader = Option.none →
      authenticateJWT verify authHeader = AuthResult.rejected ⟨401, Body.none⟩ ∧
      ∀ db handler, protectedRoute verify authHeader db handler = (db, ⟨401, Body.none⟩)) ∧
    (∀ token, bearerToken authHeader = some token → verify token = Option.none →
      authenticateJWT verify authHeader = AuthResult.rejected ⟨403, Body.none⟩ ∧
      ∀ db handler, protectedRoute verify authHeader db handler = (db, ⟨403, Body.none⟩)) ∧
    (∀ token user, bearerToken authHeader = some token → verify token = some user →
      authenticateJWT verify authHeader = AuthResult.user user ∧
      ∀ db handler, protectedRoute verify authHeader db handler = handler user) := by
  refine ⟨bearerToken_none_iff authHeader, ?_, ?_, ?_⟩
  · intro h
    have h1 : authenticateJWT verify authHeader = AuthResult.rejected ⟨401, Body.none⟩ := by
      unfold authenticateJWT
      rw [h]
    refine ⟨h1, fun db handler => ?_⟩
    unfold protectedRoute
    rw [h1]
  · intro token h hv
    have h1 : authenticateJWT verify authHeader = AuthResult.rejected ⟨403, Body.none⟩ := by
      unfold authenticateJWT
      rw [h]
      simp only [hv]
    refine ⟨h1, fun db handler => ?_⟩
    unfold protectedRoute
    rw [h1]
  · intro token user h hv
    have h1 : authenticateJWT verify authHeader = AuthResult.user user := by
      unfold authenticateJWT
      rw [h]
      simp only [hv]
    refine ⟨h1, fun db handler => ?_⟩
    unfold protectedRoute
    rw [h1]

theorem authenticateJWT_outcomes_witness :
    bearerToken (some "Bearer") = Option.none ∧
    bearerToken (some "Bearer forged") = some "forged" ∧
    sampleVerify "forged" = Option.none ∧
    onboardingEndpoint sampleVerify (some "Bearer") emptyDb 1000 1001 50 51 false false
      sampleForm (some sampleGovtPart) (some sampleIncomePart) = (emptyDb, ⟨401, Body.none⟩) ∧
    onboardingEndpoint sampleVerify (some "Bearer forged") emptyDb 1000 1001 50 51 false false
      sampleForm (some sampleGovtPart) (some sampleIncomePart) = (emptyDb, ⟨403, Body.none⟩) ∧
    authenticateJWT sampleVerify (some "Bearer tok-alice") = AuthResult.user sampleUser :=
  ⟨by decide, by decide, by decide,
   ((authenticateJWT_outcomes sampleVerify (some "Bearer")).2.1 (by decide)).2 emptyDb _,
   ((authenticateJWT_outcomes sampleVerify (some "Bearer forged")).2.2.1 "forged" (by decide)
     (by decide)).2 emptyDb _,
   ((authenticateJWT_outcomes sampleVerify (some "Bearer tok-alice")).2.2.2 "tok-alice"
     sampleUser (by decide) (by decide)).1⟩

end InvestManager

namespace InvestManager

/-! ## Onboarding status of a user -/

theorem statusesValid_step (db : Db) (op : Op)
    (h : ∀ oa ∈ db.applications, oa.status ∈ validStatuses) :
    ∀ oa ∈ (step db op).applications, oa.status ∈ validStatuses := by
  obtain ⟨g, extra, hshape, _, hextra, hg⟩ := step_applications_shape db op
  intro oa hoa
  rw [hshape] at hoa
  rcases List.mem_append.mp hoa with hold | hnew
  · obtain ⟨ob, hob, rfl⟩ := List.mem_map.mp hold
    rcases (hg ob).2 with hsame | hval
    · rw [hsame]
      exact h ob hob
    · exact hval
  · rw [(hextra oa hnew).1]
    decide

theorem statusesValid_run (ops : List Op) (db : Db)
    (h : ∀ oa ∈ db.applications, oa.status ∈ validStatuses) :
    ∀ oa ∈ (run db ops).applications, oa.status ∈ validStatuses := by
  induction ops generalizing db with
  | nil => exact h
  | cons op rest ih => exact ih (step db op) (statusesValid_step db op h)

theorem latestApplication_none (db : Db) (u : Int) :
    latestApplication db u = Option.none ↔ ∀ oa ∈ db.applications, oa.user_id ≠ u := by
  unfold latestApplication
  rw [List.head?_eq_none_iff]
  constructor
  · intro h oa hoa hid
    have hmem : oa ∈ (db.applications.filter (fun oa => decide (oa.user_id = u))).insertionSort
        (fun a b => b.submission_date ≤ a.submission_date) :=
      (List.perm_insertionSort _ _).mem_iff.mpr (List.mem_filter.mpr ⟨hoa, by simp [hid]⟩)
    rw [h] at hmem
    cases hmem
  · intro h
    have hnil : db.applications.filter (fun oa => decide (oa.user_id = u)) = [] := by
      rw [List.filter_eq_nil_iff]
      intro oa hoa
      simpa using h oa hoa
    rw [hnil]
    rfl

theorem latestApplication_some (db : Db) (u : Int) (oa : Application)
    (h : latestApplication db u = some oa) :
    oa ∈ db.applications ∧ oa.user_id = u ∧
      ∀ ob ∈ db.applications, ob.user_id = u → ob.submission_date ≤ oa.submission_date := by
  unfold latestApplication at h
  haveI : IsTotal Application (fun a b => b.submission_date ≤ a.submission_date) :=
    ⟨fun a b => Nat.le_total b.submission_date a.submission_date⟩
  haveI : IsTrans Application (fun a b => b.submission_date ≤ a.submission_date) :=
    ⟨fun _ _ _ h1 h2 => Nat.le_trans h2 h1⟩
  have hsorted := List.sorted_insertionSort (fun a b : Application =>
    b.submission_date ≤ a.submission_date)
    (db.applications.filter (fun oa => decide (oa.user_id = u)))
  have hperm := List.perm_insertionSort (fun a b : Application =>
    b.submission_date ≤ a.submission_date)
    (db.applications.filter (fun oa => decide (oa.user_id = u)))
  cases hl : (db.applications.filter (fun oa => decide (oa.user_id = u))).insertionSort
      (fun a b => b.submission_date ≤ a.submission_date) with
  | nil =>
    rw [hl] at h
    cases h
  | cons x rest =>
    rw [hl] at h hsorted hperm
    have hx : x = oa := by
      simpa using h
    subst hx
    have hmem : x ∈ db.applications.filter (fun oa => decide (oa.user_id = u)) :=
      hperm.mem_iff.mp (List.mem_cons_self _ _)
    have hm := List.mem_filter.mp hmem
    refine ⟨hm.1, by simpa using hm.2, ?_⟩
    intro ob hob hid
    have hob2 : ob ∈ x :: rest :=
      hperm.mem_iff.mpr (List.mem_filter.mpr ⟨hob, by simp [hid]⟩)
    rcases List.mem_cons.mp hob2 with heq | hrest
    · rw [heq]
    · exact List.rel_of_sorted_cons hsorted ob hrest

end InvestManager

namespace InvestManager

theorem onboardingStatus_allowed (db : Db) (user : TokenUser) (requested : Option Int)
    (h : ¬ (requested ≠ some user.id ∧ user.role ≠ "admin")) :
    onboardingStatus db false user requested =
      match requested.bind (latestApplication db) with
      | some row => ⟨200, Body.onboardingStatus row.status⟩
      | Option.none => ⟨200, Body.onboardingStatus "not_started"⟩ := by
  unfold onboardingStatus
  rw [if_neg h]
  simp only [Bool.false_eq_true, if_false]

/-- The access rule and the answers of the onboarding-status handler: 403
exactly when the requested user id differs from the caller's and the caller's
role is not `admin`; otherwise, its query reporting no error, 200 with the
status of an application of the requested user whose submission date is
maximal among that user's applications, and, in every state reached from the
empty database, `not_started` exactly when the requested user has no
application. -/
theorem onboardingStatus_access (ops : List Op) (queryFails : Bool) (user : TokenUser)
    (requested : Option Int) :
    ((onboardingStatus (run emptyDb ops) queryFails user requested).status = 403 ↔
      (requested ≠ some user.id ∧ user.role ≠ "admin")) ∧
    (¬ (requested ≠ some user.id ∧ user.role ≠ "admin") →
      ((∃ oa ∈ (run emptyDb ops).applications, some oa.user_id = requested) →
        ∃ oa ∈ (run emptyDb ops).applications, some oa.user_id = requested ∧
          (∀ ob ∈ (run emptyDb ops).applications, some ob.user_id = requested →
            ob.submission_date ≤ oa.submission_date) ∧
          onboardingStatus (run emptyDb ops) false user requested =
            ⟨200, Body.onboardingStatus oa.status⟩) ∧
      (onboardingStatus (run emptyDb ops) false user requested =
          ⟨200, Body.onboardingStatus "not_started"⟩ ↔
        ¬ ∃ oa ∈ (run emptyDb ops).applications, some oa.user_id = requested)) := by
  have hvalid := statusesValid_run ops emptyDb (fun oa hoa => by cases hoa)
  generalize run emptyDb ops = db at hvalid ⊢
  constructor
  · unfold onboardingStatus
    by_cases hc : requested ≠ some user.id ∧ user.role ≠ "admin"
    · rw [if_pos hc]
      exact ⟨fun _ => hc, fun _ => rfl⟩
    · rw [if_neg hc]
      refine ⟨fun h => ?_, fun h => absurd h hc⟩
      exfalso
      cases queryFails with
      | true => exact (by decide : (500 : Nat) ≠ 403) h
      | false =>
        simp only [Bool.false_eq_true, if_false] at h
        cases hb : requested.bind (latestApplication db) with
        | none =>
          rw [hb] at h
          exact (by decide : (200 : Nat) ≠ 403) h
        | some row =>
          rw [hb] at h
          exact (by decide : (200 : Nat) ≠ 403) h
  · intro hc
    rw [onboardingStatus_allowed db user requested hc]
    cases requested with
    | none =>
      refine ⟨?_, ?_⟩
      · rintro ⟨oa, _, h⟩
        cases h
      · refine ⟨fun _ => ?_, fun _ => rfl⟩
        rintro ⟨oa, _, h⟩
        cases h
    | some u =>
      have hbind : (some u : Option Int).bind (latestApplication db) = latestApplication db u :=
        rfl
      rw [hbind]
      cases hl : latestApplication db u with
      | none =>
        have hno := (latestApplication_none db u).mp hl
        have hno2 : ¬ ∃ oa ∈ db.applications, some oa.user_id = some u := by
          rintro ⟨oa, hoa, h⟩
          exact hno oa hoa (Option.some.inj h)
        exact ⟨fun hex => absurd hex hno2, fun _ => hno2, fun _ => rfl⟩
      | some row =>
        obtain ⟨hmem, hid, hmax⟩ := latestApplication_some db u row hl
        refine ⟨fun _ => ⟨row, hmem, by rw [hid], ?_, rfl⟩, ?_, ?_⟩
        · intro ob hob hobid
          exact hmax ob hob (Option.some.inj hobid)
        · intro h
          exfalso
          have hst : row.status = "not_started" := by
            injection h with _ hb
            injection hb
          have := hvalid row hmem
          rw [hst] at this
          revert this
          decide
        · intro hno
          exact absurd ⟨row, hmem, by rw [hid]⟩ hno

theorem onboardingStatus_access_witness :
    ¬ ((some 7 : Option Int) ≠ some sampleUser.id ∧ sampleUser.role ≠ "admin") ∧
    (∃ oa ∈ (run emptyDb otherRequests).applications, some oa.user_id = (some 7 : Option Int)) ∧
    (onboardingStatus (run emptyDb otherRequests) false sampleUser (some 8)).status = 403 ∧
    (∃ oa ∈ (run emptyDb otherRequests).applications, some oa.user_id = (some 7 : Option Int) ∧
      (∀ ob ∈ (run emptyDb otherRequests).applications, some ob.user_id = (some 7 : Option Int) →
        ob.submission_date ≤ oa.submission_date) ∧
      onboardingStatus (run emptyDb otherRequests) false sampleUser (some 7) =
        ⟨200, Body.onboardingStatus oa.status⟩) ∧
    onboardingStatus (run emptyDb otherRequests) false sampleAdmin (some 8) =
      ⟨200, Body.onboardingStatus "not_started"⟩ :=
  ⟨by decide, by decide,
   (onboardingStatus_access otherRequests false sampleUser (some 8)).1.mpr (by decide),
   ((onboardingStatus_access otherRequests false sampleUser (some 7)).2 (by decide)).1
     (by decide),
   ((onboardingStatus_access otherRequests false sampleAdmin (some 8)).2 (by decide)).2.mpr
     (by decide)⟩

end InvestManager

namespace InvestManager

/-! ## The stored form of `investmentsOwned` -/

theorem skipJsonSpace_quote (cs : List Char) : skipJsonSpace ('"' :: cs) = '"' :: cs := by
  rfl

theorem parseJsonValue_quote (fuel : Nat) (cs : List Char) :
    parseJsonValue (fuel + 1) ('"' :: cs) =
      match parseJsonStringBody (cs.length + 1) [] cs with
      | some (s, rest) => some (Json.str s, rest)
      | Option.none => Option.none := by
  rw [parseJsonValue]
  simp

/-- The text `JSON.stringify` writes for a string never decodes to an array:
`parseJsonArray` gives the empty array on it. -/
theorem parseJsonArray_quoteJsonString (s : String) :
    parseJsonArray (quoteJsonString s) = [] := by
  unfold parseJsonArray jsonParse
  have htl : (quoteJsonString s).toList = '"' :: (s.toList.flatMap quoteJsonChar ++ ['"']) := rfl
  rw [htl, skipJsonSpace_quote]
  have hfuel : 2 * (quoteJsonString s).length + 2 = (2 * (quoteJsonString s).length + 1) + 1 :=
    rfl
  rw [hfuel, parseJsonValue_quote]
  cases parseJsonStringBody ((s.toList.flatMap quoteJsonChar ++ ['"']).length + 1) []
      (s.toList.flatMap quoteJsonChar ++ ['"']) with
  | none => rfl
  | some r =>
    obtain ⟨str, rest⟩ := r
    simp only
    split_ifs <;> rfl

theorem stringifyStringArray_ne_empty (xs : List String) : stringifyStringArray xs ≠ "" := by
  intro h
  have hdata := congrArg String.data h
  unfold stringifyStringArray at hdata
  rw [String.data_append, String.data_append] at hdata
  cases hdata

end InvestManager

namespace InvestManager

/-- Whatever list of strings the onboarding form sends as `investmentsOwned`,
the value the submission stores is the JSON text of a string, and
`parseJsonArray` decodes it to the empty array. -/
theorem stored_investmentsOwned_decodes_empty (xs : List String) :
    parseJsonArray (stringifyOrEmptyArray (clientInvestmentsOwned xs)) = [] := by
  unfold stringifyOrEmptyArray clientInvestmentsOwned
  have ht : truthy (some (stringifyStringArray xs)) = true := by
    unfold truthy
    simpa using stringifyStringArray_ne_empty xs
  rw [if_pos ht]
  exact parseJsonArray_quoteJsonString _

/-- C13 at its failing input: the form sends `investmentsOwned` for the list
`stocks`, `bonds` as the JSON text of that array; the submission stores the
JSON text of that text (a quoted string), and `parseJsonArray` on the stored
value gives the empty array, not the two strings, although the text the form
sent decodes to them. -/
theorem investmentsOwned_round_trip_lost :
    sampleForm.investmentsOwned = clientInvestmentsOwned ["stocks", "bonds"] ∧
    dbAfterSubmit.applications.map (fun oa => oa.investments_owned) =
      ["\"[\\\"stocks\\\",\\\"bonds\\\"]\""] ∧
    parseJsonArray "\"[\\\"stocks\\\",\\\"bonds\\\"]\"" = [] ∧
    parseJsonArray "[\"stocks\",\"bonds\"]" = [Json.str "stocks", Json.str "bonds"] ∧
    ([] : List Json) ≠ ["stocks", "bonds"].map Json.str :=
  ⟨by decide, by decide, by rfl, by rfl, fun h => by cases h⟩

end InvestManager

namespace InvestManager

/-! ## Open tasks are unassigned -/

theorem openUnassigned_step (db : Db) (op : Op)
    (h : ∀ t ∈ db.tasks, t.status = "open" → t.assigned_to_employee_id = Option.none) :
    ∀ t ∈ (step db op).tasks, t.status = "open" → t.assigned_to_employee_id = Option.none := by
  obtain ⟨g, extra, hshape, _, hextra, hg⟩ := step_tasks_shape db op
  intro t ht hopen
  rw [hshape] at ht
  rcases List.mem_append.mp ht with hold | hnew
  · obtain ⟨u, hu, rfl⟩ := List.mem_map.mp hold
    rcases (hg u).2.2 with hsame | hprog | hdone
    · rw [hsame] at hopen ⊢
      exact h u hu hopen
    · rw [hprog] at hopen
      exact absurd hopen (by decide)
    · rw [hdone] at hopen
      exact absurd hopen (by decide)
  · exact (hextra t hnew).2.1

theorem openUnassigned_run (ops : List Op) (db : Db)
    (h : ∀ t ∈ db.tasks, t.status = "open" → t.assigned_to_employee_id = Option.none) :
    ∀ t ∈ (run db ops).tasks, t.status = "open" → t.assigned_to_employee_id = Option.none := by
  induction ops generalizing db with
  | nil => exact h
  | cons op rest ih => exact ih (step db op) (openUnassigned_step db op h)

theorem mem_pendingQuery (db : Db) (r : PendingRow) (hr : r ∈ pendingQuery db) :
    ∃ oa ∈ db.applications, ∃ t ∈ db.tasks,
      oa.id = t.application_id ∧ oa.status = "pending" ∧ t.status = "open" ∧
        r = pendingRow oa t := by
  unfold pendingQuery at hr
  rw [(List.perm_insertionSort _ _).mem_iff] at hr
  unfold pendingJoin at hr
  rw [List.mem_flatMap] at hr
  obtain ⟨oa, hoa, hr2⟩ := hr
  obtain ⟨t, ht, rfl⟩ := List.mem_map.mp hr2
  have hf := List.mem_filter.mp ht
  have hc := hf.2
  simp only [Bool.and_eq_true, decide_eq_true_eq, beq_iff_eq] at hc
  exact ⟨oa, hoa, t, hf.1, hc.1, hc.2.1, hc.2.2, rfl⟩

/-- C25: in every state reached from the empty database by requests to the
engine, every task row with status `open` has a NULL assignee, and so every
row of the pending list has a NULL assignee. -/
theorem reachable_open_unassigned (ops : List Op) :
    (∀ t ∈ (run emptyDb ops).tasks, t.status = "open" →
      t.assigned_to_employee_id = Option.none) ∧
    (∀ rows, listPending (run emptyDb ops) false = ⟨200, Body.pending rows⟩ →
      ∀ r ∈ rows, r.assigned_to_employee_id = Option.none) := by
  have hinv := openUnassigned_run ops emptyDb (fun t ht => by cases ht)
  refine ⟨hinv, ?_⟩
  intro rows hrows r hr
  have hq : rows = pendingQuery (run emptyDb ops) := by
    unfold listPending at hrows
    simp only [Bool.false_eq_true, if_false] at hrows
    injection hrows with _ hb
    injection hb with hb2
    exact hb2.symm
  rw [hq] at hr
  obtain ⟨oa, _, t, ht, _, _, hopen, rfl⟩ := mem_pendingQuery _ r hr
  exact hinv t ht hopen

theorem reachable_open_unassigned_witness :
    listPending (run emptyDb otherRequests) false =
      ⟨200, Body.pending (pendingQuery (run emptyDb otherRequests))⟩ ∧
    pendingQuery (run emptyDb otherRequests) ≠ [] ∧
    ∀ r ∈ pendingQuery (run emptyDb otherRequests), r.assigned_to_employee_id = Option.none :=
  ⟨rfl, by decide,
   (reachable_open_unassigned otherRequests).2 (pendingQuery (run emptyDb otherRequests)) rfl⟩

end InvestManager

namespace InvestManager

/-! ## Completed tasks belong to finalised applications -/

theorem updateStatus_effect_ok (db : Db) (now : Nat)
    (applicationId : Option Int) (newStatus : Option String) :
    ((updateStatus db now false false applicationId newStatus).1.applications = db.applications ∧
     (updateStatus db now false false applicationId newStatus).1.tasks = db.tasks) ∨
    ∃ a s, applicationId = some a ∧ s ∈ validStatuses ∧
      (updateStatus db now false false applicationId newStatus).1.applications =
        db.applications.map (setApplicationStatus s a) ∧
      (updateStatus db now false false applicationId newStatus).1.tasks =
        db.tasks.map (setTaskStatus (taskStatusFor s) a now) := by
  cases applicationId with
  | none =>
    rw [updateStatus_missing db now false false Option.none newStatus (Or.inl rfl)]
    exact Or.inl ⟨rfl, rfl⟩
  | some a =>
    cases newStatus with
    | none =>
      rw [updateStatus_missing db now false false (some a) Option.none (Or.inr rfl)]
      exact Or.inl ⟨rfl, rfl⟩
    | some s =>
      by_cases hs : s ∈ validStatuses
      · by_cases hex : ∃ oa ∈ db.applications, oa.id = a
        · rw [updateStatus_valid db now false a s hs hex]
          exact Or.inr ⟨a, s, rfl, hs, rfl, rfl⟩
        · rw [updateStatus_not_found db now false a s hs hex]
          exact Or.inl ⟨rfl, rfl⟩
      · rw [(updateStatus_invalid db now false false a s hs).2]
        exact Or.inl ⟨rfl, rfl⟩

theorem taskStatusFor_completed (s : String) (h : taskStatusFor s = "completed") :
    s = "approved" ∨ s = "rejected" := by
  unfold taskStatusFor at h
  split_ifs at h with hc
  · exact hc
  · exact absurd h (by decide)

theorem completedFinal_step (db : Db) (op : Op) (hop : Op.writeFails op = false)
    (href : TasksReferToApplications db)
    (h : ∀ t ∈ db.tasks, t.status = "completed" → ∀ oa ∈ db.applications,
      oa.id = t.application_id → (oa.status = "approved" ∨ oa.status = "rejected")) :
    ∀ t ∈ (step db op).tasks, t.status = "completed" → ∀ oa ∈ (step db op).applications,
      oa.id = t.application_id → (oa.status = "approved" ∨ oa.status = "rejected") := by
  cases op with
  | submit t1 t2 now taskNow af tf user formData gp ip =>
    show ∀ t ∈ (onboardingRoute db t1 t2 now taskNow af tf user formData gp ip).1.tasks,
      t.status = "completed" →
      ∀ oa ∈ (onboardingRoute db t1 t2 now taskNow af tf user formData gp ip).1.applications,
        oa.id = t.application_id → (oa.status = "approved" ∨ oa.status = "rejected")
    rw [onboardingRoute_eq]
    rcases submitApplication_effect { db with files := (uploadFields db.files t1 t2 gp ip).1 }
      now taskNow af tf user formData
      (uploadFields db.files t1 t2 gp ip).2.1 (uploadFields db.files t1 t2 gp ip).2.2 with
      ⟨ha, ht, _⟩ | ⟨row, hrow, _, ha, _, hcase⟩
    · rw [ha, ht]
      exact h
    · intro t htm hdone oa hoa hid
      have hold : t ∈ db.tasks := by
        rcases hcase with ⟨_, ht⟩ | ⟨_, u, _, hopen, _, ht⟩
        · rw [ht] at htm
          exact htm
        · rw [ht] at htm
          rcases List.mem_append.mp htm with hm | hm
          · exact hm
          · rw [List.mem_singleton] at hm
            rw [hm, hopen] at hdone
            exact absurd hdone (by decide)
      rw [ha] at hoa
      rcases List.mem_append.mp hoa with hm | hm
      · exact h t hold hdone oa hm hid
      · exfalso
        rw [List.mem_singleton] at hm
        obtain ⟨ob, hob, hobid⟩ := href t hold
        have := nextId_fresh db ob hob
        apply this
        rw [hobid, ← hid, hm, hrow]
  | assign now ef uf a e =>
    show ∀ t ∈ (assignEmployee db now ef uf a e).1.tasks, t.status = "completed" →
      ∀ oa ∈ (assignEmployee db now ef uf a e).1.applications,
        oa.id = t.application_id → (oa.status = "approved" ∨ oa.status = "rejected")
    obtain ⟨ha, ht⟩ := assignEmployee_effect db now ef uf a e
    rw [ha]
    rcases ht with ht | ⟨a1, e1, _, _, ht⟩
    · rw [ht]
      exact h
    · rw [ht]
      intro t htm hdone oa hoa hid
      obtain ⟨u, hu, rfl⟩ := List.mem_map.mp htm
      have hsame : assignTask e1 a1 now u = u := by
        unfold assignTask at hdone ⊢
        split_ifs at hdone ⊢ with hc
        · exact ((by decide : ("in_progress" : String) ≠ "completed") hdone).elim
        · rfl
      rw [hsame] at hdone hid
      exact h u hu hdone oa hoa hid
  | status now af tf a s =>
    have haf : af = false := by
      cases af
      · rfl
      · simp [Op.writeFails] at hop
    have htf : tf = false := by
      cases tf
      · rfl
      · simp [Op.writeFails] at hop
    subst haf htf
    show ∀ t ∈ (updateStatus db now false false a s).1.tasks, t.status = "completed" →
      ∀ oa ∈ (updateStatus db now false false a s).1.applications,
        oa.id = t.application_id → (oa.status = "approved" ∨ oa.status = "rejected")
    rcases updateStatus_effect_ok db now a s with ⟨ha, ht⟩ | ⟨a1, s1, _, _, ha, ht⟩
    · rw [ha, ht]
      exact h
    · rw [ha, ht]
      intro t htm hdone oa hoa hid
      obtain ⟨u, hu, rfl⟩ := List.mem_map.mp htm
      obtain ⟨ob, hob, rfl⟩ := List.mem_map.mp hoa
      rw [setApplicationStatus_id, setTaskStatus_application_id] at hid
      by_cases hc : u.application_id = a1
      · have hst : (setTaskStatus (taskStatusFor s1) a1 now u).status = taskStatusFor s1 := by
          simp [setTaskStatus, hc]
        rw [hst] at hdone
        have hfin := taskStatusFor_completed s1 hdone
        have hobid : ob.id = a1 := hid.trans hc
        have : (setApplicationStatus s1 a1 ob).status = s1 := by
          simp [setApplicationStatus, hobid]
        rw [this]
        exact hfin
      · have hsame : setTaskStatus (taskStatusFor s1) a1 now u = u := by
          simp [setTaskStatus, hc]
        have hobne : ¬ ob.id = a1 := fun hx => hc (hid.symm.trans hx)
        have hsame2 : setApplicationStatus s1 a1 ob = ob := by
          simp [setApplicationStatus, hobne]
        rw [hsame] at hdone
        rw [hsame2]
        exact h u hu hdone ob hob hid

theorem completedFinal_run (ops : List Op) (db : Db)
    (hops : ∀ op ∈ ops, Op.writeFails op = false)
    (href : TasksReferToApplications db)
    (h : ∀ t ∈ db.tasks, t.status = "completed" → ∀ oa ∈ db.applications,
      oa.id = t.application_id → (oa.status = "approved" ∨ oa.status = "rejected")) :
    ∀ t ∈ (run db ops).tasks, t.status = "completed" → ∀ oa ∈ (run db ops).applications,
      oa.id = t.application_id → (oa.status = "approved" ∨ oa.status = "rejected") := by
  induction ops generalizing db with
  | nil => exact h
  | cons op rest ih =>
    exact ih (step db op) (fun o ho => hops o (List.mem_cons_of_mem _ ho))
      (tasksRefer_step db op href)
      (completedFinal_step db op (hops op (List.mem_cons_self _ _)) href h)

end InvestManager

namespace InvestManager

/-- C28: in every state reached from the empty database by requests none of
whose INSERT or UPDATE statements reported an error, every task row with
status `completed` refers to an application row, and every application row it
refers to has status `approved` or `rejected`. -/
theorem reachable_completed_task_finalised (ops : List Op)
    (hops : ∀ op ∈ ops, Op.writeFails op = false) (t : Task)
    (ht : t ∈ (run emptyDb ops).tasks) (hdone : t.status = "completed") :
    (∃ oa ∈ (run emptyDb ops).applications, oa.id = t.application_id) ∧
    ∀ oa ∈ (run emptyDb ops).applications, oa.id = t.application_id →
      (oa.status = "approved" ∨ oa.status = "rejected") :=
  ⟨tasksRefer_run ops emptyDb tasksRefer_emptyDb t ht,
   completedFinal_run ops emptyDb hops tasksRefer_emptyDb
     (fun u hu => by cases hu) t ht hdone⟩

theorem reachable_completed_task_finalised_witness :
    (∀ op ∈ approveRequests, Op.writeFails op = false) ∧
    ({ id := 1, application_id := 1, assigned_to_employee_id := Option.none,
       status := "completed", created_at := 51, updated_at := 60 } : Task) ∈
      (run emptyDb approveRequests).tasks ∧
    (∃ oa ∈ (run emptyDb approveRequests).applications, oa.id = 1) ∧
    ∀ oa ∈ (run emptyDb approveRequests).applications, oa.id = 1 →
      (oa.status = "approved" ∨ oa.status = "rejected") :=
  ⟨by decide, by decide,
   reachable_completed_task_finalised approveRequests (by decide)
     { id := 1, application_id := 1, assigned_to_employee_id := Option.none,
       status := "completed", created_at := 51, updated_at := 60 } (by decide) rfl⟩

/-! ## Frame of assignment and status update -/

theorem forall₂_map_frame {α : Type} (R : α → α → Prop) (l : List α) (g : α → α)
    (h : ∀ x, R x (g x)) : List.Forall₂ R l (l.map g) := by
  rw [List.forall₂_map_right_iff]
  exact List.forall₂_same.mpr (fun x _ => h x)

theorem forall₂_self_frame {α : Type} (R : α → α → Prop) (l : List α)
    (h : ∀ x, R x x) : List.Forall₂ R l l :=
  List.forall₂_same.mpr (fun x _ => h x)

/-- C29: an assignment or a status update addressed to application `a` leaves
every application row whose id is not `a` and every task row whose application
id is not `a` exactly as it was, row by row; an assignment leaves the whole
application table as it was. -/
theorem assign_status_frame (db : Db) (now : Nat) (a : Int) :
    (∀ ef uf e,
      (assignEmployee db now ef uf (some a) e).1.applications = db.applications ∧
      List.Forall₂ (fun t t1 : Task => t.application_id ≠ a → t1 = t)
        db.tasks (assignEmployee db now ef uf (some a) e).1.tasks) ∧
    (∀ af tf s,
      List.Forall₂ (fun oa oa1 : Application => oa.id ≠ a → oa1 = oa)
        db.applications (updateStatus db now af tf (some a) s).1.applications ∧
      List.Forall₂ (fun t t1 : Task => t.application_id ≠ a → t1 = t)
        db.tasks (updateStatus db now af tf (some a) s).1.tasks) := by
  constructor
  · intro ef uf e
    obtain ⟨ha, ht⟩ := assignEmployee_effect db now ef uf (some a) e
    refine ⟨ha, ?_⟩
    rcases ht with ht | ⟨a1, e1, hA, _, ht⟩
    · rw [ht]
      exact forall₂_self_frame _ _ (fun _ _ => rfl)
    · cases hA
      rw [ht]
      apply forall₂_map_frame
      intro t hne
      simp [assignTask, hne]
  · intro af tf s
    rcases updateStatus_effect db now af tf (some a) s with ⟨ha, ht⟩ | ⟨a1, s1, hA, _, _, ha, ht⟩
    · rw [ha, ht]
      exact ⟨forall₂_self_frame _ _ (fun _ _ => rfl), forall₂_self_frame _ _ (fun _ _ => rfl)⟩
    · cases hA
      constructor
      · rw [ha]
        apply forall₂_map_frame
        intro oa hne
        simp [setApplicationStatus, hne]
      · rcases ht with ht | ht
        · rw [ht]
          exact forall₂_self_frame _ _ (fun _ _ => rfl)
        · rw [ht]
          apply forall₂_map_frame
          intro t hne
          simp [setTaskStatus, hne]

end InvestManager

namespace InvestManager

/-! ## Decoding stored arrays -/

/-- C26: `parseJsonArray` returns a list for every input string: the parsed
items when the string is JSON text whose top-level value is an array, and the
empty array when the string is not JSON text or its value is not an array. -/
theorem parseJsonArray_total (jsonString : String) :
    (∀ items, jsonParse jsonString = some (Json.arr items) →
      parseJsonArray jsonString = items) ∧
    (jsonParse jsonString = Option.none → parseJsonArray jsonString = []) ∧
    (∀ v, jsonParse jsonString = some v → (∀ items, v ≠ Json.arr items) →
      parseJsonArray jsonString = []) := by
  unfold parseJsonArray
  refine ⟨?_, ?_, ?_⟩
  · intro items h
    rw [h]
  · intro h
    rw [h]
  · intro v h hv
    rw [h]
    cases v with
    | arr items => exact absurd rfl (hv items)
    | null => rfl
    | bool b => rfl
    | num l => rfl
    | str s => rfl
    | obj ms => rfl

theorem parseJsonArray_total_witness :
    jsonParse "[\"stocks\", 2, [true]]" =
      some (Json.arr [Json.str "stocks", Json.num "2", Json.arr [Json.bool true]]) ∧
    parseJsonArray "[\"stocks\", 2, [true]]" =
      [Json.str "stocks", Json.num "2", Json.arr [Json.bool true]] ∧
    jsonParse "[1,]" = Option.none ∧ parseJsonArray "[1,]" = [] ∧
    jsonParse "stocks" = Option.none ∧ parseJsonArray "stocks" = [] ∧
    parseJsonArray "\"stocks\"" = [] ∧
    parseJsonArray "42" = [] ∧
    parseJsonArray "\x7b\"a\": [1]\x7d" = [] ∧
    parseJsonArray "true" = [] ∧
    parseJsonArray "null" = [] :=
  ⟨rfl,
   (parseJsonArray_total "[\"stocks\", 2, [true]]").1 _ rfl,
   rfl,
   (parseJsonArray_total "[1,]").2.1 rfl,
   rfl,
   (parseJsonArray_total "stocks").2.1 rfl,
   (parseJsonArray_total "\"stocks\"").2.2 (Json.str "stocks") rfl (fun _ h => by cases h),
   (parseJsonArray_total "42").2.2 (Json.num "42") rfl (fun _ h => by cases h),
   (parseJsonArray_total "\x7b\"a\": [1]\x7d").2.2
     (Json.obj [("a", Json.arr [Json.num "1"])]) rfl (fun _ h => by cases h),
   (parseJsonArray_total "true").2.2 (Json.bool true) rfl (fun _ h => by cases h),
   (parseJsonArray_total "null").2.2 Json.null rfl (fun _ h => by cases h)⟩

/-! ## Stored file names -/

/-- C23 at its failing input: a request whose two files have the same
original name and are stored at the same clock reading gives both the same
stored name; the second file is written over the first and one path is left
in the uploads directory. -/
theorem uploads_with_same_name_collide :
    uploadFields [] 1000 1000 (some { originalname := "doc.pdf" })
        (some { originalname := "doc.pdf" }) =
      (["uploads/1000-doc.pdf"],
       some { originalname := "doc.pdf", path := "uploads/1000-doc.pdf" },
       some { originalname := "doc.pdf", path := "uploads/1000-doc.pdf" }) ∧
    storedFilename 1000 "doc.pdf" = "1000-doc.pdf" := by
  decide

end InvestManager

namespace InvestManager

/-! ## Login and signup -/

theorem truthy_some (s : String) (h : s ≠ "") : truthy (some s) = true := by
  unfold truthy
  simpa using h

theorem find_user_none (users : UserTable) (username : String)
    (h : ∀ u ∈ users.rows, u.username ≠ username) :
    users.rows.find? (fun u => decide (some u.username = some username)) = Option.none := by
  rw [List.find?_eq_none]
  intro u hu hc
  simp only [decide_eq_true_eq] at hc
  exact h u hu (Option.some.inj hc)

theorem find_user_some (users : UserTable) (username : String)
    (h : ∃ u ∈ users.rows, u.username = username) :
    ∃ row, users.rows.find? (fun u => decide (some u.username = some username)) = some row ∧
      row ∈ users.rows ∧ row.username = username := by
  cases hf : users.rows.find? (fun u => decide (some u.username = some username)) with
  | none =>
    exfalso
    obtain ⟨u, hu, hname⟩ := h
    have := List.find?_eq_none.mp hf u hu
    simp [hname] at this
  | some row =>
    have h1 := List.find?_some hf
    simp only [decide_eq_true_eq] at h1
    exact ⟨row, rfl, List.mem_of_find?_eq_some hf, Option.some.inj h1⟩

/-- C21: for a login with a non-empty username and password whose SELECT
reports no error, the answer when no user row has the username and the answer
when a row has it but the password does not match its hash are the same
response: status 401 with the error `Invalid username or password`. -/
theorem login_failures_indistinguishable (users₁ users₂ : UserTable)
    (sign : TokenUser → String) (compare : String → String → Option Bool)
    (username password : String) (hu : username ≠ "") (hp : password ≠ "")
    (hunknown : ∀ u ∈ users₁.rows, u.username ≠ username)
    (hknown : ∃ u ∈ users₂.rows, u.username = username)
    (hmismatch : ∀ u ∈ users₂.rows, u.username = username →
      compare password u.password = some false) :
    login users₁ sign compare false (some username) (some password) =
      ⟨401, Body.error "Invalid username or password"⟩ ∧
    login users₂ sign compare false (some username) (some password) =
      ⟨401, Body.error "Invalid username or password"⟩ ∧
    login users₁ sign compare false (some username) (some password) =
      login users₂ sign compare false (some username) (some password) := by
  have h1 : login users₁ sign compare false (some username) (some password) =
      ⟨401, Body.error "Invalid username or password"⟩ := by
    unfold login
    simp only [truthy_some username hu, truthy_some password hp, Bool.not_true, Bool.or_self,
      Bool.false_eq_true, if_false, find_user_none users₁ username hunknown]
  have h2 : login users₂ sign compare false (some username) (some password) =
      ⟨401, Body.error "Invalid username or password"⟩ := by
    obtain ⟨row, hrow, hmem, hname⟩ := find_user_some users₂ username hknown
    have hc := hmismatch row hmem hname
    unfold login
    simp only [truthy_some username hu, truthy_some password hp, Bool.not_true, Bool.or_self,
      Bool.false_eq_true, if_false, hrow, Option.getD_some, hc]
  exact ⟨h1, h2, h1.trans h2.symm⟩

end InvestManager

namespace InvestManager

theorem login_failures_indistinguishable_witness :
    ("alice" : String) ≠ "" ∧ ("wrong" : String) ≠ "" ∧
    (∀ u ∈ emptyUsers.rows, u.username ≠ "alice") ∧
    (∃ u ∈ usersAlice.rows, u.username = "alice") ∧
    (∀ u ∈ usersAlice.rows, u.username = "alice" →
      sampleCompare "wrong" u.password = some false) ∧
    (login usersAlice sampleSign sampleCompare false (some "alice") (some "pw1")).status = 200 ∧
    login emptyUsers sampleSign sampleCompare false (some "alice") (some "wrong") =
      ⟨401, Body.error "Invalid username or password"⟩ ∧
    login usersAlice sampleSign sampleCompare false (some "alice") (some "wrong") =
      ⟨401, Body.error "Invalid username or password"⟩ ∧
    login emptyUsers sampleSign sampleCompare false (some "alice") (some "wrong") =
      login usersAlice sampleSign sampleCompare false (some "alice") (some "wrong") :=
  ⟨by decide, by decide, by decide, by decide, by decide, by decide,
   login_failures_indistinguishable emptyUsers usersAlice sampleSign sampleCompare
     "alice" "wrong" (by decide) (by decide) (by decide) (by decide) (by decide)⟩

theorem signup_rows (users : UserTable) (hashed : Option String) (insertFails : Bool)
    (username password : Option String) :
    (signup users hashed insertFails username password).1 = users ∨
    ∃ u, (signup users hashed insertFails username password).1.rows = users.rows ++ [u] := by
  unfold signup
  by_cases h1 : (!truthy username || !truthy password) = true
  · rw [if_pos h1]
    exact Or.inl rfl
  · rw [if_neg h1]
    cases hashed with
    | none => exact Or.inl rfl
    | some h =>
      simp only
      by_cases h2 : insertFails = true
      · rw [if_pos h2]
        exact Or.inl rfl
      · rw [if_neg h2]
        by_cases h3 : (users.rows.find?
            (fun u => decide (some u.username = username))).isSome = true
        · rw [if_pos h3]
          exact Or.inl rfl
        · rw [if_neg h3]
          exact Or.inr ⟨_, rfl⟩

theorem mem_runSignups (requests : List SignupRequest) (users : UserTable) (u : User)
    (h : u ∈ users.rows) : u ∈ (runSignups users requests).rows := by
  induction requests generalizing users with
  | nil => exact h
  | cons r rest ih =>
    apply ih
    show u ∈ (signup users r.hashed r.insertFails r.username r.password).1.rows
    rcases signup_rows users r.hashed r.insertFails r.username r.password with hs | ⟨v, hs⟩
    · rw [hs]
      exact h
    · rw [hs]
      exact List.mem_append_left _ h

theorem signup_conflict (users : UserTable) (hashedPassword username password : String)
    (hu : username ≠ "") (hp : password ≠ "")
    (hknown : ∃ u ∈ users.rows, u.username = username) :
    signup users (some hashedPassword) false (some username) (some password) =
      (users, ⟨409, Body.error "Username already exists"⟩) := by
  obtain ⟨row, hrow, _, _⟩ := find_user_some users username hknown
  unfold signup
  simp only [truthy_some username hu, truthy_some password hp, Bool.not_true, Bool.or_self,
    Bool.false_eq_true, if_false, hrow, Option.isSome_some, if_true]

theorem signup_fresh (users : UserTable) (hashedPassword username password : String)
    (hu : username ≠ "") (hp : password ≠ "")
    (hfresh : ∀ u ∈ users.rows, u.username ≠ username) :
    signup users (some hashedPassword) false (some username) (some password) =
      ({ rows := users.rows ++
           [{ id := nextId users.seq (users.rows.map (fun u => u.id)), username := username,
              password := hashedPassword, role := "user" }],
         seq := nextId users.seq (users.rows.map (fun u => u.id)) },
       ⟨201, Body.registered "User registered successfully"
              (nextId users.seq (users.rows.map (fun u => u.id)))⟩) := by
  unfold signup
  simp only [truthy_some username hu, truthy_some password hp, Bool.not_true, Bool.or_self,
    Bool.false_eq_true, if_false, find_user_none users username hfresh, Option.isSome_none,
    Option.getD_some]

/-- C22 (as amended): for every non-empty username not yet in the user table
and every non-empty password, a signup whose hashing and INSERT report no
error answers 201 and appends exactly one user row, with a key no row has,
the username, the hash and role `user`; after any further signup requests,
every signup with the same username (non-empty password, hashing and INSERT
reporting no error) answers 409 and leaves the table as it is. -/
theorem signup_succeeds_once (users : UserTable) (hashedPassword username password : String)
    (hu : username ≠ "") (hp : password ≠ "")
    (hfresh : ∀ u ∈ users.rows, u.username ≠ username) :
    ∃ userId,
      (signup users (some hashedPassword) false (some username) (some password)).2 =
        ⟨201, Body.registered "User registered successfully" userId⟩ ∧
      (signup users (some hashedPassword) false (some username) (some password)).1.rows =
        users.rows ++ [{ id := userId, username := username, password := hashedPassword,
                         role := "user" }] ∧
      (∀ u ∈ users.rows, u.id ≠ userId) ∧
      ∀ (later : List SignupRequest) (hashedPassword2 password2 : String), password2 ≠ "" →
        signup (runSignups
            (signup users (some hashedPassword) false (some username) (some password)).1 later)
          (some hashedPassword2) false (some username) (some password2) =
        (runSignups
            (signup users (some hashedPassword) false (some username) (some password)).1 later,
          ⟨409, Body.error "Username already exists"⟩) := by
  rw [signup_fresh users hashedPassword username password hu hp hfresh]
  refine ⟨_, rfl, rfl, ?_, ?_⟩
  · intro u hu2
    have := lt_nextId users.seq (users.rows.map (fun u => u.id)) u.id
      (List.mem_map.mpr ⟨u, hu2, rfl⟩)
    omega
  · intro later h2 p2 hp2
    apply signup_conflict _ h2 username p2 hu hp2
    refine ⟨_, mem_runSignups later _ _ (List.mem_append_right _ (List.mem_singleton.mpr rfl)),
      rfl⟩

theorem signup_succeeds_once_witness :
    ("alice" : String) ≠ "" ∧ ("pw1" : String) ≠ "" ∧
    (∀ u ∈ emptyUsers.rows, u.username ≠ "alice") ∧
    ∃ userId,
      (signup emptyUsers (some "hash:pw1") false (some "alice") (some "pw1")).2 =
        ⟨201, Body.registered "User registered successfully" userId⟩ ∧
      (signup emptyUsers (some "hash:pw1") false (some "alice") (some "pw1")).1.rows =
        emptyUsers.rows ++ [{ id := userId, username := "alice", password := "hash:pw1",
                              role := "user" }] ∧
      (∀ u ∈ emptyUsers.rows, u.id ≠ userId) ∧
      ∀ (later : List SignupRequest) (hashedPassword2 password2 : String), password2 ≠ "" →
        signup (runSignups
            (signup emptyUsers (some "hash:pw1") false (some "alice") (some "pw1")).1 later)
          (some hashedPassword2) false (some "alice") (some password2) =
        (runSignups
            (signup emptyUsers (some "hash:pw1") false (some "alice") (some "pw1")).1 later,
          ⟨409, Body.error "Username already exists"⟩) :=
  ⟨by decide, by decide, by decide,
   signup_succeeds_once emptyUsers "hash:pw1" "alice" "pw1" (by decide) (by decide) (by decide)⟩

/-- C22 as stated fails: the empty string is a username that is not in the
empty user table and `pw` is a non-empty password, yet the signup answers 400
and adds no row; and a later signup for the taken username `alice` with an
empty password answers 400, not 409. -/
theorem signup_empty_username_rejected :
    (∀ u ∈ emptyUsers.rows, u.username ≠ "") ∧
    signup emptyUsers (some "hash:pw") false (some "") (some "pw") =
      (emptyUsers, ⟨400, Body.error "Username and password are required"⟩) ∧
    signup usersAlice (some "hash:") false (some "alice") (some "") =
      (usersAlice, ⟨400, Body.error "Username and password are required"⟩) ∧
    (runSignups usersAlice laterSignups).rows.map (fun u => (u.id, u.username, u.role)) =
      [(1, "alice", "user"), (2, "bob", "user")] := by
  decide

end InvestManager

namespace InvestManager

/-! ## The filtered list of the admin panel -/

theorem statusMatch_valid (filter : String) (app : PendingRow)
    (hf : filter = "all" ∨ filter = "pending" ∨ filter = "approved" ∨ filter = "rejected")
    (hs : app.application_status = "pending" ∨ app.application_status = "approved" ∨
      app.application_status = "rejected") :
    statusMatch filter app = decide (filter = "all" ∨ app.application_status = filter) := by
  unfold statusMatch
  rcases hf with h | h | h | h <;> rcases hs with h2 | h2 | h2 <;> rw [h, h2] <;> decide

theorem assignmentMatch_valid (assignmentFilter : String) (app : PendingRow)
    (ha : assignmentFilter = "all" ∨ assignmentFilter = "assigned" ∨
      assignmentFilter = "unassigned")
    (hid : app.assigned_to_employee_id ≠ some 0) :
    assignmentMatch assignmentFilter app =
      decide (assignmentFilter = "all" ∨
        (assignmentFilter = "assigned" ∧ app.assigned_to_employee_id ≠ Option.none) ∨
        (assignmentFilter = "unassigned" ∧ app.assigned_to_employee_id = Option.none)) := by
  unfold assignmentMatch
  cases hv : app.assigned_to_employee_id with
  | none =>
    rcases ha with h | h | h <;> rw [h] <;> decide
  | some n =>
    have hn : n ≠ 0 := by
      intro h0
      rw [hv, h0] at hid
      exact hid rfl
    have ht : truthyId (some n) = true := by
      unfold truthyId
      simpa using hn
    rw [ht]
    rcases ha with h | h | h <;> rw [h] <;> simp

/-- C24: for a list of application summaries as the server sends them (status
one of `pending`, `approved`, `rejected`; assignee NULL or a non-zero employee
key), a status filter among all/pending/approved/rejected and an assignment
filter among all/assigned/unassigned, the list shown is the sublist, in the
original order, of the summaries whose status passes the status filter and
whose assignment passes the assignment filter; with both filters `all`, any
list is returned unchanged. -/
theorem filteredApplications_spec (applications : List PendingRow)
    (filter assignmentFilter : String)
    (hf : filter = "all" ∨ filter = "pending" ∨ filter = "approved" ∨ filter = "rejected")
    (ha : assignmentFilter = "all" ∨ assignmentFilter = "assigned" ∨
      assignmentFilter = "unassigned")
    (hrows : ∀ app ∈ applications,
      (app.application_status = "pending" ∨ app.application_status = "approved" ∨
        app.application_status = "rejected") ∧
      app.assigned_to_employee_id ≠ some 0) :
    filteredApplications applications filter assignmentFilter =
      applications.filter (fun app => decide (
        (filter = "all" ∨ app.application_status = filter) ∧
        (assignmentFilter = "all" ∨
          (assignmentFilter = "assigned" ∧ app.assigned_to_employee_id ≠ Option.none) ∨
          (assignmentFilter = "unassigned" ∧ app.assigned_to_employee_id = Option.none)))) ∧
    (∀ anyList : List PendingRow, filteredApplications anyList "all" "all" = anyList) := by
  constructor
  · unfold filteredApplications
    apply List.filter_congr
    intro app happ
    obtain ⟨hs, hid⟩ := hrows app happ
    rw [statusMatch_valid filter app hf hs, assignmentMatch_valid assignmentFilter app ha hid,
      Bool.decide_and]
  · intro anyList
    unfold filteredApplications
    rw [List.filter_eq_self]
    intro app _
    rfl

end InvestManager

namespace InvestManager

theorem filteredApplications_spec_witness :
    (("pending" : String) = "all" ∨ ("pending" : String) = "pending" ∨
      ("pending" : String) = "approved" ∨ ("pending" : String) = "rejected") ∧
    (("assigned" : String) = "all" ∨ ("assigned" : String) = "assigned" ∨
      ("assigned" : String) = "unassigned") ∧
    (∀ app ∈ sampleSummaries,
      (app.application_status = "pending" ∨ app.application_status = "approved" ∨
        app.application_status = "rejected") ∧
      app.assigned_to_employee_id ≠ some 0) ∧
    (filteredApplications sampleSummaries "pending" "assigned").map (fun app => app.id) = [3] ∧
    filteredApplications sampleSummaries "pending" "assigned" =
      sampleSummaries.filter (fun app => decide (
        (("pending" : String) = "all" ∨ app.application_status = "pending") ∧
        (("assigned" : String) = "all" ∨
          (("assigned" : String) = "assigned" ∧ app.assigned_to_employee_id ≠ Option.none) ∨
          (("assigned" : String) = "unassigned" ∧
            app.assigned_to_employee_id = Option.none)))) :=
  ⟨by decide, by decide, by decide, by decide,
   (filteredApplications_spec sampleSummaries "pending" "assigned" (by decide) (by decide)
     (by decide)).1⟩

/-! ## Fund selection in the onboarding form -/

theorem findIndex_none {α : Type} (p : α → Bool) (l : List α)
    (h : ∀ x ∈ l, p x = false) : findIndex p l = Option.none := by
  induction l with
  | nil => rfl
  | cons x xs ih =>
    unfold findIndex
    rw [h x (List.mem_cons_self _ _)]
    simp only [Bool.false_eq_true, if_false]
    rw [ih (fun y hy => h y (List.mem_cons_of_mem _ hy))]
    rfl

theorem findIndex_some {α : Type} (p : α → Bool) (l : List α) (h : ∃ x ∈ l, p x = true) :
    ∃ pre x post, l = pre ++ x :: post ∧ p x = true ∧ (∀ y ∈ pre, p y = false) ∧
      findIndex p l = some pre.length := by
  induction l with
  | nil =>
    obtain ⟨x, hx, _⟩ := h
    cases hx
  | cons y ys ih =>
    cases hy : p y with
    | true =>
      refine ⟨[], y, ys, rfl, hy, ?_, ?_⟩
      · intro z hz
        cases hz
      · unfold findIndex
        rw [hy]
        rfl
    | false =>
      have hex : ∃ x ∈ ys, p x = true := by
        obtain ⟨x, hx, hpx⟩ := h
        rcases List.mem_cons.mp hx with hxy | hxs
        · rw [hxy, hy] at hpx
          cases hpx
        · exact ⟨x, hxs, hpx⟩
      obtain ⟨pre, x, post, hl, hpx, hpre, hfi⟩ := ih hex
      refine ⟨y :: pre, x, post, by rw [hl]; rfl, hpx, ?_, ?_⟩
      · intro z hz
        rcases List.mem_cons.mp hz with hzy | hzp
        · rw [hzy]
          exact hy
        · exact hpre z hzp
      · unfold findIndex
        rw [hy, hfi]
        rfl

theorem removeAt_append {α : Type} (pre : List α) (x : α) (post : List α) :
    removeAt pre.length (pre ++ x :: post) = pre ++ post := by
  induction pre with
  | nil => rfl
  | cons y ys ih =>
    show y :: removeAt ys.length (ys ++ x :: post) = y :: (ys ++ post)
    rw [ih]

theorem replaceAt_append {α : Type} (f : α → α) (pre : List α) (x : α) (post : List α) :
    replaceAt f pre.length (pre ++ x :: post) = pre ++ f x :: post := by
  induction pre with
  | nil => rfl
  | cons y ys ih =>
    show y :: replaceAt f ys.length (ys ++ x :: post) = y :: (ys ++ f x :: post)
    rw [ih]

theorem leZero_eq_not_gtZero (x : JsNumber) (h : x ≠ JsNumber.nan) :
    x.leZero = !x.gtZero := by
  cases x with
  | nan => exact absurd rfl h
  | negInfinity => rfl
  | infinity => rfl
  | finite q =>
    unfold JsNumber.leZero JsNumber.gtZero
    by_cases hq : q ≤ 0
    · simp [hq, not_lt.mpr hq]
    · simp [hq, not_le.mp hq]

end InvestManager

namespace InvestManager

/-- C27: for an entered amount that is empty or numeric, the new selection is:
when the fund is already selected, the list with the first entry of that fund
removed if the amount is empty or not positive, and otherwise the list with
that entry, in place, carrying the parsed amount; when the fund is not
selected, the list with an entry of the fund's id, name and the parsed amount
appended if the amount is positive and the fund is among the available funds,
and otherwise the list unchanged; every other entry is as it was. -/
theorem handleFundSelectionChange_spec (parseFloat : String → JsNumber)
    (availableFunds : List AvailableFund) (selectedFunds : List SelectedFund)
    (fundId : Int) (amount : String)
    (hnum : amount = "" ∨ parseFloat amount ≠ JsNumber.nan) :
    ((∃ x ∈ selectedFunds, x.id = fundId) →
      ∃ pre x post, selectedFunds = pre ++ x :: post ∧ x.id = fundId ∧
        (∀ y ∈ pre, y.id ≠ fundId) ∧
        ((amount = "" ∨ (parseFloat amount).gtZero = false) →
          handleFundSelectionChange parseFloat availableFunds selectedFunds fundId amount =
            pre ++ post) ∧
        ((amount ≠ "" ∧ (parseFloat amount).gtZero = true) →
          handleFundSelectionChange parseFloat availableFunds selectedFunds fundId amount =
            pre ++ { x with amount := parseFloat amount } :: post)) ∧
    ((∀ x ∈ selectedFunds, x.id ≠ fundId) →
      ((amount ≠ "" ∧ (parseFloat amount).gtZero = true ∧
          ∃ f ∈ availableFunds, f.id = fundId) →
        ∃ fund ∈ availableFunds, fund.id = fundId ∧
          handleFundSelectionChange parseFloat availableFunds selectedFunds fundId amount =
            selectedFunds ++
              [{ id := fundId, name := fund.name, amount := parseFloat amount }]) ∧
      ((amount = "" ∨ (parseFloat amount).gtZero = false ∨
          ∀ f ∈ availableFunds, f.id ≠ fundId) →
        handleFundSelectionChange parseFloat availableFunds selectedFunds fundId amount =
          selectedFunds)) := by
  constructor
  · intro hsel
    have hex : ∃ x ∈ selectedFunds,
        (fun fund : SelectedFund => decide (fund.id = fundId)) x = true := by
      obtain ⟨x, hx, hid⟩ := hsel
      exact ⟨x, hx, by simp [hid]⟩
    obtain ⟨pre, x, post, hl, hpx, hpre, hfi⟩ := findIndex_some _ selectedFunds hex
    have hxid : x.id = fundId := by simpa using hpx
    refine ⟨pre, x, post, hl, hxid, ?_, ?_, ?_⟩
    · intro y hy
      simpa using hpre y hy
    · intro hrem
      have hcond : amount = "" ∨ (parseFloat amount).leZero = true := by
        rcases hrem with h | h
        · exact Or.inl h
        · rcases hnum with h0 | h0
          · exact Or.inl h0
          · right
            rw [leZero_eq_not_gtZero _ h0, h]
            rfl
      unfold handleFundSelectionChange
      rw [hfi]
      simp only
      rw [if_pos hcond, hl, removeAt_append]
    · rintro ⟨hne, hpos⟩
      have hcond : ¬ (amount = "" ∨ (parseFloat amount).leZero = true) := by
        rintro (h | h)
        · exact hne h
        · rcases hnum with h0 | h0
          · exact hne h0
          · rw [leZero_eq_not_gtZero _ h0, hpos] at h
            cases h
      unfold handleFundSelectionChange
      rw [hfi]
      simp only
      rw [if_neg hcond, hl, replaceAt_append]
  · intro hnot
    have hfi : findIndex (fun fund : SelectedFund => decide (fund.id = fundId)) selectedFunds =
        Option.none := by
      apply findIndex_none
      intro x hx
      simpa using hnot x hx
    constructor
    · rintro ⟨hne, hpos, hav⟩
      cases hfind : availableFunds.find? (fun f => decide (f.id = fundId)) with
      | none =>
        exfalso
        obtain ⟨f, hf, hid⟩ := hav
        have := List.find?_eq_none.mp hfind f hf
        simp [hid] at this
      | some fund =>
        have hfid : fund.id = fundId := by simpa using List.find?_some hfind
        refine ⟨fund, List.mem_of_find?_eq_some hfind, hfid, ?_⟩
        unfold handleFundSelectionChange
        rw [hfi]
        simp only
        rw [if_pos ⟨hne, hpos⟩, hfind]
        simp only [hfid]
    · intro hno
      unfold handleFundSelectionChange
      rw [hfi]
      simp only
      by_cases hc : amount ≠ "" ∧ (parseFloat amount).gtZero = true
      · rw [if_pos hc]
        rcases hno with h | h | h
        · exact absurd h hc.1
        · rw [hc.2] at h
          cases h
        · have hfind : availableFunds.find? (fun f => decide (f.id = fundId)) = Option.none := by
            rw [List.find?_eq_none]
            intro f hf
            simpa using h f hf
          rw [hfind]
      · rw [if_neg hc]

theorem handleFundSelectionChange_spec_witness :
    (("250" : String) = "" ∨ sampleParseFloat "250" ≠ JsNumber.nan) ∧
    (∃ x ∈ sampleSelection, x.id = 2) ∧
    handleFundSelectionChange sampleParseFloat lowRiskFunds sampleSelection 2 "250" =
      [ { id := 1, name := "Conservative Bond Fund", amount := JsNumber.finite 100 },
        { id := 2, name := "Money Market Fund", amount := JsNumber.finite 250 } ] ∧
    handleFundSelectionChange sampleParseFloat lowRiskFunds sampleSelection 1 "0" =
      [ { id := 2, name := "Money Market Fund", amount := JsNumber.finite 200 } ] ∧
    (∃ pre x post, sampleSelection = pre ++ x :: post ∧ x.id = 2 ∧
        (∀ y ∈ pre, y.id ≠ 2) ∧
        ((("250" : String) = "" ∨ (sampleParseFloat "250").gtZero = false) →
          handleFundSelectionChange sampleParseFloat lowRiskFunds sampleSelection 2 "250" =
            pre ++ post) ∧
        ((("250" : String) ≠ "" ∧ (sampleParseFloat "250").gtZero = true) →
          handleFundSelectionChange sampleParseFloat lowRiskFunds sampleSelection 2 "250" =
            pre ++ { x with amount := sampleParseFloat "250" } :: post)) :=
  ⟨by decide, by decide, by decide, by decide,
   (handleFundSelectionChange_spec sampleParseFloat lowRiskFunds sampleSelection 2 "250"
     (by decide)).1 (by decide)⟩

end InvestManager

namespace InvestManager

/-! ## Injectivity of the stored file name -/

theorem digitChar_decimal : ∀ k < 10,
    (Nat.digitChar k).toNat - 48 = k ∧ Nat.digitChar k ≠ '-' := by
  decide

theorem toDigitsCore_acc (fuel : Nat) : ∀ (n : Nat) (ds : List Char),
    Nat.toDigitsCore 10 fuel n ds = Nat.toDigitsCore 10 fuel n [] ++ ds := by
  induction fuel with
  | zero =>
    intro n ds
    rfl
  | succ f ih =>
    intro n ds
    simp only [Nat.toDigitsCore]
    split_ifs
    · rfl
    · rw [ih (n / 10) (Nat.digitChar (n % 10) :: ds), ih (n / 10) [Nat.digitChar (n % 10)]]
      simp

theorem digitsValue_append_singleton (ds : List Char) (c : Char) :
    digitsValue (ds ++ [c]) = digitsValue ds * 10 + (c.toNat - 48) := by
  unfold digitsValue
  rw [List.foldl_append]
  rfl

theorem toDigitsCore_value (fuel : Nat) : ∀ n : Nat, n < fuel →
    digitsValue (Nat.toDigitsCore 10 fuel n []) = n ∧
    '-' ∉ Nat.toDigitsCore 10 fuel n [] := by
  induction fuel with
  | zero =>
    intro n hn
    omega
  | succ f ih =>
    intro n hn
    have hd := digitChar_decimal (n % 10) (Nat.mod_lt n (by decide))
    simp only [Nat.toDigitsCore]
    split_ifs with h0
    · constructor
      · show digitsValue ([] ++ [Nat.digitChar (n % 10)]) = n
        rw [digitsValue_append_singleton, hd.1]
        show 0 * 10 + n % 10 = n
        omega
      · intro hmem
        rw [List.mem_singleton] at hmem
        exact hd.2 hmem.symm
    · have hlt : n / 10 < f := by omega
      obtain ⟨hv, hno⟩ := ih (n / 10) hlt
      rw [toDigitsCore_acc f (n / 10) [Nat.digitChar (n % 10)]]
      constructor
      · rw [digitsValue_append_singleton, hv, hd.1]
        omega
      · intro hmem
        rcases List.mem_append.mp hmem with hm | hm
        · exact hno hm
        · rw [List.mem_singleton] at hm
          exact hd.2 hm.symm

theorem toDigits_value (n : Nat) :
    digitsValue (Nat.toDigits 10 n) = n ∧ '-' ∉ Nat.toDigits 10 n :=
  toDigitsCore_value (n + 1) n (Nat.lt_succ_self n)

theorem split_at_dash : ∀ (a b x y : List Char), '-' ∉ a → '-' ∉ b →
    a ++ '-' :: x = b ++ '-' :: y → a = b ∧ x = y := by
  intro a
  induction a with
  | nil =>
    intro b x y _ hb h
    cases b with
    | nil =>
      simp only [List.nil_append] at h
      injection h with _ h2
      exact ⟨rfl, h2⟩
    | cons c cs =>
      exfalso
      simp only [List.nil_append, List.cons_append] at h
      injection h with h1 _
      exact hb (by rw [← h1]; exact List.mem_cons_self _ _)
  | cons c cs ih =>
    intro b x y ha hb h
    cases b with
    | nil =>
      exfalso
      simp only [List.nil_append, List.cons_append] at h
      injection h with h1 _
      exact ha (by rw [h1]; exact List.mem_cons_self _ _)
    | cons d ds =>
      simp only [List.cons_append] at h
      injection h with h1 h2
      obtain ⟨h3, h4⟩ := ih ds x y (fun hm => ha (List.mem_cons_of_mem _ hm))
        (fun hm => hb (List.mem_cons_of_mem _ hm)) h2
      exact ⟨by rw [h1, h3], h4⟩

theorem storedFilename_data (dateNow : Nat) (originalname : String) :
    (storedFilename dateNow originalname).data =
      Nat.toDigits 10 dateNow ++ '-' :: originalname.data := by
  unfold storedFilename
  rw [String.data_append, String.data_append]
  show (Nat.toDigits 10 dateNow ++ ['-']) ++ originalname.data = _
  simp

/-- C30: the stored file names written for clock readings `t1`, `t2` and
original names `n1`, `n2` are equal exactly when `t1 = t2` and `n1 = n2`,
whatever characters the original names contain. -/
theorem storedFilename_injective (t1 t2 : Nat) (n1 n2 : String) :
    storedFilename t1 n1 = storedFilename t2 n2 ↔ (t1 = t2 ∧ n1 = n2) := by
  constructor
  · intro h
    have hdata := congrArg String.data h
    rw [storedFilename_data, storedFilename_data] at hdata
    obtain ⟨hd, hn⟩ := split_at_dash _ _ _ _ (toDigits_value t1).2 (toDigits_value t2).2 hdata
    constructor
    · have h1 := (toDigits_value t1).1
      rw [hd, (toDigits_value t2).1] at h1
      exact h1.symm
    · exact String.ext hn
  · rintro ⟨rfl, rfl⟩
    rfl

end InvestManager

namespace InvestManager

/-- The summaries the pending endpoint sends in a state reached from the empty
database are pending and unassigned, so they are within the scope of the
filter theorem. -/
theorem pendingQuery_rows_wellformed (ops : List Op) :
    ∀ r ∈ pendingQuery (run emptyDb ops),
      r.application_status = "pending" ∧ r.assigned_to_employee_id = Option.none := by
  intro r hr
  obtain ⟨oa, _, t, ht, _, hpend, hopen, rfl⟩ := mem_pendingQuery _ r hr
  exact ⟨hpend, openUnassigned_run ops emptyDb (fun u hu => by cases hu) t ht hopen⟩

end InvestManager

namespace InvestManager

/-! ## Requests without a usable token -/

/-- An authorization header that is present and empty makes the token
expression the empty string, not `undefined`; when the verifier rejects the
empty string, every route behind the middleware answers 403. -/
theorem empty_header_forbidden (verify : String → Option TokenUser)
    (hempty : verify "" = Option.none) (db : Db) (handler : TokenUser → Db × Response) :
    bearerToken (some "") = some "" ∧
    authenticateJWT verify (some "") = AuthResult.rejected ⟨403, Body.none⟩ ∧
    protectedRoute verify (some "") db handler = (db, ⟨403, Body.none⟩) := by
  have h1 : authenticateJWT verify (some "") = AuthResult.rejected ⟨403, Body.none⟩ := by
    unfold authenticateJWT
    have hb : bearerToken (some "") = some "" := rfl
    rw [hb]
    simp only [hempty]
  refine ⟨rfl, h1, ?_⟩
  unfold protectedRoute
  rw [h1]

/-- C19 at its failing input: a request to the dashboard whose authorization
header is present and empty carries no token, yet the middleware does not
answer 401: the token expression is the empty string, its verification fails
and the answer is 403. A header with two spaces before a valid token is
answered 403 as well, although the same token after one space is accepted. -/
theorem empty_authorization_header_gets_403 :
    sampleVerify "" = Option.none ∧
    bearerToken (some "") = some "" ∧
    authenticateJWT sampleVerify (some "") = AuthResult.rejected ⟨403, Body.none⟩ ∧
    dashboardEndpoint sampleVerify (some "") emptyDb = (emptyDb, ⟨403, Body.none⟩) ∧
    dashboardEndpoint sampleVerify Option.none emptyDb = (emptyDb, ⟨401, Body.none⟩) ∧
    dashboardEndpoint sampleVerify (some "Bearer  tok-alice") emptyDb =
      (emptyDb, ⟨403, Body.none⟩) ∧
    dashboardEndpoint sampleVerify (some "Bearer tok-alice") emptyDb =
      (emptyDb, ⟨200, Body.dashboard "Welcome to the dashboard!" sampleUser⟩) := by
  decide

/-! ## Two submissions in one second -/

/-- C20 at its failing input: user 7 submits twice within one clock second
(applications 1 and 2 carry the same `submission_date`), application 2 is then
rejected, and the status endpoint asked for user 7 answers `pending`, the
status of application 1, although the most recently submitted application is
application 2, whose status is `rejected`. -/
theorem onboardingStatus_tie_returns_older :
    (run emptyDb tieRequests).applications.map
        (fun oa => (oa.id, oa.user_id, oa.submission_date, oa.status)) =
      [(1, 7, 50, "pending"), (2, 7, 50, "rejected")] ∧
    (latestApplication (run emptyDb tieRequests) 7).map (fun oa => oa.id) = some 1 ∧
    onboardingStatus (run emptyDb tieRequests) false sampleUser (some 7) =
      ⟨200, Body.onboardingStatus "pending"⟩ ∧
    (onboardingStatusEndpoint sampleVerify (some "Bearer tok-alice") (run emptyDb tieRequests)
      false (some 7)).2 = ⟨200, Body.onboardingStatus "pending"⟩ := by
  decide

end InvestManager
